import Mathlib

/-!
# cube: scheduling and reconciliation core

A shallow embedding of the Go packages `task`, `node`, `scheduler`, `store`
and `manager` of the cube orchestrator, followed by theorems about them.

Conventions of the embedding.

* Go `int`, `int64` values are `Int`; the operations that can leave the 64-bit
  range are written with `wrap64`. `uint64` values are `Nat`, reduced modulo
  `2 ^ 64`.
* In arithmetic, `float64` values are elements of an ordered field `R` (exact
  arithmetic) and `math.Pow` is a parameter `pow : R → R → R`. In the two `Pick`
  methods, which only compare scores, the scores are of any type with a zero
  and a decidable `<`, among them `Float64 R`, which adds the NaN of `float64`
  and its comparisons.
* A Go map is an association list with at most one live binding per key
  (`GoMap`); a missing key reads as the zero value, as in Go.
* A slice built by `var s []T` and `append` is a `List`; such a slice is `nil`
  exactly when it is empty.
* A `uuid.UUID` is identified with its canonical string, so `ID.String()` is
  the identity.
* Replies of the network (HTTP responses, decoded bodies) are explicit
  arguments of the functions that perform the calls.
-/

namespace Cube

/-! ## Go maps -/

/-- A Go `map[κ]ν`: the bindings in insertion order. -/
abbrev GoMap (κ ν : Type) := List (κ × ν)

namespace GoMap

variable {κ ν : Type} [DecidableEq κ]

/-- The two-valued lookup `v, ok := m[k]`. -/
def get? (m : GoMap κ ν) (k : κ) : Option ν :=
  match m with
  | [] => none
  | (k', v) :: rest => if k' = k then some v else get? rest k

/-- The assignment `m[k] = v`: overwrite the binding of `k`, or add one. -/
def set (m : GoMap κ ν) (k : κ) (v : ν) : GoMap κ ν :=
  match m with
  | [] => [(k, v)]
  | (k', v') :: rest => if k' = k then (k, v) :: rest else (k', v') :: set rest k v

/-- The one-valued lookup `m[k]`, which yields the zero value `z` on a miss. -/
def getD (m : GoMap κ ν) (k : κ) (z : ν) : ν :=
  (m.get? k).getD z

end GoMap

/-! ## 64-bit integers -/

/-- Two's-complement reduction of an integer to the `int64` range. -/
def wrap64 (x : Int) : Int :=
  (x + 2 ^ 63) % 2 ^ 64 - 2 ^ 63

/-- The Go conversion `int64(x)` of a `uint64` value. -/
def toInt64 (x : Nat) : Int :=
  if x % 2 ^ 64 < 2 ^ 63 then ((x % 2 ^ 64 : Nat) : Int)
  else ((x % 2 ^ 64 : Nat) : Int) - 2 ^ 64

/-- Go `a - b` on `int64`. -/
def sub64 (a b : Int) : Int := wrap64 (a - b)

/-- Go `a + b` on `int` (64 bits). -/
def add64 (a b : Int) : Int := wrap64 (a + b)

/-- Go `a / b` on `int64` for `b ≠ 0`: the quotient truncated toward zero. -/
def div64 (a b : Int) : Int := wrap64 (Int.tdiv a b)

/-- Reduction of a natural number to the `uint64` range. -/
def wrapU64 (x : Nat) : Nat := x % 2 ^ 64

/-- Go `a - b` on `uint64`. -/
def subU64 (a b : Nat) : Nat := (a % 2 ^ 64 + 2 ^ 64 - b % 2 ^ 64) % 2 ^ 64

/-! ## float64 comparisons -/

/-- A `float64` as the comparisons of Go see it: a NaN, or a number of the
ordered type `R` (which may hold the two infinities). -/
inductive Float64 (R : Type) where
  | nan
  | num (x : R)
deriving DecidableEq

namespace Float64

variable {R : Type}

/-- The Go comparison `a < b` of two `float64`: false when a side is a NaN. -/
def lt [LT R] : Float64 R → Float64 R → Prop
  | num x, num y => x < y
  | _, _ => False

/-- The Go comparison `a <= b` of two `float64`: false when a side is a NaN. -/
def le [LE R] : Float64 R → Float64 R → Prop
  | num x, num y => x ≤ y
  | _, _ => False

/-- The number a `float64` holds; 0 stands in for a NaN. -/
def val [Zero R] : Float64 R → R
  | num x => x
  | nan => 0

instance [Zero R] : Zero (Float64 R) := ⟨num 0⟩

instance [LT R] : LT (Float64 R) := ⟨lt⟩

instance [LE R] : LE (Float64 R) := ⟨le⟩

instance [LT R] [∀ a b : R, Decidable (a < b)] : ∀ a b : Float64 R, Decidable (a < b)
  | num x, num y => inferInstanceAs (Decidable (x < y))
  | num _, nan => isFalse (fun h => h)
  | nan, _ => isFalse (fun h => h)

instance [LE R] [∀ a b : R, Decidable (a ≤ b)] : ∀ a b : Float64 R, Decidable (a ≤ b)
  | num x, num y => inferInstanceAs (Decidable (x ≤ y))
  | num _, nan => isFalse (fun h => h)
  | nan, _ => isFalse (fun h => h)

end Float64

/-! ## package task -/

namespace task

/-- The type `State int` of task/task.go. -/
abbrev State := Int

def Pending : State := 0
def Scheduled : State := 1
def Running : State := 2
def Completed : State := 3
def Failed : State := 4

/-- The table `stateTransitions` of task/state.go. -/
def stateTransitions : GoMap State (List State) :=
  [ (Pending, [Scheduled]),
    (Scheduled, [Scheduled, Running, Failed]),
    (Running, [Running, Completed, Failed]),
    (Completed, []),
    (Failed, []) ]

/-- The function `Contains` of task/state.go. -/
def Contains (states : List State) (state : State) : Bool :=
  match states with
  | [] => false
  | v :: rest => if v = state then true else Contains rest state

/-- The function `ValidateTransitions` of task/state.go; a source state that is
not a key of the table reads as the nil slice. -/
def ValidateTransitions (src dst : State) : Bool :=
  Contains (stateTransitions.getD src []) dst

end task

namespace task

/-- A `uuid.UUID`, identified with its canonical string. -/
abbrev UUID := String

/-- The struct `Task` of task/task.go. Times are instants on an integer clock;
port sets and port maps are lists of their entries. -/
structure Task where
  ID : UUID
  ContainerID : String
  Name : String
  State : State
  Image : String
  Cpu : ℚ
  Memory : Int
  Disk : Int
  ExposedPorts : List String
  PortBindings : List (String × String)
  HostPorts : List (String × List (String × String))
  RestartPolicy : String
  Healthcheck : String
  RestartCount : Int
  StartTime : Int
  FinishTime : Int
deriving DecidableEq

/-- The zero value `task.Task{}`. -/
def Task.zero : Task :=
  { ID := "00000000-0000-0000-0000-000000000000", ContainerID := "", Name := "", State := 0,
    Image := "", Cpu := 0,
    Memory := 0, Disk := 0, ExposedPorts := [], PortBindings := [], HostPorts := [],
    RestartPolicy := "", Healthcheck := "", RestartCount := 0, StartTime := 0,
    FinishTime := 0 }

/-- The struct `Event` of task/task.go. -/
structure Event where
  ID : UUID
  State : State
  Timestamp : Int
  Task : Task
deriving DecidableEq

end task

/-! ## package worker: host statistics -/

namespace worker

/-- Modelled from the spec: the cpu counters of `worker.Stats` (user, nice,
system, idle, iowait, irq, softirq, steal); the declaration of the type is not
among the sources. The counters are `uint64`. -/
structure CpuStats where
  User : Nat
  Nice : Nat
  System : Nat
  Idle : Nat
  IOWait : Nat
  IRQ : Nat
  SoftIRQ : Nat
  Steal : Nat
deriving DecidableEq

/-- Modelled from the spec: the type `worker.Stats`, whose declaration is not
among the sources. The fields `MemTotalKb`, `MemUsedKb` and `DiskTotal` hold
what the methods of these names return (`uint64`). -/
structure Stats where
  MemTotalKb : Nat
  MemUsedKb : Nat
  DiskTotal : Nat
  CpuStats : CpuStats
  TaskCount : Int
deriving DecidableEq

/-- The counters of a zero `worker.Stats{}`. -/
def CpuStats.zero : CpuStats :=
  { User := 0, Nice := 0, System := 0, Idle := 0, IOWait := 0, IRQ := 0, SoftIRQ := 0,
    Steal := 0 }

/-- The zero value `worker.Stats{}`. -/
def Stats.zero : Stats :=
  { MemTotalKb := 0, MemUsedKb := 0, DiskTotal := 0, CpuStats := CpuStats.zero,
    TaskCount := 0 }

end worker

/-! ## package node -/

namespace node

/-- The struct `Node` of node/node.go. The schedulers and the manager hold
nodes through pointers (`[]*node.Node`); `addr` is the identity of the pointed
object, so that an update made through one pointer can be written back to the
manager's list. No Go code reads it. -/
structure Node where
  addr : Nat
  Name : String
  IP : String
  Api : String
  Cores : Int
  Memory : Int
  MemoryAllocated : Int
  Disk : Int
  DiskAllocated : Int
  Stats : worker.Stats
  Role : String
  TaskCount : Int
deriving DecidableEq

/-- The constructor `NewNode` of node/node.go, allocating at `addr`. -/
def NewNode (addr : Nat) (name api role : String) : Node :=
  { addr := addr, Name := name, IP := "", Api := api, Cores := 0, Memory := 0,
    MemoryAllocated := 0, Disk := 0, DiskAllocated := 0, Stats := worker.Stats.zero,
    Role := role, TaskCount := 0 }

/-- The method `GetStats` of node/node.go. `reply` is what the GET of
`{api}/stats` yields after the retries: `none` for a connection failure, a
status other than 200 or a body that does not decode, `some stats` for the
decoded body. On success the node is refreshed and the method returns the
pointer `&n.Stats` (here: `true`; the pointee is read from the node). -/
def Node.GetStats (n : Node) (reply : Option worker.Stats) : Node × Bool :=
  match reply with
  | none => (n, false)
  | some stats =>
    ({ n with Memory := toInt64 stats.MemTotalKb, Disk := toInt64 stats.DiskTotal,
              Stats := stats }, true)

end node

/-! ## package scheduler -/

namespace scheduler

open task node

section
variable {R : Type} [LinearOrderedField R]

/-- The struct `RoundRobin`. -/
structure RoundRobin where
  Name : String
  LastWorker : Int
deriving DecidableEq

/-- The method `RoundRobin.SelectCandidateNodes`. -/
def RoundRobin.SelectCandidateNodes (_r : RoundRobin) (_t : Task) (nodes : List Node) :
    List Node :=
  nodes

/-- The loop `for idx, n := range nodes` of `RoundRobin.Score`. -/
def RoundRobin.scoreLoop (newWorker : Int) :
    Nat → List Node → GoMap String R → GoMap String R
  | _, [], nodeScores => nodeScores
  | idx, n :: rest, nodeScores =>
    if (idx : Int) = newWorker then
      RoundRobin.scoreLoop newWorker (idx + 1) rest (nodeScores.set n.Name 0.1)
    else
      RoundRobin.scoreLoop newWorker (idx + 1) rest (nodeScores.set n.Name 1.0)

/-- The method `RoundRobin.Score`; the second component is the receiver after
the call. The increment is guarded by `LastWorker < len(nodes)`, so it cannot
leave the range of `int`. -/
def RoundRobin.Score (r : RoundRobin) (_t : Task) (nodes : List Node) :
    GoMap String R × RoundRobin :=
  if r.LastWorker < (nodes.length : Int) then
    (RoundRobin.scoreLoop (r.LastWorker + 1) 0 nodes [],
      { r with LastWorker := r.LastWorker + 1 })
  else
    (RoundRobin.scoreLoop 0 0 nodes [], { r with LastWorker := 0 })

/-- The loop of `RoundRobin.Pick`, with the variables `bestNode` and
`lowestScore`. The scores are of any type `S` with a zero and a decidable `<`:
an ordered field for exact arithmetic, or `Float64 R` for scores that may be
NaN. -/
def RoundRobin.pickLoop {S : Type} [Zero S] [LT S] [∀ a b : S, Decidable (a < b)]
    (scores : GoMap String S) :
    Nat → List Node → Option Node → S → Option Node
  | _, [], bestNode, _ => bestNode
  | idx, n :: rest, bestNode, lowestScore =>
    if idx = 0 then
      RoundRobin.pickLoop scores (idx + 1) rest (some n) (scores.getD n.Name 0)
    else if scores.getD n.Name 0 < lowestScore then
      RoundRobin.pickLoop scores (idx + 1) rest (some n) (scores.getD n.Name 0)
    else
      RoundRobin.pickLoop scores (idx + 1) rest bestNode lowestScore

/-- The method `RoundRobin.Pick`; `none` is the nil pointer. -/
def RoundRobin.Pick {S : Type} [Zero S] [LT S] [∀ a b : S, Decidable (a < b)]
    (scores : GoMap String S) (candidates : List Node) : Option Node :=
  RoundRobin.pickLoop scores 0 candidates none 0

/-- The running minimum kept by the loops of `Pick`, as a fold step. -/
def keepMin {S : Type} [LT S] [∀ a b : S, Decidable (a < b)] (f : Node → S) (c n : Node) :
    Node :=
  if f n < f c then n else c

/-- The struct `EPvm`. -/
structure EPvm where
  Name : String
deriving DecidableEq

/-- The function `checkDisk`. -/
def checkDisk (t : Task) (diskAvailable : Int) : Bool :=
  decide (t.Disk ≤ diskAvailable)

/-- The loop of `EPvm.SelectCandidateNodes`, appending to `candidates`. -/
def EPvm.selectLoop (t : Task) : List Node → List Node → List Node
  | [], candidates => candidates
  | n :: rest, candidates =>
    if checkDisk t (sub64 n.Disk n.DiskAllocated) then
      EPvm.selectLoop t rest (candidates ++ [n])
    else
      EPvm.selectLoop t rest candidates

/-- The method `EPvm.SelectCandidateNodes`; the empty list is the nil slice. -/
def EPvm.SelectCandidateNodes (t : Task) (nodes : List Node) : List Node :=
  EPvm.selectLoop t nodes []

/-- The constant `LIEB`. -/
def LIEB : R := 1.53960071783900203869

/-- The function `calculateLoad`. -/
def calculateLoad (usage capacity : R) : R :=
  usage / capacity

/-- Lines 130-147 of scheduler/scheduler.go: the usage computed from the
pointees of `stat1` and `stat2`, in `uint64` arithmetic up to the conversion to
`float64`. -/
def cpuPercentUsage (stat1 stat2 : worker.Stats) : R :=
  let stat1Idle := wrapU64 (stat1.CpuStats.Idle + stat1.CpuStats.IOWait)
  let stat2Idle := wrapU64 (stat2.CpuStats.Idle + stat2.CpuStats.IOWait)
  let stat1NonIdle := wrapU64 (stat1.CpuStats.User + stat1.CpuStats.Nice +
    stat1.CpuStats.System + stat1.CpuStats.IRQ + stat1.CpuStats.SoftIRQ +
    stat1.CpuStats.Steal)
  let stat2NonIdle := wrapU64 (stat2.CpuStats.User + stat2.CpuStats.Nice +
    stat2.CpuStats.System + stat2.CpuStats.IRQ + stat2.CpuStats.SoftIRQ +
    stat2.CpuStats.Steal)
  let stat1Total := wrapU64 (stat1Idle + stat1NonIdle)
  let stat2Total := wrapU64 (stat2Idle + stat2NonIdle)
  let total := subU64 stat2Total stat1Total
  let idle := subU64 stat2Idle stat1Idle
  if total = 0 ∧ idle = 0 then 0
  else ((total : R) - (idle : R)) / (total : R)

/-- The function `calculateCpuUsage`. `reply1` and `reply2` are the replies to
the two calls of `GetStats`. Both calls return the same pointer `&n.Stats`, so
when the arithmetic runs `stat1` and `stat2` both point at the statistics the
second call stored in the node. The first component is the node after the
calls. -/
def calculateCpuUsage (n : Node) (reply1 reply2 : Option worker.Stats) :
    Node × Option R :=
  match n.GetStats reply1 with
  | (n1, false) => (n1, none)
  | (n1, true) =>
    match n1.GetStats reply2 with
    | (n2, false) => (n2, none)
    | (n2, true) => (n2, some (cpuPercentUsage n2.Stats n2.Stats))

/-- One of the two stats requests made for a candidate fails, so that
`calculateCpuUsage` returns an error. -/
def fetchFails (r : Option worker.Stats × Option worker.Stats) : Prop :=
  r.1 = none ∨ r.2 = none

/-- Lines 102-112 of `EPvm.Score`: the cost of node `n` for task `t`, given the
sampled cpu usage. -/
def EPvm.cost (pow : R → R → R) (t : Task) (n : Node) (cpuUsage : R) : R :=
  let maxJobs : R := 4.0
  let cpuLoad := calculateLoad cpuUsage (pow 2 0.8)
  let cpuCost := pow LIEB cpuLoad + pow LIEB (((add64 n.TaskCount 1 : Int) : R) / maxJobs) -
    pow LIEB cpuLoad - pow LIEB ((n.TaskCount : R) / maxJobs)
  let memoryAllocated := (n.Stats.MemUsedKb : R) + (n.MemoryAllocated : R)
  let memoryPercentAllocated := memoryAllocated / (n.Memory : R)
  let newMemPercent :=
    calculateLoad (memoryAllocated + ((Int.tdiv t.Memory 1000 : Int) : R)) (n.Memory : R)
  let memCost := pow LIEB newMemPercent + pow LIEB (((add64 n.TaskCount 1 : Int) : R) / maxJobs) -
    pow LIEB memoryPercentAllocated - pow LIEB ((n.TaskCount : R) / maxJobs)
  cpuCost + memCost

/-- The loop of `EPvm.Score`. `replies i` holds the replies to the two stats
requests made for the candidate at position `i`. The second component lists the
candidates as the loop leaves them. -/
def EPvm.scoreLoop (pow : R → R → R) (t : Task)
    (replies : Nat → Option worker.Stats × Option worker.Stats) :
    Nat → List Node → GoMap String R → GoMap String R × List Node
  | _, [], nodeScores => (nodeScores, [])
  | idx, n :: rest, nodeScores =>
    match calculateCpuUsage (R := R) n (replies idx).1 (replies idx).2 with
    | (n', none) =>
      let out := EPvm.scoreLoop pow t replies (idx + 1) rest nodeScores
      (out.1, n' :: out.2)
    | (n', some cpuUsage) =>
      let out := EPvm.scoreLoop pow t replies (idx + 1) rest
        (nodeScores.set n'.Name (EPvm.cost pow t n' cpuUsage))
      (out.1, n' :: out.2)

/-- The method `EPvm.Score`. -/
def EPvm.Score (pow : R → R → R) (t : Task) (nodes : List Node)
    (replies : Nat → Option worker.Stats × Option worker.Stats) :
    GoMap String R × List Node :=
  EPvm.scoreLoop pow t replies 0 nodes []

/-- The loop of `EPvm.Pick`, with the variables `bestNode` and `minCost`; the
scores are of any type with a zero and a decidable `<`, as in
`RoundRobin.pickLoop`. -/
def EPvm.pickLoop {S : Type} [Zero S] [LT S] [∀ a b : S, Decidable (a < b)]
    (scores : GoMap String S) :
    Nat → List Node → Option Node → S → Option Node
  | _, [], bestNode, _ => bestNode
  | idx, n :: rest, bestNode, minCost =>
    if idx = 0 then
      EPvm.pickLoop scores (idx + 1) rest (some n) (scores.getD n.Name 0)
    else if scores.getD n.Name 0 < minCost then
      EPvm.pickLoop scores (idx + 1) rest (some n) (scores.getD n.Name 0)
    else
      EPvm.pickLoop scores (idx + 1) rest bestNode minCost

/-- The method `EPvm.Pick`; `none` is the nil pointer. -/
def EPvm.Pick {S : Type} [Zero S] [LT S] [∀ a b : S, Decidable (a < b)]
    (scores : GoMap String S) (candidates : List Node) : Option Node :=
  EPvm.pickLoop scores 0 candidates none 0

/-- The placement pipeline `SelectCandidateNodes → Score → Pick` run by a
round-robin scheduler for one task. -/
def RoundRobin.place (r : RoundRobin) (t : Task) (nodes : List Node) :
    Option Node × RoundRobin :=
  let candidates := r.SelectCandidateNodes t nodes
  let scored := r.Score (R := ℚ) t candidates
  (RoundRobin.Pick scored.1 candidates, scored.2)

/-- The pipeline run for consecutive tasks: the nodes picked, in order. -/
def RoundRobin.placeAll (r : RoundRobin) (nodes : List Node) : List Task → List (Option Node)
  | [] => []
  | t :: rest => (r.place t nodes).1 :: RoundRobin.placeAll (r.place t nodes).2 nodes rest

end

end scheduler

/-! ## package scheduler: the interface -/

namespace scheduler

open task node

section
variable {R : Type} [LinearOrderedField R]

/-- A value of the interface `Scheduler`: one of its two implementations, as
`manager.New` constructs them. -/
inductive Scheduler where
  | roundRobin (r : RoundRobin)
  | ePvm (e : EPvm)
deriving DecidableEq

/-- Interface call `SelectCandidateNodes`. -/
def Scheduler.SelectCandidateNodes (s : Scheduler) (t : Task) (nodes : List Node) :
    List Node :=
  match s with
  | .roundRobin r => r.SelectCandidateNodes t nodes
  | .ePvm _ => EPvm.SelectCandidateNodes t nodes

/-- Interface call `Score`. Besides the scores it yields the receiver and the
candidate nodes as the call leaves them; `replies` are the replies to the stats
requests, which only E-PVM makes. -/
def Scheduler.Score (pow : R → R → R) (s : Scheduler) (t : Task) (nodes : List Node)
    (replies : Nat → Option worker.Stats × Option worker.Stats) :
    GoMap String R × Scheduler × List Node :=
  match s with
  | .roundRobin r => ((r.Score t nodes).1, .roundRobin (r.Score (R := R) t nodes).2, nodes)
  | .ePvm e => ((EPvm.Score pow t nodes replies).1, .ePvm e, (EPvm.Score pow t nodes replies).2)

/-- Interface call `Pick`. -/
def Scheduler.Pick (s : Scheduler) (scores : GoMap String R) (candidates : List Node) :
    Option Node :=
  match s with
  | .roundRobin _ => RoundRobin.Pick scores candidates
  | .ePvm _ => EPvm.Pick scores candidates

end

end scheduler

/-! ## package store -/

namespace store

/-- The two implementations of the interface `Store`: the in-memory map
(`InMemoryTaskStore`, `InMemoryTaskEventStore`) and the bolt file (`TaskStore`,
`TaskEventStore`). -/
inductive Kind where
  | memory
  | persistent
deriving DecidableEq

/-- A store of values of type `α`. The in-memory store keeps the pointer it is
given; the bolt store keeps the JSON encoding of the pointee. `Db` holds, for
each key, the value behind the pointer or the encoding; a write through a
pointer the in-memory store holds is `writeThrough`. This is exact as long as
no two keys hold the same pointer, which is the case when every record is
stored under its own id. Failures of the file system are not modelled. -/
structure Store (α : Type) where
  kind : Kind
  Db : GoMap String α

/-- The method `Put`, called with a pointer to a value of the store's type. -/
def Store.Put {α : Type} (s : Store α) (key : String) (value : α) :
    Except String (Store α) :=
  .ok { s with Db := s.Db.set key value }

/-- The method `Get`; `none` is the error of a missing key. -/
def Store.Get {α : Type} (s : Store α) (key : String) : Option α :=
  s.Db.get? key

/-- The method `Count`. -/
def Store.Count {α : Type} (s : Store α) : Nat :=
  s.Db.length

/-- A write through a pointer that was handed to `Put` under `key` and is still
the binding of `key`: the in-memory store sees the new pointee, the bolt store
keeps the encoding made at the time of `Put`. -/
def Store.writeThrough {α : Type} (s : Store α) (key : String) (value : α) : Store α :=
  match s.kind with
  | .memory => { s with Db := s.Db.set key value }
  | .persistent => s

/-- The method `List`, with the keys it found: `order` is the order in which the
iteration over the map or the bucket yields the keys. The in-memory store
returns its pointers, the bolt store decoded copies. -/
def Store.List {α : Type} (s : Store α) (order : List String) : List (String × α) :=
  order.filterMap (fun key => (s.Get key).map (fun value => (key, value)))

/-- Every record of a task store is stored under its own id, as all calls of
`Put` in the manager and the worker have it. -/
def Keyed (s : Store task.Task) : Prop :=
  ∀ key record, s.Get key = some record → record.ID = key

/-- A record that was obtained from the store under `key`, then changed to
`value` through its pointer and handed to `Put` under `id`; the error of `Put`
is dropped. The in-memory store sees the change under `key` as well. -/
def Store.putBack {α : Type} (s : Store α) (key : String) (value : α) (id : String) :
    Store α :=
  match (s.writeThrough key value).Put id value with
  | .ok db => db
  | .error _ => s.writeThrough key value

end store

/-! ## package manager -/

namespace manager

open task node scheduler store

/-- The struct `Manager`. `Pending` is the queue, oldest event first. -/
structure Manager where
  Pending : List Event
  TaskDb : Store Task
  EventDb : Store Event
  Workers : List String
  WorkerTaskMap : GoMap String (List UUID)
  TaskWorkerMap : GoMap UUID String
  LastWorker : Int
  workerNodes : List Node
  scheduler : Scheduler

/-- The first loop of `New`: one empty entry of `WorkerTaskMap` and one node per
worker address. -/
def newLoop : List String → Nat → GoMap String (List UUID) → List Node →
    GoMap String (List UUID) × List Node
  | [], _, workerTaskMap, nodes => (workerTaskMap, nodes)
  | w :: rest, addr, workerTaskMap, nodes =>
    newLoop rest (addr + 1) (workerTaskMap.set w [])
      (nodes ++ [NewNode addr w ("http://" ++ w) "worker"])

/-- The constructor `New`, for the two database types it knows. `taskFile` and
`eventFile` are the contents of the files tasks.db and event.db as `bolt.Open`
finds them (empty when it creates them); the in-memory stores start empty. -/
def New (workers : List String) (schedulerType : String) (dbType : Kind)
    (taskFile : GoMap String Task) (eventFile : GoMap String Event) : Manager :=
  let built := newLoop workers 0 [] []
  let s : Scheduler :=
    if schedulerType = "round_robin" then .roundRobin { Name := "round_robin", LastWorker := 0 }
    else if schedulerType = "e_pvm" then .ePvm { Name := "e_pvm" }
    else .roundRobin { Name := "round_robin", LastWorker := 0 }
  { Pending := [],
    TaskDb := { kind := dbType, Db := if dbType = Kind.memory then [] else taskFile },
    EventDb := { kind := dbType, Db := if dbType = Kind.memory then [] else eventFile },
    Workers := workers,
    WorkerTaskMap := built.1,
    TaskWorkerMap := [],
    LastWorker := 0,
    workerNodes := built.2,
    scheduler := s }

/-- The method `AddTask`. -/
def Manager.AddTask (m : Manager) (te : Event) : Manager :=
  { m with Pending := m.Pending ++ [te] }

/-- The nodes of `heap` after the pointees listed in `updated` were written. -/
def writeBack (heap updated : List Node) : List Node :=
  heap.map (fun n =>
    match updated.find? (fun u => decide (u.addr = n.addr)) with
    | some u => u
    | none => n)

/-- What `SelectWorker` returns, with the manager as the call leaves it:
`node = none` is the nil pointer, `err = true` a non-nil error. -/
structure Selection where
  m : Manager
  node : Option Node
  err : Bool

section
variable {R : Type} [LinearOrderedField R]

/-- The method `SelectWorker`. -/
def Manager.SelectWorker (pow : R → R → R) (m : Manager) (t : Task)
    (replies : Nat → Option worker.Stats × Option worker.Stats) : Selection :=
  let candidates := m.scheduler.SelectCandidateNodes t m.workerNodes
  if candidates.isEmpty then
    { m := m, node := none, err := true }
  else
    let scored := m.scheduler.Score pow t candidates replies
    let selectNode := scored.2.1.Pick scored.1 scored.2.2
    { m := { m with scheduler := scored.2.1, workerNodes := writeBack m.workerNodes scored.2.2 },
      node := selectNode, err := false }

/-- The reply to the POST of an event to a worker: a connection error, or a
response with its status code, the value `d.Decode(&t)` leaves in `t` and
whether that decoding succeeded. -/
inductive PostReply where
  | connError
  | response (code : Nat) (decoded : Task) (ok : Bool)

/-- What a call of the manager does that can be seen from outside. -/
inductive Action where
  | select (taskID : UUID)
  | post (worker : String) (te : Event)
  | delete (worker : String) (taskID : String)
  | get (worker : String)
  | health (taskID : UUID)
deriving DecidableEq

/-- The result of a call: the manager as the call leaves it, whether the call
ended in a run-time panic (then `m` is the state at the panic), and what it
did. -/
structure Outcome where
  m : Manager
  panic : Bool
  actions : List Action

/-- The method `stopTask`: a DELETE request, whose reply changes nothing. -/
def Manager.stopTask (_m : Manager) (worker : String) (taskID : String) : List Action :=
  [.delete worker taskID]

/-- Lines 236-274 of `SendWork`: the placement of task `t` of event `te` on the
node `w` that was selected. -/
def Manager.sendToWorker (m : Manager) (te : Event) (w : Node) (reply : PostReply) :
    Outcome :=
  let t := te.Task
  let m := { m with
    WorkerTaskMap := m.WorkerTaskMap.set w.Name (m.WorkerTaskMap.getD w.Name [] ++ [t.ID]),
    TaskWorkerMap := m.TaskWorkerMap.set t.ID w.Name }
  let t := { t with State := Scheduled }
  let m := { m with TaskDb :=
    match m.TaskDb.Put t.ID t with
    | .ok db => db
    | .error _ => m.TaskDb }
  let acts : List Action := [.select t.ID, .post w.Name te]
  match reply with
  | .connError => { m := { m with Pending := m.Pending ++ [te] }, panic := false, actions := acts }
  | .response code decoded ok =>
    if code ≠ 201 then
      { m := m, panic := false, actions := acts }
    else
      let m := { m with TaskDb := m.TaskDb.writeThrough t.ID decoded }
      if !ok then
        { m := m, panic := false, actions := acts }
      else
        { m := { m with workerNodes :=
            m.workerNodes.map (fun n =>
              if n.addr = w.addr then { n with TaskCount := add64 n.TaskCount 1 } else n) },
          panic := false, actions := acts }

/-- The event store of `m` after `Put` took the event `te`. -/
def putEvent (m : Manager) (te : Event) : Store Event :=
  { m.EventDb with Db := m.EventDb.Db.set te.ID te }

/-- Lines 208-274 of `SendWork`: what is done with the dequeued event `te`,
once it is in the event store. -/
def Manager.dispatch (pow : R → R → R) (m : Manager) (te : Event)
    (replies : Nat → Option worker.Stats × Option worker.Stats) (reply : PostReply) :
    Outcome :=
  match m.TaskWorkerMap.get? te.Task.ID with
  | some taskWorker =>
    match m.TaskDb.Get te.Task.ID with
    | none => { m := m, panic := false, actions := [] }
    | some persistedTask =>
      if te.State = Completed ∧ ValidateTransitions persistedTask.State te.State = true then
        { m := m, panic := false, actions := m.stopTask taskWorker te.Task.ID }
      else
        { m := m, panic := false, actions := [] }
  | none =>
    let sel := m.SelectWorker pow te.Task replies
    match sel.node with
    | none => { m := sel.m, panic := true, actions := [.select te.Task.ID] }
    | some w => sel.m.sendToWorker te w reply

/-- The manager after lines 199-201 of `SendWork`: the oldest event `te` is off
the queue, `rest` remains, and the event store `eventDb` holds `te`. -/
def Manager.dequeued (m : Manager) (rest : List Event) (eventDb : Store Event) : Manager :=
  { m with Pending := rest, EventDb := eventDb }

/-- The method `SendWork`. `replies` are the replies to the stats requests of
the scheduler, `reply` the reply to the POST. -/
def Manager.SendWork (pow : R → R → R) (m : Manager)
    (replies : Nat → Option worker.Stats × Option worker.Stats) (reply : PostReply) :
    Outcome :=
  match m.Pending with
  | [] => { m := m, panic := false, actions := [] }
  | te :: rest =>
    match m.EventDb.Put te.ID te with
    | .error _ => { m := { m with Pending := rest }, panic := false, actions := [] }
    | .ok eventDb => (m.dequeued rest eventDb).dispatch pow te replies reply

end

/-! ### The reconciliation loop -/

/-- The reply to the GET of `{worker}/tasks`: a connection error, or a response
with its status code and the value `d.Decode(&tasks)` leaves in `tasks`. -/
inductive GetReply where
  | connError
  | response (code : Nat) (tasks : List Task)

/-- Lines 174-181 of `updateTasks`: the persisted task with the five fields the
worker reports. -/
def mergeReport (taskPersisted t : Task) : Task :=
  { taskPersisted with
    State := t.State, StartTime := t.StartTime, FinishTime := t.FinishTime,
    ContainerID := t.ContainerID, HostPorts := t.HostPorts }

/-- The last task of a reply that carries the id `id`. -/
def lastReport : List Task → UUID → Option Task
  | [], _ => none
  | t :: rest, id =>
    match lastReport rest id with
    | some r => some r
    | none => if t.ID = id then some t else none

/-- What a reconciliation makes of a stored record, given the last report of its
id: a stored record that is reported takes the five reported fields, anything
else stays as it is. -/
def reconciled (stored report : Option Task) : Option Task :=
  match stored, report with
  | some taskPersisted, some t => some (mergeReport taskPersisted t)
  | r, _ => r

/-- The inner loop of `updateTasks` over the tasks the worker `w` reported. -/
def Manager.updateTasksLoop (w : String) : List Task → Manager → Manager
  | [], m => m
  | t :: rest, m =>
    match m.TaskDb.Get t.ID with
    | none => Manager.updateTasksLoop w rest m
    | some taskPersisted =>
      Manager.updateTasksLoop w rest
        { m with
          WorkerTaskMap := m.WorkerTaskMap.set w (m.WorkerTaskMap.getD w [] ++ [t.ID]),
          TaskWorkerMap := m.TaskWorkerMap.set t.ID w,
          TaskDb := m.TaskDb.putBack t.ID (mergeReport taskPersisted t)
            (mergeReport taskPersisted t).ID }

/-- The body of the outer loop of `updateTasks` for the worker `w`. After a
connection error `resp` is nil and reading `resp.StatusCode` panics; a status
other than 200 is logged and the body is processed like any other. -/
def Manager.updateWorker (m : Manager) (w : String) (reply : GetReply) : Outcome :=
  match reply with
  | .connError => { m := m, panic := true, actions := [.get w] }
  | .response _ tasks =>
    { m := Manager.updateTasksLoop w tasks { m with WorkerTaskMap := m.WorkerTaskMap.set w [] },
      panic := false, actions := [.get w] }

/-- The outer loop of `updateTasks`; `replies i` is the reply of the worker at
position `i` of `Workers`. -/
def Manager.updateTasksFrom (replies : Nat → GetReply) :
    Nat → List String → Manager → Outcome
  | _, [], m => { m := m, panic := false, actions := [] }
  | i, w :: rest, m =>
    let out := m.updateWorker w (replies i)
    if out.panic then out
    else
      let next := Manager.updateTasksFrom replies (i + 1) rest out.m
      { m := next.m, panic := next.panic, actions := out.actions ++ next.actions }

/-- The method `updateTasks`. -/
def Manager.updateTasks (m : Manager) (replies : Nat → GetReply) : Outcome :=
  Manager.updateTasksFrom replies 0 m.Workers m

/-! ### The health checks -/

/-- The method `GetTasks`, with the keys of the records. -/
def Manager.GetTasks (m : Manager) (order : List String) : List (String × Task) :=
  m.TaskDb.List order

/-- What the health checks get from outside, per task: the position of the port
the `range` over `HostPorts` yields first, whether the GET of the health
endpoint succeeds with status 200, the reply to the POST of the restart event,
and the id and time stamp of that event. -/
structure HealthNet where
  firstPort : Task → Nat
  healthy : Task → Bool
  post : Task → PostReply
  newID : Task → UUID
  now : Int

/-- The result of `checkTaskHealth`. -/
inductive Health where
  | ok
  | failed
  | panic
deriving DecidableEq

/-- The method `checkTaskHealth`. Without a host port the closure returns nil and
`*hostPort` panics; a port without binding panics at `ports[k][0]`. -/
def Manager.checkTaskHealth (_m : Manager) (net : HealthNet) (t : Task) : Health :=
  match t.HostPorts.get? (net.firstPort t % t.HostPorts.length) with
  | none => .panic
  | some (_, []) => .panic
  | some (_, _ :: _) => if net.healthy t then .ok else .failed

/-- Lines 335-336 of `restartTask`: the task with state `Scheduled` and the
restart count raised. -/
def restarted (t : Task) : Task :=
  { t with State := Scheduled, RestartCount := add64 t.RestartCount 1 }

/-- Lines 339-344 of `restartTask`: the event that is posted to the worker. -/
def restartEvent (net : HealthNet) (t : Task) : Event :=
  { ID := net.newID t, State := Running, Timestamp := net.now, Task := restarted t }

/-- The method `restartTask` for the task `t` that `GetTasks` returned under
`key`. -/
def Manager.restartTask (m : Manager) (net : HealthNet) (key : String) (t : Task) : Outcome :=
  let w := m.TaskWorkerMap.getD t.ID ""
  let m := { m with TaskDb := m.TaskDb.putBack key (restarted t) (restarted t).ID }
  let te := restartEvent net t
  match net.post t with
  | .connError =>
    { m := { m with Pending := m.Pending ++ [te] }, panic := false, actions := [.post w te] }
  | .response _ _ _ => { m := m, panic := false, actions := [.post w te] }

/-- The condition under which `doHealthChecks` restarts a task it can check:
fewer than three restarts, and Failed or Running with a failed health check. -/
def restartDue (net : HealthNet) (t : Task) : Prop :=
  t.RestartCount < 3 ∧ (t.State = Failed ∨ (t.State = Running ∧ net.healthy t = false))

/-- The loop of `doHealthChecks` over the tasks `GetTasks` returned. -/
def Manager.healthLoop (net : HealthNet) : List (String × Task) → Manager → Outcome
  | [], m => { m := m, panic := false, actions := [] }
  | (key, t) :: rest, m =>
    if t.State = Running ∧ t.RestartCount < 3 then
      match m.checkTaskHealth net t with
      | .panic => { m := m, panic := true, actions := [.health t.ID] }
      | .ok =>
        let next := Manager.healthLoop net rest m
        { m := next.m, panic := next.panic, actions := .health t.ID :: next.actions }
      | .failed =>
        let out := m.restartTask net key t
        let next := Manager.healthLoop net rest out.m
        { m := next.m, panic := next.panic,
          actions := .health t.ID :: (out.actions ++ next.actions) }
    else if t.State = Failed ∧ t.RestartCount < 3 then
      let out := m.restartTask net key t
      let next := Manager.healthLoop net rest out.m
      { m := next.m, panic := next.panic, actions := out.actions ++ next.actions }
    else
      Manager.healthLoop net rest m

/-- The method `doHealthChecks`; `order` is the order in which the store lists
its keys. -/
def Manager.doHealthChecks (m : Manager) (net : HealthNet) (order : List String) : Outcome :=
  Manager.healthLoop net (m.GetTasks order) m

end manager

/-! ## package worker -/

namespace task

/-- The struct `DockerResult`; `Error = none` is the nil error. -/
structure DockerResult where
  Error : Option String
  Action : String
  ContainerId : String
  Result : String
deriving DecidableEq

/-- What `updateTasks` reads of a `types.ContainerJSON`: the status of the
container and the ports of its network settings. -/
structure ContainerJSON where
  Status : String
  Ports : List (String × List (String × String))
deriving DecidableEq

/-- The struct `DockerInspectResponse`; `Container = none` is the nil pointer. -/
structure DockerInspectResponse where
  Error : Option String
  Container : Option ContainerJSON
deriving DecidableEq

end task

namespace worker

open task store

/-- The struct `Worker`. `Queue` holds the oldest task first. -/
structure Worker where
  Name : String
  Queue : List Task
  Db : Store Task
  Stats : Option Stats
  TaskCount : Int

/-- The container runtime as the worker sees it: the results of `Docker.Run`,
`Docker.Stop` and `Docker.Inspect` for a task, and the clock. -/
structure Runtime where
  run : Task → DockerResult
  stop : Task → DockerResult
  inspect : Task → DockerInspectResponse
  now : Int

/-- A call of the container runtime. -/
inductive Call where
  | run (taskID : UUID)
  | stop (containerID : String)
  | inspect (containerID : String)
deriving DecidableEq

/-- The result of `runTask`, `StartTask` and `StopTask`: the worker after the
call, the value returned and the calls of the runtime. -/
structure RunOutcome where
  w : Worker
  result : DockerResult
  calls : List Call

/-- The method `AddTask`. -/
def Worker.AddTask (w : Worker) (t : Task) : Worker :=
  { w with Queue := w.Queue ++ [t] }

/-- The handler `StartTaskHandler`: `decoded` is the event decoded from the body
of the request, `none` when the decoding fails (status 400). -/
def Worker.StartTaskHandler (w : Worker) (decoded : Option Event) : Worker × Nat :=
  match decoded with
  | none => (w, 400)
  | some te => (w.AddTask te.Task, 201)

/-- The `Put` of a worker's store, with a dropped error. -/
def Worker.put (w : Worker) (t : Task) : Worker :=
  match w.Db.Put t.ID t with
  | .ok db => { w with Db := db }
  | .error _ => w

/-- The method `StartTask`. -/
def Worker.StartTask (w : Worker) (rt : Runtime) (t : Task) : RunOutcome :=
  let t := { t with StartTime := rt.now }
  let result := rt.run t
  match result.Error with
  | some _ => { w := w.put { t with State := Failed }, result := result, calls := [.run t.ID] }
  | none =>
    { w := w.put { t with ContainerID := result.ContainerId, State := Running },
      result := result, calls := [.run t.ID] }

/-- The method `StopTask`. -/
def Worker.StopTask (w : Worker) (rt : Runtime) (t : Task) : RunOutcome :=
  let result := rt.stop t
  { w := w.put { t with FinishTime := rt.now, State := Completed },
    result := result, calls := [.stop t.ContainerID] }

/-- The error `runTask` returns for an illegal transition. -/
def illegalTransition : String := "状态转换无效"

/-- The error `runTask` returns for a legal transition to a state it does not
handle. -/
def unexpectedTransition : String := "状态转换异常"

/-- The error `runTask` returns when it cannot store the dequeued task. -/
def storeFailure : String := "存储任务"

/-- A result that carries only an error. -/
def errorResult (msg : String) : DockerResult :=
  { Error := some msg, Action := "", ContainerId := "", Result := "" }

/-- Lines 101-118 of `runTask`: the transition from `taskPersisted` to the
dequeued `taskQueued`. -/
def Worker.applyTask (w : Worker) (rt : Runtime) (taskPersisted taskQueued : Task) :
    RunOutcome :=
  if ValidateTransitions taskPersisted.State taskQueued.State = true then
    if taskQueued.State = Scheduled then w.StartTask rt taskQueued
    else if taskQueued.State = Completed then w.StopTask rt taskQueued
    else { w := w, result := errorResult unexpectedTransition, calls := [] }
  else
    { w := w, result := errorResult illegalTransition, calls := [] }

/-- The method `runTask`. -/
def Worker.runTask (w : Worker) (rt : Runtime) : RunOutcome :=
  match w.Queue with
  | [] => { w := w, result := { Error := none, Action := "", ContainerId := "", Result := "" },
            calls := [] }
  | taskQueued :: rest =>
    let w := { w with Queue := rest }
    match w.Db.Get taskQueued.ID with
    | none =>
      match w.Db.Put taskQueued.ID taskQueued with
      | .error _ => { w := w, result := errorResult storeFailure, calls := [] }
      | .ok db => Worker.applyTask { w with Db := db } rt taskQueued taskQueued
    | some queuedTask => w.applyTask rt queuedTask taskQueued

/-- The method `GetTasks`, with the keys of the records. -/
def Worker.GetTasks (w : Worker) (order : List String) : List (String × Task) :=
  w.Db.List order

/-- The result of `updateTasks`: the worker after the call, whether the call
ended in a run-time panic (then `w` is the state at the panic), and the calls
of the runtime. -/
structure UpdateOutcome where
  w : Worker
  panic : Bool
  calls : List Call

/-- The loop of `updateTasks` over the tasks `GetTasks` returned. When the
inspection yields no container the task is stored as `Failed` and the next
statement reads `resp.Container.State` through the nil pointer. -/
def Worker.updateTasksLoop (rt : Runtime) : List (String × Task) → Worker → UpdateOutcome
  | [], w => { w := w, panic := false, calls := [] }
  | (key, t) :: rest, w =>
    if t.State = Running then
      match (rt.inspect t).Container with
      | none =>
        { w := { w with Db := w.Db.putBack key { t with State := Failed } t.ID },
          panic := true, calls := [.inspect t.ContainerID] }
      | some container =>
        let t1 := if container.Status = "exited" then { t with State := Failed } else t
        let t2 := { t1 with HostPorts := container.Ports }
        let next := Worker.updateTasksLoop rt rest { w with Db := w.Db.putBack key t2 t2.ID }
        { w := next.w, panic := next.panic, calls := .inspect t.ContainerID :: next.calls }
    else
      Worker.updateTasksLoop rt rest w

/-- The method `updateTasks`; `order` is the order in which the store lists its
keys. -/
def Worker.updateTasks (w : Worker) (rt : Runtime) (order : List String) : UpdateOutcome :=
  Worker.updateTasksLoop rt (w.GetTasks order) w

end worker

/-! ## Sample data -/

namespace sample

open task node

/-- A worker node named `name` at address `addr` with the given disk figures. -/
def diskNode (addr : Nat) (name : String) (disk diskAllocated : Int) : Node :=
  { NewNode addr name ("http://" ++ name) "worker" with
    Disk := disk, DiskAllocated := diskAllocated }

/-- A task named `id` that asks for `disk` bytes of disk. -/
def diskTask (id : String)  (disk : Int) : Task :=
  { Task.zero with ID := id, Disk := disk }

/-- One gigabyte, in bytes. -/
def GB : Int := 1000000000

/-- A statistics sample with the given memory figures (KiB) and cpu counters. -/
def memStats (memTotalKb memUsedKb : Nat) (cpu : worker.CpuStats) : worker.Stats :=
  { worker.Stats.zero with MemTotalKb := memTotalKb, MemUsedKb := memUsedKb, CpuStats := cpu }

/-- Cpu counters with the given user and idle times, all others zero. -/
def cpuCounters (user idle : Nat) : worker.CpuStats :=
  { worker.CpuStats.zero with User := user, Idle := idle }

/-- An event `id` that asks for state `state` of the task `t`. -/
def event (id : String) (state : task.State) (t : task.Task) : task.Event :=
  { ID := id, State := state, Timestamp := 0, Task := t }

/-- A power function for runs in which no E-PVM cost is computed. -/
def noPow : ℚ → ℚ → ℚ := fun x _ => x

/-- The network in which every stats request fails. -/
def noStats : Nat → Option worker.Stats × Option worker.Stats := fun _ => (none, none)

/-- A manager with the given scheduler and in-memory stores over the single
worker `w1`, with the listed events submitted. -/
def managerWith (schedulerType : String) (events : List task.Event) : manager.Manager :=
  events.foldl manager.Manager.AddTask
    (manager.New ["w1"] schedulerType store.Kind.memory [] [])

/-- A task named `id` in state `state`. -/
def stateTask (id : String) (state : task.State) : task.Task :=
  { task.Task.zero with ID := id, State := state }

/-- A manager started anew over the bolt files of an earlier run, in which the
task t1 ended `Completed`; the event e1 asks to schedule t1 again. -/
def restartedManager : manager.Manager :=
  (manager.New ["w1"] "round_robin" store.Kind.persistent
      [("t1", stateTask "t1" task.Completed)] []).AddTask
    (event "e1" task.Scheduled (stateTask "t1" task.Completed))

/-- A worker with in-memory store holding `records` and the queue `queue`. -/
def workerWith (queue : List task.Task) (records : GoMap String task.Task) : worker.Worker :=
  { Name := "w1", Queue := queue, Db := { kind := store.Kind.memory, Db := records },
    Stats := none, TaskCount := 0 }

/-- A runtime in which no container exists: every call fails. -/
def deadRuntime : worker.Runtime :=
  { run := fun _ => worker.errorResult "no runtime",
    stop := fun _ => worker.errorResult "no runtime",
    inspect := fun _ => { Error := some "no such container", Container := none },
    now := 0 }

/-- A network for the health checks in which every task is unhealthy and every
POST is answered 201. -/
def sickNet : manager.HealthNet :=
  { firstPort := fun _ => 0, healthy := fun _ => false,
    post := fun t => manager.PostReply.response 201 t true,
    newID := fun t => "restart-" ++ t.ID, now := 0 }

/-- A manager over the worker w1 that has the task t1 on record for w1. -/
def busyManager : manager.Manager :=
  { manager.New ["w1"] "round_robin" store.Kind.memory [] [] with
    TaskDb := { kind := store.Kind.memory, Db := [("t1", stateTask "t1" task.Scheduled)] },
    WorkerTaskMap := [("w1", ["t1"])],
    TaskWorkerMap := [("t1", "w1")] }

/-- The manager the following trace leaves: a fresh manager with in-memory
stores takes the event e1 for the new task t1; `SendWork` places t1 on w1 and
the worker answers 201 with a body that does not decode; `updateTasks` gets t1
reported as Running. -/
def zeroedManager : manager.Manager :=
  (((managerWith "round_robin" [event "e1" task.Running (stateTask "t1" task.Scheduled)]).SendWork
      noPow noStats (.response 201 task.Task.zero false)).m.updateTasks
      (fun _ => .response 200 [stateTask "t1" task.Running])).m

/-- A manager over the worker w1 whose in-memory store holds two records that
carry the id t1: under t1 a Failed task with three restarts, under t2 a Failed
task with no restart. -/
def strayManager : manager.Manager :=
  { manager.New ["w1"] "round_robin" store.Kind.memory [] [] with
    TaskDb := { kind := store.Kind.memory,
                Db := [("t1", { stateTask "t1" task.Failed with RestartCount := 3 }),
                       ("t2", { stateTask "t1" task.Failed with RestartCount := 0 })] },
    WorkerTaskMap := [("w1", ["t1"])],
    TaskWorkerMap := [("t1", "w1")] }

/-- A manager over the worker w1 whose store holds the task t1 in state `state`
with `restarts` restarts, placed on w1. -/
def managerOf (state : task.State) (restarts : Int) : manager.Manager :=
  { manager.New ["w1"] "round_robin" store.Kind.memory [] [] with
    TaskDb := { kind := store.Kind.memory,
                Db := [("t1", { stateTask "t1" state with RestartCount := restarts })] },
    WorkerTaskMap := [("w1", ["t1"])],
    TaskWorkerMap := [("t1", "w1")] }

/-- Replies to the stats requests in which the candidate at position 1 is not
reachable and every other candidate answers with 8 GiB of memory, half used. -/
def secondFails : Nat → Option worker.Stats × Option worker.Stats :=
  fun i =>
    if i = 1 then (none, none)
    else (some (memStats 8388608 4194304 (cpuCounters 100 100)),
          some (memStats 8388608 4194304 (cpuCounters 200 300)))

/-- A worker node named `name` with `memory` KiB of memory, none of it used or
allocated, that runs `taskCount` tasks. -/
def loadedNode (addr : Nat) (name : String) (memory taskCount : Int) : node.Node :=
  { node.NewNode addr name ("http://" ++ name) "worker" with
    Memory := memory, TaskCount := taskCount }

end sample

/-! ## Theorems -/

/-! ### Picking the minimum -/

section pick
open scheduler node task
variable {R : Type} [LinearOrder R]

theorem roundRobin_pickLoop_succ [Zero R] (scores : GoMap String R) (rest : List Node) :
    ∀ (idx : Nat) (b : Node),
      RoundRobin.pickLoop scores (idx + 1) rest (some b) (scores.getD b.Name 0) =
        some (rest.foldl (keepMin (fun n => scores.getD n.Name 0)) b) := by
  induction rest with
  | nil => intro idx b; simp [RoundRobin.pickLoop]
  | cons n rest ih =>
    intro idx b
    by_cases h : scores.getD n.Name 0 < scores.getD b.Name 0
    · simp [RoundRobin.pickLoop, keepMin, h, ih]
    · simp [RoundRobin.pickLoop, keepMin, h, ih]

theorem ePvm_pickLoop_eq [Zero R] (scores : GoMap String R) (l : List Node) :
    ∀ (idx : Nat) (b : Option Node) (c : R),
      EPvm.pickLoop scores idx l b c = RoundRobin.pickLoop scores idx l b c := by
  induction l with
  | nil => intro idx b c; simp [EPvm.pickLoop, RoundRobin.pickLoop]
  | cons n rest ih =>
    intro idx b c
    simp [EPvm.pickLoop, RoundRobin.pickLoop, ih]

theorem keepMin_foldl_spec (f : Node → R) (rest : List Node) :
    ∀ (as : List Node) (c : Node) (bs : List Node),
      (∀ a ∈ as, f c < f a) → (∀ x ∈ bs, f c ≤ f x) →
      ∃ as' bs', as ++ c :: bs ++ rest = as' ++ rest.foldl (keepMin f) c :: bs' ∧
        (∀ a ∈ as', f (rest.foldl (keepMin f) c) < f a) ∧
        (∀ x ∈ bs', f (rest.foldl (keepMin f) c) ≤ f x) := by
  induction rest with
  | nil =>
    intro as c bs h1 h2
    exact ⟨as, bs, by simp, h1, h2⟩
  | cons n rest ih =>
    intro as c bs h1 h2
    by_cases h : f n < f c
    · have hstep : keepMin f c n = n := by simp [keepMin, h]
      obtain ⟨as', bs', e, p1, p2⟩ := ih (as ++ c :: bs) n [] (by
        intro a ha
        rcases List.mem_append.1 ha with ha | ha
        · exact lt_trans h (h1 a ha)
        · rcases List.mem_cons.1 ha with ha | ha
          · rw [ha]; exact h
          · exact lt_of_lt_of_le h (h2 a ha)) (by simp)
      refine ⟨as', bs', ?_, ?_, ?_⟩
      · simp only [List.foldl_cons, hstep]
        rw [← e]; simp
      · simpa only [List.foldl_cons, hstep] using p1
      · simpa only [List.foldl_cons, hstep] using p2
    · have hstep : keepMin f c n = c := by simp [keepMin, h]
      obtain ⟨as', bs', e, p1, p2⟩ := ih as c (bs ++ [n]) h1 (by
        intro x hx
        rcases List.mem_append.1 hx with hx | hx
        · exact h2 x hx
        · have : x = n := by simpa using hx
          rw [this]; exact not_lt.1 h)
      refine ⟨as', bs', ?_, ?_, ?_⟩
      · simp only [List.foldl_cons, hstep]
        rw [← e]; simp
      · simpa only [List.foldl_cons, hstep] using p1
      · simpa only [List.foldl_cons, hstep] using p2

/-- Both `Pick` methods return the first candidate of least score. -/
theorem pick_spec [Zero R] (scores : GoMap String R) (candidates : List Node)
    (hne : candidates ≠ []) :
    ∃ (before after : List Node) (best : Node),
      candidates = before ++ best :: after ∧
      RoundRobin.Pick scores candidates = some best ∧
      EPvm.Pick scores candidates = some best ∧
      (∀ a ∈ before, scores.getD best.Name 0 < scores.getD a.Name 0) ∧
      (∀ x ∈ after, scores.getD best.Name 0 ≤ scores.getD x.Name 0) := by
  cases candidates with
  | nil => exact absurd rfl hne
  | cons b rest =>
    obtain ⟨as', bs', e, p1, p2⟩ :=
      keepMin_foldl_spec (fun n => scores.getD n.Name 0) rest [] b [] (by simp) (by simp)
    have hrr : RoundRobin.Pick scores (b :: rest) =
        some (rest.foldl (keepMin (fun n => scores.getD n.Name 0)) b) := by
      unfold RoundRobin.Pick
      rw [RoundRobin.pickLoop]
      simp only [if_true]
      exact roundRobin_pickLoop_succ scores rest 0 b
    refine ⟨as', bs', _, by simpa using e, hrr, ?_, p1, p2⟩
    unfold EPvm.Pick
    rw [ePvm_pickLoop_eq]
    exact hrr

end pick

/-! ### Picking among float64 scores -/

section pickFloat
open scheduler node task
variable {R : Type} [Zero R]

theorem float64_lt_iff [LinearOrder R] (a b : Float64 R) (ha : a ≠ Float64.nan)
    (hb : b ≠ Float64.nan) :
    a < b ↔ a.val < b.val := by
  cases a with
  | nan => exact absurd rfl ha
  | num x =>
    cases b with
    | nan => exact absurd rfl hb
    | num y => exact Iff.rfl

theorem float64_le_iff [LinearOrder R] (a b : Float64 R) (ha : a ≠ Float64.nan)
    (hb : b ≠ Float64.nan) :
    a ≤ b ↔ a.val ≤ b.val := by
  cases a with
  | nan => exact absurd rfl ha
  | num x =>
    cases b with
    | nan => exact absurd rfl hb
    | num y => exact Iff.rfl

theorem float64_getD_val (scores : GoMap String (Float64 R)) (k : String) :
    GoMap.getD (scores.map (fun p => (p.1, p.2.val))) k 0 = (scores.getD k 0).val := by
  induction scores with
  | nil => rfl
  | cons e rest ih =>
    obtain ⟨k', v⟩ := e
    by_cases h : k' = k
    · simp [GoMap.getD, GoMap.get?, h]
    · simpa [GoMap.getD, GoMap.get?, h] using ih

theorem roundRobin_pickLoop_float64 [LinearOrder R] (scores : GoMap String (Float64 R))
    (l : List Node) :
    ∀ (idx : Nat) (b : Option Node) (c : Float64 R),
      (∀ n ∈ l, scores.getD n.Name 0 ≠ Float64.nan) → c ≠ Float64.nan →
      RoundRobin.pickLoop scores idx l b c =
        RoundRobin.pickLoop (scores.map (fun p => (p.1, p.2.val))) idx l b c.val := by
  induction l with
  | nil => intro idx b c _ _; simp [RoundRobin.pickLoop]
  | cons n rest ih =>
    intro idx b c hl hc
    have hn : scores.getD n.Name 0 ≠ Float64.nan := hl n (List.mem_cons_self _ _)
    have hrest : ∀ x ∈ rest, scores.getD x.Name 0 ≠ Float64.nan :=
      fun x hx => hl x (List.mem_cons_of_mem _ hx)
    rw [RoundRobin.pickLoop, RoundRobin.pickLoop, float64_getD_val, ih _ _ _ hrest hn,
      ih _ _ _ hrest hc]
    by_cases h : scores.getD n.Name 0 < c
    · rw [if_pos h, if_pos ((float64_lt_iff _ _ hn hc).1 h)]
    · rw [if_neg h, if_neg (fun h' => h ((float64_lt_iff _ _ hn hc).2 h'))]

theorem ePvm_pickLoop_float64 [LinearOrder R] (scores : GoMap String (Float64 R))
    (l : List Node) :
    ∀ (idx : Nat) (b : Option Node) (c : Float64 R),
      (∀ n ∈ l, scores.getD n.Name 0 ≠ Float64.nan) → c ≠ Float64.nan →
      EPvm.pickLoop scores idx l b c =
        EPvm.pickLoop (scores.map (fun p => (p.1, p.2.val))) idx l b c.val := by
  induction l with
  | nil => intro idx b c _ _; simp [EPvm.pickLoop]
  | cons n rest ih =>
    intro idx b c hl hc
    have hn : scores.getD n.Name 0 ≠ Float64.nan := hl n (List.mem_cons_self _ _)
    have hrest : ∀ x ∈ rest, scores.getD x.Name 0 ≠ Float64.nan :=
      fun x hx => hl x (List.mem_cons_of_mem _ hx)
    rw [EPvm.pickLoop, EPvm.pickLoop, float64_getD_val, ih _ _ _ hrest hn,
      ih _ _ _ hrest hc]
    by_cases h : scores.getD n.Name 0 < c
    · rw [if_pos h, if_pos ((float64_lt_iff _ _ hn hc).1 h)]
    · rw [if_neg h, if_neg (fun h' => h ((float64_lt_iff _ _ hn hc).2 h'))]

end pickFloat



/-! ### Filtering by disk -/

section select
open scheduler node task

theorem ePvm_selectLoop_eq (t : Task) (nodes : List Node) :
    ∀ acc : List Node,
      EPvm.selectLoop t nodes acc =
        acc ++ nodes.filter (fun n => decide (t.Disk ≤ sub64 n.Disk n.DiskAllocated)) := by
  induction nodes with
  | nil => intro acc; simp [EPvm.selectLoop]
  | cons n rest ih =>
    intro acc
    by_cases h : t.Disk ≤ sub64 n.Disk n.DiskAllocated
    · simp [EPvm.selectLoop, checkDisk, h, ih]
    · simp [EPvm.selectLoop, checkDisk, h, ih]

theorem wrap64_of_inRange (x : Int) (h1 : -2 ^ 63 ≤ x) (h2 : x < 2 ^ 63) : wrap64 x = x := by
  unfold wrap64
  have e : (x + 2 ^ 63) % 2 ^ 64 = x + 2 ^ 63 :=
    Int.emod_eq_of_lt (by omega) (by omega)
  rw [e]; ring

end select

/-! ### The E-PVM cost -/

section cost
open scheduler node task

theorem goMap_get?_set {κ ν : Type} [DecidableEq κ] (m : GoMap κ ν) (k k' : κ) (v : ν) :
    (m.set k v).get? k' = if k = k' then some v else m.get? k' := by
  induction m with
  | nil => simp [GoMap.set, GoMap.get?]
  | cons p rest ih =>
    obtain ⟨a, b⟩ := p
    by_cases h : a = k
    · subst h
      by_cases h' : a = k'
      · simp [GoMap.set, GoMap.get?, h']
      · simp [GoMap.set, GoMap.get?, h']
    · by_cases h' : a = k'
      · subst h'
        simp [GoMap.set, GoMap.get?, h, Ne.symm h]
      · simp [GoMap.set, GoMap.get?, h, h', ih]

theorem getStats_name (n : Node) (reply : Option worker.Stats) :
    (n.GetStats reply).1.Name = n.Name := by
  cases reply <;> simp [Node.GetStats]

theorem calculateCpuUsage_name {R : Type} [LinearOrderedField R] (n : Node)
    (r1 r2 : Option worker.Stats) :
    (calculateCpuUsage (R := R) n r1 r2).1.Name = n.Name := by
  cases r1 <;> cases r2 <;> simp [calculateCpuUsage, Node.GetStats]

/-- Whenever both fetches succeed, the two pointers read the same sample and the
usage comes out as 0. -/
theorem calculateCpuUsage_success {R : Type} [LinearOrderedField R] (n : Node)
    (s1 s2 : worker.Stats) :
    calculateCpuUsage (R := R) n (some s1) (some s2) =
      ((n.GetStats (some s2)).1, some 0) := by
  simp [calculateCpuUsage, Node.GetStats, cpuPercentUsage, subU64, wrapU64]

theorem ePvm_scoreLoop_frame {R : Type} [LinearOrderedField R] (pow : R → R → R) (t : Task)
    (replies : Nat → Option worker.Stats × Option worker.Stats) (k : String)
    (nodes : List Node) :
    ∀ (idx : Nat) (m : GoMap String R), (∀ x ∈ nodes, x.Name ≠ k) →
      (EPvm.scoreLoop pow t replies idx nodes m).1.get? k = m.get? k := by
  induction nodes with
  | nil => intro idx m _; simp [EPvm.scoreLoop]
  | cons x rest ih =>
    intro idx m h
    have hx : x.Name ≠ k := h x (by simp)
    have hrest : ∀ y ∈ rest, y.Name ≠ k := fun y hy => h y (by simp [hy])
    rw [EPvm.scoreLoop]
    have hnm := calculateCpuUsage_name (R := R) x (replies idx).1 (replies idx).2
    rcases hc : calculateCpuUsage (R := R) x (replies idx).1 (replies idx).2 with ⟨x', u⟩
    rw [hc] at hnm
    cases u with
    | none => simpa using ih (idx + 1) m hrest
    | some u =>
      simp only
      rw [ih (idx + 1) _ hrest, goMap_get?_set]
      simp only at hnm
      rw [hnm]
      simp [hx]

theorem ePvm_scoreLoop_entry {R : Type} [LinearOrderedField R] (pow : R → R → R) (t : Task)
    (replies : Nat → Option worker.Stats × Option worker.Stats) (n : Node)
    (s1 s2 : worker.Stats) (post : List Node) (hname : ∀ m ∈ post, m.Name ≠ n.Name)
    (pre : List Node) :
    ∀ (idx : Nat) (m : GoMap String R), replies (idx + pre.length) = (some s1, some s2) →
      (EPvm.scoreLoop pow t replies idx (pre ++ n :: post) m).1.get? n.Name =
        some (EPvm.cost pow t (n.GetStats (some s2)).1 0) := by
  induction pre with
  | nil =>
    intro idx m hr
    simp only [List.length_nil, Nat.add_zero] at hr
    simp only [List.nil_append]
    rw [EPvm.scoreLoop, hr, calculateCpuUsage_success]
    simp only
    rw [ePvm_scoreLoop_frame pow t replies n.Name post (idx + 1) _ hname, goMap_get?_set]
    simp [getStats_name]
  | cons x rest ih =>
    intro idx m hr
    have hr' : replies (idx + 1 + rest.length) = (some s1, some s2) := by
      rw [← hr]; congr 1; simp; omega
    simp only [List.cons_append]
    rw [EPvm.scoreLoop]
    rcases hc : calculateCpuUsage (R := R) x (replies idx).1 (replies idx).2 with ⟨x', u⟩
    cases u with
    | none => simpa using ih (idx + 1) m hr'
    | some u => simpa using ih (idx + 1) _ hr'

/-- The cost of lines 102-112 with the two `pow LIEB cpuLoad` terms cancelled,
in any ordered field and for any power function. -/
theorem ePvm_cost_eq {R : Type} [LinearOrderedField R] (pow : R → R → R) (t : Task)
    (n : Node) (u : R) :
    EPvm.cost pow t n u =
      2 * (pow LIEB (((add64 n.TaskCount 1 : Int) : R) / 4) - pow LIEB ((n.TaskCount : R) / 4)) +
        pow LIEB (((n.Stats.MemUsedKb : R) + (n.MemoryAllocated : R) +
          ((Int.tdiv t.Memory 1000 : Int) : R)) / (n.Memory : R)) -
        pow LIEB (((n.Stats.MemUsedKb : R) + (n.MemoryAllocated : R)) / (n.Memory : R)) := by
  have h4 : (4.0 : R) = 4 := by norm_num
  simp only [EPvm.cost, calculateLoad, h4]
  ring

end cost

/-! ### The manager's SendWork -/

section sendWork
open scheduler node task manager store
variable {R : Type} [LinearOrderedField R]

theorem goMap_get?_set_self {κ ν : Type} [DecidableEq κ] (m : GoMap κ ν) (k : κ) (v : ν) :
    (m.set k v).get? k = some v := by
  rw [goMap_get?_set]; simp

theorem selectWorker_frame (pow : R → R → R) (m : Manager) (t : Task)
    (replies : Nat → Option worker.Stats × Option worker.Stats) :
    (m.SelectWorker pow t replies).m.Pending = m.Pending ∧
    (m.SelectWorker pow t replies).m.EventDb = m.EventDb ∧
    (m.SelectWorker pow t replies).m.TaskDb = m.TaskDb ∧
    (m.SelectWorker pow t replies).m.WorkerTaskMap = m.WorkerTaskMap ∧
    (m.SelectWorker pow t replies).m.TaskWorkerMap = m.TaskWorkerMap := by
  unfold Manager.SelectWorker
  by_cases h : (m.scheduler.SelectCandidateNodes t m.workerNodes).isEmpty = true <;> simp [h]

theorem selectWorker_no_candidates (pow : R → R → R) (m : Manager) (t : Task)
    (replies : Nat → Option worker.Stats × Option worker.Stats)
    (h : m.scheduler.SelectCandidateNodes t m.workerNodes = []) :
    (m.SelectWorker pow t replies).err = true ∧ (m.SelectWorker pow t replies).node = none ∧
      (m.SelectWorker pow t replies).m = m := by
  unfold Manager.SelectWorker
  simp [h]

theorem sendWork_cons (pow : R → R → R) (m : Manager) (te : Event) (rest : List Event)
    (replies : Nat → Option worker.Stats × Option worker.Stats) (reply : PostReply)
    (hp : m.Pending = te :: rest) :
    m.SendWork pow replies reply =
      (m.dequeued rest (putEvent m te)).dispatch pow te replies reply := by
  unfold Manager.SendWork
  rw [hp]
  rfl

theorem sendToWorker_frame (m : Manager) (te : Event) (w : Node) (reply : PostReply) :
    (m.sendToWorker te w reply).m.EventDb = m.EventDb ∧
    (m.sendToWorker te w reply).m.TaskWorkerMap = m.TaskWorkerMap.set te.Task.ID w.Name ∧
    (m.sendToWorker te w reply).m.WorkerTaskMap =
      m.WorkerTaskMap.set w.Name (m.WorkerTaskMap.getD w.Name [] ++ [te.Task.ID]) ∧
    (m.sendToWorker te w reply).panic = false ∧
    (m.sendToWorker te w reply).actions = [Action.select te.Task.ID, Action.post w.Name te] ∧
    (m.sendToWorker te w reply).m.Pending =
      (match reply with
       | .connError => m.Pending ++ [te]
       | .response _ _ _ => m.Pending) := by
  unfold Manager.sendToWorker
  cases reply with
  | connError => simp
  | response code decoded ok =>
    by_cases hc : code = 201
    · cases ok <;> simp [hc]
    · simp [hc]

/-- The task store after the placement: the record of the task is the event's
task in state `Scheduled`, unless the worker answered 201 and the store is the
in-memory one, whose record is then what was decoded from the answer. -/
theorem sendToWorker_taskDb (m : Manager) (te : Event) (w : Node) (reply : PostReply) :
    (m.sendToWorker te w reply).m.TaskDb.Get te.Task.ID =
      (match reply with
       | .connError => some { te.Task with State := Scheduled }
       | .response code decoded _ =>
         if code = 201 ∧ m.TaskDb.kind = Kind.memory then some decoded
         else some { te.Task with State := Scheduled }) := by
  unfold Manager.sendToWorker
  cases reply with
  | connError => simp [Store.Put, Store.Get, goMap_get?_set_self]
  | response code decoded ok =>
    by_cases hc : code = 201
    · cases hk : m.TaskDb.kind <;> cases ok <;>
        simp [hc, hk, Store.Put, Store.Get, Store.writeThrough, goMap_get?_set_self]
    · simp [hc, Store.Put, Store.Get, goMap_get?_set_self]

/-- The panic of `SendWork` on a new task for which the scheduler returns no
candidate. -/
theorem sendWork_panics_without_node (pow : R → R → R) (m : Manager) (te : Event)
    (rest : List Event) (replies : Nat → Option worker.Stats × Option worker.Stats)
    (reply : PostReply) (hp : m.Pending = te :: rest)
    (hnew : m.TaskWorkerMap.get? te.Task.ID = none)
    (hsel : m.scheduler.SelectCandidateNodes te.Task m.workerNodes = []) :
    (m.SendWork pow replies reply).panic = true ∧
      (m.SendWork pow replies reply).m.Pending = rest ∧
      (m.SendWork pow replies reply).actions = [Action.select te.Task.ID] := by
  rw [sendWork_cons pow m te rest replies reply hp]
  have h := selectWorker_no_candidates pow (m.dequeued rest (putEvent m te)) te.Task replies
    (by simpa [Manager.dequeued] using hsel)
  unfold Manager.dispatch
  have hnew' : (m.dequeued rest (putEvent m te)).TaskWorkerMap.get? te.Task.ID = none := hnew
  rw [hnew']
  simp only [h.2.1, h.2.2]
  simp [Manager.dequeued]

/-- An event whose task already has a worker is never placed: `SendWork` selects
no worker and posts nothing, whatever the replies. -/
theorem sendWork_known_task_not_placed (pow : R → R → R) (m : Manager) (te : Event)
    (rest : List Event) (replies : Nat → Option worker.Stats × Option worker.Stats)
    (reply : PostReply) (w : String) (hp : m.Pending = te :: rest)
    (hknown : m.TaskWorkerMap.get? te.Task.ID = some w) :
    (m.SendWork pow replies reply).m = m.dequeued rest (putEvent m te) ∧
    (m.SendWork pow replies reply).panic = false ∧
    ((m.SendWork pow replies reply).actions = [] ∨
      ((m.SendWork pow replies reply).actions = [Action.delete w te.Task.ID] ∧
        te.State = Completed)) := by
  rw [sendWork_cons pow m te rest replies reply hp]
  unfold Manager.dispatch
  have hknown' : (m.dequeued rest (putEvent m te)).TaskWorkerMap.get? te.Task.ID = some w :=
    hknown
  rw [hknown']
  simp only
  cases hg : (m.dequeued rest (putEvent m te)).TaskDb.Get te.Task.ID with
  | none => simp
  | some persisted =>
    simp only
    by_cases hc : te.State = Completed ∧
        ValidateTransitions persisted.State te.State = true
    · rw [if_pos hc]
      simp [Manager.stopTask, hc.1]
    · rw [if_neg hc]
      simp

theorem dispatch_frame (pow : R → R → R) (m : Manager) (te : Event)
    (replies : Nat → Option worker.Stats × Option worker.Stats) (reply : PostReply) :
    (m.dispatch pow te replies reply).m.EventDb = m.EventDb ∧
    ((m.dispatch pow te replies reply).m.Pending = m.Pending ∨
      (reply = PostReply.connError ∧
        (m.dispatch pow te replies reply).m.Pending = m.Pending ++ [te])) := by
  unfold Manager.dispatch
  cases hk : m.TaskWorkerMap.get? te.Task.ID with
  | some taskWorker =>
    simp only
    cases hg : m.TaskDb.Get te.Task.ID with
    | none => simp
    | some persisted =>
      simp only
      split <;> simp
  | none =>
    simp only
    have hf := selectWorker_frame pow m te.Task replies
    cases hn : (m.SelectWorker pow te.Task replies).node with
    | none => simp [hf.1, hf.2.1]
    | some w =>
      simp only
      have hs := sendToWorker_frame (m.SelectWorker pow te.Task replies).m te w reply
      rw [hs.1, hs.2.2.2.2.2, hf.2.1, hf.1]
      refine ⟨rfl, ?_⟩
      cases reply with
      | connError => right; exact ⟨rfl, rfl⟩
      | response code decoded ok => left; rfl

/-- The queue and the event store after a call of `SendWork` on a non-empty
queue. -/
theorem sendWork_dequeues_one (pow : R → R → R) (m : Manager) (te : Event)
    (rest : List Event) (replies : Nat → Option worker.Stats × Option worker.Stats)
    (reply : PostReply) (hp : m.Pending = te :: rest) :
    (m.SendWork pow replies reply).m.EventDb.Get te.ID = some te ∧
    ((m.SendWork pow replies reply).m.Pending = rest ∨
      (reply = PostReply.connError ∧ (m.SendWork pow replies reply).m.Pending = rest ++ [te])) := by
  rw [sendWork_cons pow m te rest replies reply hp]
  have h := dispatch_frame pow (m.dequeued rest (putEvent m te)) te replies reply
  rw [h.1]
  refine ⟨by simp [Manager.dequeued, putEvent, Store.Get, goMap_get?_set_self], ?_⟩
  simpa [Manager.dequeued] using h.2

end sendWork

/-! ### The worker's runTask -/

section runTask
open task store worker

theorem applyTask_illegal (w : Worker) (rt : Runtime) (p t : Task)
    (h : ValidateTransitions p.State t.State = false) :
    w.applyTask rt p t = { w := w, result := errorResult illegalTransition, calls := [] } := by
  unfold Worker.applyTask
  simp [h]

/-- A dequeued task whose transition is illegal is rejected by `runTask`. -/
theorem runTask_rejects_illegal (w : Worker) (rt : Runtime)
    (taskQueued : Task) (rest : List Task)
    (hqueue : w.Queue = taskQueued :: rest)
    (hillegal : ValidateTransitions ((w.Db.Get taskQueued.ID).getD taskQueued).State
      taskQueued.State = false) :
    (w.runTask rt).result = errorResult illegalTransition ∧
      (w.runTask rt).calls = [] ∧
      (w.runTask rt).w.Queue = rest ∧
      (∀ stored, w.Db.Get taskQueued.ID = some stored → (w.runTask rt).w.Db = w.Db) ∧
      (w.Db.Get taskQueued.ID = none →
        (w.runTask rt).w.Db = { w.Db with Db := w.Db.Db.set taskQueued.ID taskQueued }) := by
  unfold Worker.runTask
  rw [hqueue]
  cases hg : w.Db.Get taskQueued.ID with
  | none =>
    rw [hg] at hillegal
    simp only [Option.getD_none] at hillegal
    simp [hg, Store.Put, applyTask_illegal, hillegal]
  | some stored =>
    rw [hg] at hillegal
    simp only [Option.getD_some] at hillegal
    simp [hg, applyTask_illegal, hillegal]

end runTask

/-! ### The manager's updateTasks -/

section updateTasks
open task store manager

theorem store_get_putBack_self (s : Store Task) (id k : String) (v : Task) :
    (s.putBack id v id).Get k = if id = k then some v else s.Get k := by
  unfold Store.putBack Store.Put Store.Get Store.writeThrough
  by_cases h : id = k
  · cases s.kind <;> simp [goMap_get?_set, h]
  · cases s.kind <;> simp [goMap_get?_set, h]

theorem keyed_putBack_self (s : Store Task) (id : String) (v : Task) (hs : Keyed s)
    (hv : v.ID = id) : Keyed (s.putBack id v id) := by
  intro k r hk
  rw [store_get_putBack_self] at hk
  by_cases h : id = k
  · rw [if_pos h] at hk
    cases hk
    rw [hv, h]
  · rw [if_neg h] at hk
    exact hs k r hk

theorem mergeReport_mergeReport (p t r : Task) :
    mergeReport (mergeReport p t) r = mergeReport p r := rfl

theorem mergeReport_id (p t : Task) : (mergeReport p t).ID = p.ID := rfl

theorem reconciled_isSome (stored report : Option Task) :
    (reconciled stored report).isSome = stored.isSome := by
  cases stored <;> cases report <;> rfl

/-- The task store after the inner loop of `updateTasks`. -/
theorem updateTasksLoop_taskDb (w : String) (tasks : List Task) :
    ∀ m : Manager, Keyed m.TaskDb →
      ∀ k, (Manager.updateTasksLoop w tasks m).TaskDb.Get k =
        reconciled (m.TaskDb.Get k) (lastReport tasks k) := by
  induction tasks with
  | nil =>
    intro m _ k
    cases h : m.TaskDb.Get k <;> simp [Manager.updateTasksLoop, lastReport, reconciled, h]
  | cons t rest ih =>
    intro m hm k
    cases hg : m.TaskDb.Get t.ID with
    | none =>
      have hstep : Manager.updateTasksLoop w (t :: rest) m = Manager.updateTasksLoop w rest m := by
        rw [Manager.updateTasksLoop]; simp [hg]
      rw [hstep, ih m hm k]
      cases hl : lastReport rest k with
      | some r => simp [lastReport, hl]
      | none =>
        by_cases hk : t.ID = k
        · rw [hk] at hg
          simp [lastReport, hl, hk, hg, reconciled]
        · simp [lastReport, hl, hk]
    | some p =>
      have hp : p.ID = t.ID := hm t.ID p hg
      have hstep : Manager.updateTasksLoop w (t :: rest) m =
          Manager.updateTasksLoop w rest
            { m with
              WorkerTaskMap := m.WorkerTaskMap.set w (m.WorkerTaskMap.getD w [] ++ [t.ID]),
              TaskWorkerMap := m.TaskWorkerMap.set t.ID w,
              TaskDb := m.TaskDb.putBack t.ID (mergeReport p t) (mergeReport p t).ID } := by
        rw [Manager.updateTasksLoop]; simp [hg]
      have hid : (mergeReport p t).ID = t.ID := by rw [mergeReport_id, hp]
      rw [hstep, hid]
      rw [ih _ (keyed_putBack_self m.TaskDb t.ID (mergeReport p t) hm hid) k]
      simp only [store_get_putBack_self]
      by_cases hk : t.ID = k
      · rw [if_pos hk]
        rw [hk] at hg
        cases hl : lastReport rest k with
        | some r => simp [lastReport, hl, hg, reconciled, mergeReport_mergeReport]
        | none => simp [lastReport, hl, hk, hg, reconciled]
      · rw [if_neg hk]
        cases hl : lastReport rest k with
        | some r => simp [lastReport, hl]
        | none => simp [lastReport, hl, hk]

theorem updateTasksLoop_cons_found (w : String) (t p : Task) (rest : List Task) (m : Manager)
    (hm : Keyed m.TaskDb) (hg : m.TaskDb.Get t.ID = some p) :
    Manager.updateTasksLoop w (t :: rest) m =
      Manager.updateTasksLoop w rest
        { m with
          WorkerTaskMap := m.WorkerTaskMap.set w (m.WorkerTaskMap.getD w [] ++ [t.ID]),
          TaskWorkerMap := m.TaskWorkerMap.set t.ID w,
          TaskDb := m.TaskDb.putBack t.ID (mergeReport p t) t.ID } := by
  have hid : (mergeReport p t).ID = t.ID := by rw [mergeReport_id, hm t.ID p hg]
  rw [Manager.updateTasksLoop]
  simp [hg, hid]

theorem updateTasksLoop_cons_missing (w : String) (t : Task) (rest : List Task) (m : Manager)
    (hg : m.TaskDb.Get t.ID = none) :
    Manager.updateTasksLoop w (t :: rest) m = Manager.updateTasksLoop w rest m := by
  rw [Manager.updateTasksLoop]
  simp [hg]

theorem putBack_presence (s : Store Task) (id : String) (p v : Task)
    (hg : s.Get id = some p) (k : String) :
    ((s.putBack id v id).Get k).isSome = (s.Get k).isSome := by
  rw [store_get_putBack_self]
  by_cases h : id = k
  · rw [if_pos h, ← h, hg]; rfl
  · rw [if_neg h]

/-- The entry of the worker in `WorkerTaskMap` after the inner loop. -/
theorem updateTasksLoop_workerTaskMap (w : String) (tasks : List Task) :
    ∀ (m : Manager) (l : List UUID), Keyed m.TaskDb → m.WorkerTaskMap.get? w = some l →
      (Manager.updateTasksLoop w tasks m).WorkerTaskMap.get? w =
        some (l ++ (tasks.filter (fun t => (m.TaskDb.Get t.ID).isSome)).map (fun t => t.ID)) := by
  induction tasks with
  | nil => intro m l _ hl; simpa [Manager.updateTasksLoop] using hl
  | cons t rest ih =>
    intro m l hm hl
    cases hg : m.TaskDb.Get t.ID with
    | none =>
      rw [updateTasksLoop_cons_missing w t rest m hg, ih m l hm hl]
      simp [List.filter_cons, hg]
    | some p =>
      have hid : (mergeReport p t).ID = t.ID := by rw [mergeReport_id, hm t.ID p hg]
      rw [updateTasksLoop_cons_found w t p rest m hm hg]
      rw [ih _ (l ++ [t.ID]) (keyed_putBack_self m.TaskDb t.ID (mergeReport p t) hm hid)
        (by simp [GoMap.getD, hl, goMap_get?_set_self])]
      have hf : (fun t' : Task =>
            ((m.TaskDb.putBack t.ID (mergeReport p t) t.ID).Get t'.ID).isSome) =
          (fun t' : Task => (m.TaskDb.Get t'.ID).isSome) := by
        funext t'
        exact putBack_presence m.TaskDb t.ID p (mergeReport p t) hg t'.ID
      simp only [hf]
      simp [List.filter_cons, hg]

/-- The entries of the other workers in `WorkerTaskMap` after the inner loop. -/
theorem updateTasksLoop_workerTaskMap_other (w w' : String) (hw : w ≠ w') (tasks : List Task) :
    ∀ m : Manager,
      (Manager.updateTasksLoop w tasks m).WorkerTaskMap.get? w' = m.WorkerTaskMap.get? w' := by
  induction tasks with
  | nil => intro m; simp [Manager.updateTasksLoop]
  | cons t rest ih =>
    intro m
    rw [Manager.updateTasksLoop]
    cases hg : m.TaskDb.Get t.ID with
    | none => simpa using ih m
    | some p =>
      simp only
      rw [ih]
      simp [goMap_get?_set, hw]

/-- The map `TaskWorkerMap` after the inner loop. -/
theorem updateTasksLoop_taskWorkerMap (w : String) (tasks : List Task) :
    ∀ m : Manager, Keyed m.TaskDb →
      ∀ k, (Manager.updateTasksLoop w tasks m).TaskWorkerMap.get? k =
        if (lastReport tasks k).isSome = true ∧ (m.TaskDb.Get k).isSome = true then some w
        else m.TaskWorkerMap.get? k := by
  induction tasks with
  | nil => intro m _ k; simp [Manager.updateTasksLoop, lastReport]
  | cons t rest ih =>
    intro m hm k
    cases hg : m.TaskDb.Get t.ID with
    | none =>
      rw [updateTasksLoop_cons_missing w t rest m hg, ih m hm k]
      cases hl : lastReport rest k with
      | some r => simp [lastReport, hl]
      | none =>
        by_cases hk : t.ID = k
        · rw [hk] at hg
          simp [lastReport, hl, hk, hg]
        · simp [lastReport, hl, hk]
    | some p =>
      have hid : (mergeReport p t).ID = t.ID := by rw [mergeReport_id, hm t.ID p hg]
      rw [updateTasksLoop_cons_found w t p rest m hm hg]
      rw [ih _ (keyed_putBack_self m.TaskDb t.ID (mergeReport p t) hm hid) k]
      simp only [putBack_presence m.TaskDb t.ID p (mergeReport p t) hg k, goMap_get?_set]
      cases hl : lastReport rest k with
      | some r =>
        by_cases hk : t.ID = k
        · rw [hk] at hg
          simp [lastReport, hl, hg]
        · simp [lastReport, hl, hk]
      | none =>
        by_cases hk : t.ID = k
        · rw [hk] at hg
          simp [lastReport, hl, hk, hg]
        · simp [lastReport, hl, hk]

/-- What the inner loop of `updateTasks` leaves alone. -/
theorem updateTasksLoop_frame (w : String) (tasks : List Task) :
    ∀ m : Manager,
      (Manager.updateTasksLoop w tasks m).Pending = m.Pending ∧
      (Manager.updateTasksLoop w tasks m).EventDb = m.EventDb ∧
      (Manager.updateTasksLoop w tasks m).Workers = m.Workers := by
  induction tasks with
  | nil => intro m; simp [Manager.updateTasksLoop]
  | cons t rest ih =>
    intro m
    rw [Manager.updateTasksLoop]
    cases hg : m.TaskDb.Get t.ID with
    | none => simpa using ih m
    | some p => simpa using ih _

theorem lastReport_eq_none (tasks : List Task) (k : UUID) :
    lastReport tasks k = none ↔ ∀ t ∈ tasks, t.ID ≠ k := by
  induction tasks with
  | nil => simp [lastReport]
  | cons t rest ih =>
    cases hl : lastReport rest k with
    | some r =>
      have hne : ¬ ∀ t ∈ rest, t.ID ≠ k := fun h => by
        rw [ih.2 h] at hl; cases hl
      simp only [lastReport, hl, List.mem_cons, forall_eq_or_imp]
      constructor
      · intro h; cases h
      · intro h; exact absurd h.2 hne
    | none =>
      have hall := ih.1 hl
      by_cases hk : t.ID = k
      · simp [lastReport, hl, hk]
      · simp only [lastReport, hl, hk, List.mem_cons, forall_eq_or_imp, if_false]
        exact ⟨fun _ => ⟨hk, hall⟩, fun _ => trivial⟩

theorem lastReport_eq_some (tasks : List Task) (k : UUID) (r : Task) :
    lastReport tasks k = some r → r ∈ tasks ∧ r.ID = k := by
  induction tasks with
  | nil => intro h; simp [lastReport] at h
  | cons t rest ih =>
    intro h
    cases hl : lastReport rest k with
    | some r' =>
      simp only [lastReport, hl] at h
      cases h
      exact ⟨List.mem_cons_of_mem _ (ih hl).1, (ih hl).2⟩
    | none =>
      by_cases hk : t.ID = k
      · simp only [lastReport, hl, hk, if_true] at h
        cases h
        exact ⟨List.mem_cons_self _ _, hk⟩
      · simp [lastReport, hl, hk] at h

end updateTasks

/-! ### The manager's health checks -/

section health
open task store manager

theorem mem_store_list (s : Store Task) (order : List String) (k : String) (t : Task)
    (h : (k, t) ∈ s.List order) : s.Get k = some t := by
  unfold Store.List at h
  rw [List.mem_filterMap] at h
  obtain ⟨key, _, hkey⟩ := h
  cases hg : s.Get key with
  | none => rw [hg] at hkey; cases hkey
  | some v =>
    rw [hg] at hkey
    simp only [Option.map_some', Option.some.injEq, Prod.mk.injEq] at hkey
    rw [← hkey.1, ← hkey.2]
    exact hg

theorem checkTaskHealth_failed (m : Manager) (net : HealthNet) (t : Task)
    (h : m.checkTaskHealth net t = Health.failed) : net.healthy t = false := by
  unfold Manager.checkTaskHealth at h
  split at h
  · cases h
  · cases h
  · by_cases hh : net.healthy t = true
    · rw [if_pos hh] at h; cases h
    · simpa using hh

theorem restarted_count (t : Task) (h1 : -2 ^ 63 ≤ t.RestartCount) (h2 : t.RestartCount < 3) :
    (restarted t).RestartCount = t.RestartCount + 1 := by
  show add64 t.RestartCount 1 = t.RestartCount + 1
  unfold add64
  exact wrap64_of_inRange _ (by omega) (by omega)

theorem keyed_single (kind : Kind) (t : Task) :
    Keyed { kind := kind, Db := [(t.ID, t)] } := by
  intro key record h
  simp only [Store.Get, GoMap.get?] at h
  by_cases hkey : t.ID = key
  · rw [if_pos hkey] at h
    cases h
    exact hkey
  · rw [if_neg hkey] at h
    cases h

end health

/-! ### The restarts of a round of health checks -/

section restarts
open task store manager

theorem store_get_putBack (s : Store Task) (key id k : String) (v : Task) :
    (s.putBack key v id).Get k =
      if id = k then some v
      else if s.kind = Kind.memory ∧ key = k then some v else s.Get k := by
  unfold Store.putBack Store.Put Store.Get Store.writeThrough
  by_cases h : id = k
  · cases s.kind <;> simp [goMap_get?_set, h]
  · by_cases h' : key = k
    · cases s.kind <;> simp [goMap_get?_set, h, h']
    · cases s.kind <;> simp [goMap_get?_set, h, h']

theorem store_get_putBack_id (s : Store Task) (key id : String) (v : Task) :
    (s.putBack key v id).Get id = some v := by
  rw [store_get_putBack, if_pos rfl]

theorem restartTask_effect (m : Manager) (net : HealthNet) (key : String) (t : Task) :
    (m.restartTask net key t).m.TaskDb =
      m.TaskDb.putBack key (restarted t) (restarted t).ID ∧
    (m.restartTask net key t).m.TaskWorkerMap = m.TaskWorkerMap ∧
    (m.restartTask net key t).panic = false ∧
    (m.restartTask net key t).actions =
      [Action.post (m.TaskWorkerMap.getD t.ID "") (restartEvent net t)] := by
  unfold Manager.restartTask
  cases net.post t <;> exact ⟨rfl, rfl, rfl, rfl⟩

/-- The loop of `doHealthChecks` restarts a sublist `done` of the listed tasks,
each of them due: the store it leaves is the store it found with the restarted
records put back in turn, and its POSTs are the restart events of `done`. -/
theorem healthLoop_trace (net : HealthNet) (tasks : List (String × Task)) :
    ∀ m : Manager, ∃ done : List (String × Task),
      (∀ e ∈ done, e ∈ tasks ∧ restartDue net e.2) ∧
      (Manager.healthLoop net tasks m).m.TaskDb =
        done.foldl (fun s e => s.putBack e.1 (restarted e.2) (restarted e.2).ID) m.TaskDb ∧
      (Manager.healthLoop net tasks m).m.TaskWorkerMap = m.TaskWorkerMap ∧
      (∀ a ∈ (Manager.healthLoop net tasks m).actions,
        (∃ id, a = Action.health id) ∨
        ∃ e ∈ done, a = Action.post (m.TaskWorkerMap.getD e.2.ID "") (restartEvent net e.2)) ∧
      (∀ e ∈ done, Action.post (m.TaskWorkerMap.getD e.2.ID "") (restartEvent net e.2) ∈
        (Manager.healthLoop net tasks m).actions) := by
  induction tasks with
  | nil =>
    intro m
    exact ⟨[], by simp, rfl, rfl, by simp [Manager.healthLoop], by simp⟩
  | cons e rest ih =>
    obtain ⟨key, t⟩ := e
    intro m
    have keep : ∃ done : List (String × Task),
        (∀ e ∈ done, e ∈ (key, t) :: rest ∧ restartDue net e.2) ∧
        (Manager.healthLoop net rest m).m.TaskDb =
          done.foldl (fun s e => s.putBack e.1 (restarted e.2) (restarted e.2).ID) m.TaskDb ∧
        (Manager.healthLoop net rest m).m.TaskWorkerMap = m.TaskWorkerMap ∧
        (∀ a ∈ (Manager.healthLoop net rest m).actions,
          (∃ id, a = Action.health id) ∨
          ∃ e ∈ done,
            a = Action.post (m.TaskWorkerMap.getD e.2.ID "") (restartEvent net e.2)) ∧
        (∀ e ∈ done, Action.post (m.TaskWorkerMap.getD e.2.ID "") (restartEvent net e.2) ∈
          (Manager.healthLoop net rest m).actions) := by
      obtain ⟨done, h1, h2, h3, h4, h5⟩ := ih m
      exact ⟨done, fun e he => ⟨List.mem_cons_of_mem _ (h1 e he).1, (h1 e he).2⟩, h2, h3, h4, h5⟩
    have restart : restartDue net t → ∃ done : List (String × Task),
        (∀ e ∈ done, e ∈ (key, t) :: rest ∧ restartDue net e.2) ∧
        (Manager.healthLoop net rest (m.restartTask net key t).m).m.TaskDb =
          done.foldl (fun s e => s.putBack e.1 (restarted e.2) (restarted e.2).ID) m.TaskDb ∧
        (Manager.healthLoop net rest (m.restartTask net key t).m).m.TaskWorkerMap =
          m.TaskWorkerMap ∧
        (∀ a ∈ (m.restartTask net key t).actions ++
            (Manager.healthLoop net rest (m.restartTask net key t).m).actions,
          (∃ id, a = Action.health id) ∨
          ∃ e ∈ done,
            a = Action.post (m.TaskWorkerMap.getD e.2.ID "") (restartEvent net e.2)) ∧
        (∀ e ∈ done, Action.post (m.TaskWorkerMap.getD e.2.ID "") (restartEvent net e.2) ∈
          (m.restartTask net key t).actions ++
            (Manager.healthLoop net rest (m.restartTask net key t).m).actions) := by
      intro hdue
      obtain ⟨hdb, hmap, _, hact⟩ := restartTask_effect m net key t
      obtain ⟨done, h1, h2, h3, h4, h5⟩ := ih (m.restartTask net key t).m
      refine ⟨(key, t) :: done, ?_, ?_, h3.trans hmap, ?_, ?_⟩
      · intro e he
        rcases List.mem_cons.1 he with he | he
        · rw [he]; exact ⟨List.mem_cons_self _ _, hdue⟩
        · exact ⟨List.mem_cons_of_mem _ (h1 e he).1, (h1 e he).2⟩
      · rw [h2, hdb]; rfl
      · intro a ha
        rcases List.mem_append.1 ha with ha | ha
        · rw [hact, List.mem_singleton] at ha
          exact Or.inr ⟨(key, t), List.mem_cons_self _ _, ha⟩
        · rcases h4 a ha with h | ⟨e, he, hae⟩
          · exact Or.inl h
          · exact Or.inr ⟨e, List.mem_cons_of_mem _ he, by rw [hae, hmap]⟩
      · intro e he
        rcases List.mem_cons.1 he with he | he
        · rw [he, hact]; simp
        · have := h5 e he
          rw [hmap] at this
          exact List.mem_append_right _ this
    rw [Manager.healthLoop]
    by_cases h1 : t.State = Running ∧ t.RestartCount < 3
    · rw [if_pos h1]
      cases hc : m.checkTaskHealth net t with
      | panic => exact ⟨[], by simp, rfl, rfl, by simp, by simp⟩
      | ok =>
        obtain ⟨done, p1, p2, p3, p4, p5⟩ := keep
        refine ⟨done, p1, p2, p3, ?_, ?_⟩
        · intro a ha
          rcases List.mem_cons.1 ha with ha | ha
          · exact Or.inl ⟨_, ha⟩
          · exact p4 a ha
        · intro e he
          exact List.mem_cons_of_mem _ (p5 e he)
      | failed =>
        obtain ⟨done, p1, p2, p3, p4, p5⟩ :=
          restart ⟨h1.2, Or.inr ⟨h1.1, checkTaskHealth_failed m net t hc⟩⟩
        refine ⟨done, p1, p2, p3, ?_, ?_⟩
        · intro a ha
          rcases List.mem_cons.1 ha with ha | ha
          · exact Or.inl ⟨_, ha⟩
          · exact p4 a ha
        · intro e he
          exact List.mem_cons_of_mem _ (p5 e he)
    · rw [if_neg h1]
      by_cases h2 : t.State = Failed ∧ t.RestartCount < 3
      · rw [if_pos h2]
        exact restart ⟨h2.2, Or.inl h2.1⟩
      · rw [if_neg h2]
        exact keep

/-- A record of the store after a sequence of restarts is the record found
under that key or one of the restarted records. -/
theorem restarts_get (done : List (String × Task)) :
    ∀ (s : Store Task) (k : String),
      (done.foldl (fun s e => s.putBack e.1 (restarted e.2) (restarted e.2).ID) s).Get k =
          s.Get k ∨
        ∃ e ∈ done,
          (done.foldl (fun s e => s.putBack e.1 (restarted e.2) (restarted e.2).ID) s).Get k =
            some (restarted e.2) := by
  induction done with
  | nil => intro s k; exact Or.inl rfl
  | cons e rest ih =>
    intro s k
    rw [List.foldl_cons]
    rcases ih (s.putBack e.1 (restarted e.2) (restarted e.2).ID) k with h | ⟨e', he', h⟩
    · rw [h, store_get_putBack]
      by_cases h1 : (restarted e.2).ID = k
      · rw [if_pos h1]
        exact Or.inr ⟨e, List.mem_cons_self _ _, rfl⟩
      · rw [if_neg h1]
        by_cases h2 : s.kind = Kind.memory ∧ e.1 = k
        · rw [if_pos h2]
          exact Or.inr ⟨e, List.mem_cons_self _ _, rfl⟩
        · rw [if_neg h2]
          exact Or.inl rfl
    · exact Or.inr ⟨e', List.mem_cons_of_mem _ he', h⟩

/-- Restarts of records stored under their ids leave the other keys alone. -/
theorem restarts_get_other (done : List (String × Task)) :
    ∀ (s : Store Task) (k : String), (∀ e ∈ done, e.2.ID = e.1) → (∀ e ∈ done, e.1 ≠ k) →
      (done.foldl (fun s e => s.putBack e.1 (restarted e.2) (restarted e.2).ID) s).Get k =
        s.Get k := by
  induction done with
  | nil => intro s k _ _; rfl
  | cons e rest ih =>
    intro s k hid hk
    rw [List.foldl_cons,
      ih _ k (fun x hx => hid x (List.mem_cons_of_mem _ hx))
        (fun x hx => hk x (List.mem_cons_of_mem _ hx)),
      store_get_putBack]
    have h1 : (restarted e.2).ID = e.1 := hid e (List.mem_cons_self _ _)
    have h2 : e.1 ≠ k := hk e (List.mem_cons_self _ _)
    rw [h1, if_neg h2, if_neg (fun h => h2 h.2)]

/-- Restarts of records stored under their ids: the record of a restarted task. -/
theorem restarts_get_done (done : List (String × Task)) :
    ∀ (s : Store Task) (k : String) (t : Task), (∀ e ∈ done, e.2.ID = e.1) →
      (∀ e ∈ done, e.1 = k → e.2 = t) → (k, t) ∈ done →
      (done.foldl (fun s e => s.putBack e.1 (restarted e.2) (restarted e.2).ID) s).Get k =
        some (restarted t) := by
  induction done with
  | nil => intro s k t _ _ h; cases h
  | cons e rest ih =>
    intro s k t hid hfun hmem
    have hid' : ∀ x ∈ rest, x.2.ID = x.1 := fun x hx => hid x (List.mem_cons_of_mem _ hx)
    have hfun' : ∀ x ∈ rest, x.1 = k → x.2 = t :=
      fun x hx => hfun x (List.mem_cons_of_mem _ hx)
    rw [List.foldl_cons]
    by_cases hin : ∃ x ∈ rest, x.1 = k
    · obtain ⟨x, hx, hxk⟩ := hin
      have hxt : (k, t) ∈ rest := by
        have h2 := hfun' x hx hxk
        have : x = (k, t) := Prod.ext hxk h2
        rw [← this]; exact hx
      exact ih _ k t hid' hfun' hxt
    · have hnot : ∀ x ∈ rest, x.1 ≠ k := fun x hx hxk => hin ⟨x, hx, hxk⟩
      have he : e = (k, t) := by
        rcases List.mem_cons.1 hmem with h | h
        · exact h.symm
        · exact absurd rfl (hnot (k, t) h)
      rw [restarts_get_other rest _ k hid' hnot, he]
      have h1 : (restarted t).ID = k := by
        have := hid e (List.mem_cons_self _ _)
        rw [he] at this
        exact this
      rw [store_get_putBack, if_pos h1]

theorem restartEvent_injective (net : HealthNet) (a b : Task)
    (h : restartEvent net a = restartEvent net b) : restarted a = restarted b := by
  have := congrArg Event.Task h
  exact this

end restarts

/-! ### The outer loop of updateTasks -/

section updateLoop
open task store manager

theorem keyed_updateTasksLoop (w : String) (tasks : List Task) (m : Manager)
    (hm : Keyed m.TaskDb) : Keyed (Manager.updateTasksLoop w tasks m).TaskDb := by
  intro k r hk
  rw [updateTasksLoop_taskDb w tasks m hm k] at hk
  cases hg : m.TaskDb.Get k with
  | none => rw [hg] at hk; cases hl : lastReport tasks k <;> simp [reconciled, hl] at hk
  | some p =>
    rw [hg] at hk
    cases hl : lastReport tasks k with
    | none =>
      simp only [reconciled, hl, Option.some.injEq] at hk
      rw [← hk]
      exact hm k p hg
    | some t =>
      simp only [reconciled, hl, Option.some.injEq] at hk
      rw [← hk, mergeReport_id]
      exact hm k p hg

theorem updateTasksFrom_single (replies : Nat → GetReply) (i : Nat) (w : String) (m : Manager)
    (code : Nat) (tasks : List Task) (hreply : replies i = .response code tasks) :
    Manager.updateTasksFrom replies i [w] m =
      { m := Manager.updateTasksLoop w tasks { m with WorkerTaskMap := m.WorkerTaskMap.set w [] },
        panic := false, actions := [Action.get w] } := by
  simp [Manager.updateTasksFrom, Manager.updateWorker, hreply]

theorem updateTasksFrom_cons (replies : Nat → GetReply) (i : Nat) (w : String)
    (rest : List String) (m : Manager) (code : Nat) (tasks : List Task)
    (hreply : replies i = .response code tasks) :
    Manager.updateTasksFrom replies i (w :: rest) m =
      { m := (Manager.updateTasksFrom replies (i + 1) rest
          (Manager.updateTasksFrom replies i [w] m).m).m,
        panic := (Manager.updateTasksFrom replies (i + 1) rest
          (Manager.updateTasksFrom replies i [w] m).m).panic,
        actions := Action.get w :: (Manager.updateTasksFrom replies (i + 1) rest
          (Manager.updateTasksFrom replies i [w] m).m).actions } := by
  rw [updateTasksFrom_single replies i w m code tasks hreply]
  simp [Manager.updateTasksFrom, Manager.updateWorker, hreply]

/-- Without any assumption on the store: a record after the inner loop of
`updateTasks` is the record found under its key in the store `s`, or a record
of `s` merged with a reported task. -/
theorem updateTasksLoop_merged (s : Store Task) (rep : Task → Prop) (w : String)
    (tasks : List Task) :
    ∀ m : Manager, (∀ t ∈ tasks, rep t) →
      (∀ k, m.TaskDb.Get k = s.Get k ∨
        ∃ k0 p t, s.Get k0 = some p ∧ rep t ∧ m.TaskDb.Get k = some (mergeReport p t)) →
      ∀ k, (Manager.updateTasksLoop w tasks m).TaskDb.Get k = s.Get k ∨
        ∃ k0 p t, s.Get k0 = some p ∧ rep t ∧
          (Manager.updateTasksLoop w tasks m).TaskDb.Get k = some (mergeReport p t) := by
  induction tasks with
  | nil => intro m _ h k; exact h k
  | cons t rest ih =>
    intro m hrep h
    have hrest : ∀ x ∈ rest, rep x := fun x hx => hrep x (List.mem_cons_of_mem _ hx)
    cases hg : m.TaskDb.Get t.ID with
    | none =>
      rw [updateTasksLoop_cons_missing w t rest m hg]
      exact ih m hrest h
    | some q =>
      have hstep : Manager.updateTasksLoop w (t :: rest) m =
          Manager.updateTasksLoop w rest
            { m with
              WorkerTaskMap := m.WorkerTaskMap.set w (m.WorkerTaskMap.getD w [] ++ [t.ID]),
              TaskWorkerMap := m.TaskWorkerMap.set t.ID w,
              TaskDb := m.TaskDb.putBack t.ID (mergeReport q t) (mergeReport q t).ID } := by
        rw [Manager.updateTasksLoop]; simp [hg]
      rw [hstep]
      have hq : ∃ k0 p, s.Get k0 = some p ∧ mergeReport q t = mergeReport p t := by
        rcases h t.ID with h1 | ⟨k0, p, t', hp, _, h1⟩
        · rw [hg] at h1
          exact ⟨t.ID, q, h1.symm, rfl⟩
        · rw [hg] at h1
          rw [Option.some.inj h1]
          exact ⟨k0, p, hp, rfl⟩
      obtain ⟨k0, p, hp, hqp⟩ := hq
      apply ih _ hrest
      intro k
      show (m.TaskDb.putBack t.ID (mergeReport q t) (mergeReport q t).ID).Get k = s.Get k ∨ _
      have hnew : ∃ k0 p t', s.Get k0 = some p ∧ rep t' ∧
          some (mergeReport q t) = some (mergeReport p t') :=
        ⟨k0, p, t, hp, hrep t (List.mem_cons_self _ _), by rw [hqp]⟩
      rw [store_get_putBack]
      by_cases h1 : (mergeReport q t).ID = k
      · rw [if_pos h1]
        exact Or.inr hnew
      · rw [if_neg h1]
        by_cases h2 : m.TaskDb.kind = Kind.memory ∧ t.ID = k
        · rw [if_pos h2]
          exact Or.inr hnew
        · rw [if_neg h2]
          exact h k

/-- Without any assumption on the store: a record after `updateTasks` is the
record found under its key before, or a record of the store merged with a task
of a worker's reply. -/
theorem updateTasksFrom_merged (s : Store Task) (replies : Nat → GetReply) (ws : List String) :
    ∀ (i : Nat) (m : Manager),
      (∀ k, m.TaskDb.Get k = s.Get k ∨
        ∃ k0 p t, s.Get k0 = some p ∧
          (∃ j code tasks, replies j = GetReply.response code tasks ∧ t ∈ tasks) ∧
          m.TaskDb.Get k = some (mergeReport p t)) →
      ∀ k, (Manager.updateTasksFrom replies i ws m).m.TaskDb.Get k = s.Get k ∨
        ∃ k0 p t, s.Get k0 = some p ∧
          (∃ j code tasks, replies j = GetReply.response code tasks ∧ t ∈ tasks) ∧
          (Manager.updateTasksFrom replies i ws m).m.TaskDb.Get k = some (mergeReport p t) := by
  induction ws with
  | nil => intro i m h k; exact h k
  | cons w rest ih =>
    intro i m h
    cases hr : replies i with
    | connError =>
      have : Manager.updateTasksFrom replies i (w :: rest) m =
          { m := m, panic := true, actions := [Action.get w] } := by
        simp [Manager.updateTasksFrom, Manager.updateWorker, hr]
      rw [this]
      exact h
    | response code tasks =>
      rw [updateTasksFrom_cons replies i w rest m code tasks hr,
        updateTasksFrom_single replies i w m code tasks hr]
      apply ih
      exact updateTasksLoop_merged s
        (fun t => ∃ j code tasks, replies j = GetReply.response code tasks ∧ t ∈ tasks)
        w tasks _ (fun t ht => ⟨i, code, tasks, hr, ht⟩) h

/-- A single reported task that is found in the store is put back, merged,
under the id of the record. -/
theorem updateTasks_single_report (m : Manager) (replies : Nat → GetReply) (w : String)
    (code : Nat) (t p : Task) (hw : m.Workers = [w])
    (hreply : replies 0 = .response code [t]) (hg : m.TaskDb.Get t.ID = some p) :
    (m.updateTasks replies).m.TaskDb.Get p.ID = some (mergeReport p t) := by
  unfold Manager.updateTasks
  rw [hw, updateTasksFrom_single replies 0 w m code [t] hreply]
  have hg' : ({ m with WorkerTaskMap := m.WorkerTaskMap.set w [] } : Manager).TaskDb.Get t.ID =
      some p := hg
  show (Manager.updateTasksLoop w [t] _).TaskDb.Get p.ID = _
  rw [Manager.updateTasksLoop]
  simp only [hg', Manager.updateTasksLoop]
  exact store_get_putBack_id _ _ _ _

/-- A listing of one task that is due for a restart: the task is put back,
restarted, under its id. -/
theorem doHealthChecks_single (m : Manager) (net : HealthNet) (k : String) (r : Task)
    (hg : m.TaskDb.Get k = some r) (h3 : r.RestartCount < 3)
    (hdue : r.State = Failed ∨ (r.State = Running ∧ m.checkTaskHealth net r = Health.failed)) :
    (m.doHealthChecks net [k]).m.TaskDb.Get r.ID = some (restarted r) := by
  have hlist : m.GetTasks [k] = [(k, r)] := by
    simp [Manager.GetTasks, Store.List, hg]
  have hres : (Manager.healthLoop net [] (m.restartTask net k r).m).m.TaskDb.Get r.ID =
      some (restarted r) := by
    rw [Manager.healthLoop, (restartTask_effect m net k r).1]
    exact store_get_putBack_id _ _ _ _
  unfold Manager.doHealthChecks
  rw [hlist, Manager.healthLoop]
  rcases hdue with hf | ⟨hr, hc⟩
  · have h1 : ¬ (r.State = Running ∧ r.RestartCount < 3) := by
      rw [hf]
      intro h
      exact absurd h.1 (by decide)
    rw [if_neg h1, if_pos ⟨hf, h3⟩]
    exact hres
  · rw [if_pos ⟨hr, h3⟩, hc]
    exact hres

end updateLoop

/-! ### E-PVM with failed stats requests -/

section failed
open scheduler node task
variable {R : Type} [LinearOrderedField R]

theorem calculateCpuUsage_of_fails (n : Node) (r : Option worker.Stats × Option worker.Stats)
    (h : fetchFails r) : (calculateCpuUsage (R := R) n r.1 r.2).2 = none := by
  obtain ⟨r1, r2⟩ := r
  rcases h with h | h
  · simp only at h
    subst h
    rfl
  · simp only at h
    subst h
    cases r1 <;> rfl

theorem calculateCpuUsage_of_succeeds (n : Node) (r : Option worker.Stats × Option worker.Stats)
    (h : ¬ fetchFails r) : ∃ u, (calculateCpuUsage (R := R) n r.1 r.2).2 = some u := by
  obtain ⟨r1, r2⟩ := r
  cases r1 with
  | none => exact absurd (Or.inl rfl) h
  | some s1 =>
    cases r2 with
    | none => exact absurd (Or.inr rfl) h
    | some s2 => exact ⟨0, by rw [calculateCpuUsage_success]⟩

theorem ePvm_scoreLoop_cons (pow : R → R → R) (t : Task)
    (replies : Nat → Option worker.Stats × Option worker.Stats) (idx : Nat) (n : Node)
    (rest : List Node) (m : GoMap String R) :
    EPvm.scoreLoop pow t replies idx (n :: rest) m =
      ((EPvm.scoreLoop pow t replies (idx + 1) rest
          (match (calculateCpuUsage (R := R) n (replies idx).1 (replies idx).2).2 with
           | none => m
           | some u => m.set n.Name
              (EPvm.cost pow t (calculateCpuUsage (R := R) n (replies idx).1 (replies idx).2).1
                u))).1,
        (calculateCpuUsage (R := R) n (replies idx).1 (replies idx).2).1 ::
          (EPvm.scoreLoop pow t replies (idx + 1) rest
          (match (calculateCpuUsage (R := R) n (replies idx).1 (replies idx).2).2 with
           | none => m
           | some u => m.set n.Name
              (EPvm.cost pow t (calculateCpuUsage (R := R) n (replies idx).1 (replies idx).2).1
                u))).2) := by
  rw [EPvm.scoreLoop]
  have hnm := calculateCpuUsage_name (R := R) n (replies idx).1 (replies idx).2
  rcases hc : calculateCpuUsage (R := R) n (replies idx).1 (replies idx).2 with ⟨n', u⟩
  rw [hc] at hnm
  simp only at hnm
  cases u with
  | none => rfl
  | some u => simp only [hnm]

theorem ePvm_scoreLoop_snd (pow : R → R → R) (t : Task)
    (replies : Nat → Option worker.Stats × Option worker.Stats) (nodes : List Node) :
    ∀ (idx : Nat) (m m' : GoMap String R),
      (EPvm.scoreLoop pow t replies idx nodes m).2 =
        (EPvm.scoreLoop pow t replies idx nodes m').2 := by
  induction nodes with
  | nil => intro idx m m'; simp [EPvm.scoreLoop]
  | cons n rest ih =>
    intro idx m m'
    rw [ePvm_scoreLoop_cons, ePvm_scoreLoop_cons]
    simp only [List.cons.injEq, true_and]
    exact ih _ _ _

theorem ePvm_scoreLoop_append (pow : R → R → R) (t : Task)
    (replies : Nat → Option worker.Stats × Option worker.Stats) (l1 l2 : List Node) :
    ∀ (idx : Nat) (m : GoMap String R),
      (EPvm.scoreLoop pow t replies idx (l1 ++ l2) m).1 =
          (EPvm.scoreLoop pow t replies (idx + l1.length) l2
            (EPvm.scoreLoop pow t replies idx l1 m).1).1 ∧
      (EPvm.scoreLoop pow t replies idx (l1 ++ l2) m).2 =
          (EPvm.scoreLoop pow t replies idx l1 m).2 ++
            (EPvm.scoreLoop pow t replies (idx + l1.length) l2 m).2 := by
  induction l1 with
  | nil => intro idx m; simp [EPvm.scoreLoop]
  | cons n rest ih =>
    intro idx m
    have e : idx + (n :: rest).length = idx + 1 + rest.length := by simp; omega
    rw [e]
    simp only [List.cons_append]
    rw [ePvm_scoreLoop_cons, ePvm_scoreLoop_cons pow t replies idx n rest]
    simp only [List.cons_append, List.cons.injEq, true_and]
    refine ⟨(ih _ _).1, ?_⟩
    rw [(ih _ _).2]
    congr 1
    exact ePvm_scoreLoop_snd pow t replies l2 _ _ _

theorem ePvm_scoreLoop_mono (pow : R → R → R) (t : Task)
    (replies : Nat → Option worker.Stats × Option worker.Stats) (k : String)
    (nodes : List Node) :
    ∀ (idx : Nat) (m : GoMap String R), (m.get? k).isSome = true →
      ((EPvm.scoreLoop pow t replies idx nodes m).1.get? k).isSome = true := by
  induction nodes with
  | nil => intro idx m h; simpa [EPvm.scoreLoop] using h
  | cons n rest ih =>
    intro idx m h
    rw [ePvm_scoreLoop_cons]
    apply ih
    cases (calculateCpuUsage (R := R) n (replies idx).1 (replies idx).2).2 with
    | none => exact h
    | some u =>
      simp only [goMap_get?_set]
      by_cases hk : n.Name = k
      · simp [hk]
      · simpa [hk] using h

theorem ePvm_scoreLoop_scored (pow : R → R → R) (t : Task)
    (replies : Nat → Option worker.Stats × Option worker.Stats) (nodes : List Node) :
    ∀ (idx : Nat) (m : GoMap String R),
      (∀ j, j < nodes.length → ¬ fetchFails (replies (idx + j))) →
      ∀ x ∈ (EPvm.scoreLoop pow t replies idx nodes m).2,
        ((EPvm.scoreLoop pow t replies idx nodes m).1.get? x.Name).isSome = true := by
  induction nodes with
  | nil => intro idx m _ x hx; simp [EPvm.scoreLoop] at hx
  | cons n rest ih =>
    intro idx m h x hx
    have h0 : ¬ fetchFails (replies idx) := by simpa using h 0 (by simp)
    have hrest : ∀ j, j < rest.length → ¬ fetchFails (replies (idx + 1 + j)) := by
      intro j hj
      have := h (j + 1) (by simp; omega)
      have e : idx + (j + 1) = idx + 1 + j := by omega
      rwa [e] at this
    obtain ⟨u, hu⟩ := calculateCpuUsage_of_succeeds (R := R) n (replies idx) h0
    rw [ePvm_scoreLoop_cons] at hx ⊢
    simp only [hu] at hx ⊢
    rcases List.mem_cons.1 hx with hx | hx
    · apply ePvm_scoreLoop_mono
      rw [hx, calculateCpuUsage_name, goMap_get?_set_self]
      rfl
    · exact ih _ _ hrest x hx

theorem ePvm_scoreLoop_names (pow : R → R → R) (t : Task)
    (replies : Nat → Option worker.Stats × Option worker.Stats) (nodes : List Node) :
    ∀ (idx : Nat) (m : GoMap String R),
      (EPvm.scoreLoop pow t replies idx nodes m).2.map (fun x => x.Name) =
        nodes.map (fun x => x.Name) := by
  induction nodes with
  | nil => intro idx m; simp [EPvm.scoreLoop]
  | cons n rest ih =>
    intro idx m
    rw [ePvm_scoreLoop_cons]
    simp only [List.map_cons, calculateCpuUsage_name, ih]

theorem keepMin_foldl_stay (f : Node → R) (l : List Node) (c : Node)
    (h : ∀ b ∈ l, f c ≤ f b) : l.foldl (keepMin f) c = c := by
  induction l with
  | nil => rfl
  | cons b rest ih =>
    have hb : ¬ f b < f c := not_lt.2 (h b (by simp))
    simp only [List.foldl_cons, keepMin, hb, if_false]
    exact ih (fun x hx => h x (by simp [hx]))

theorem keepMin_foldl_pos (f : Node → R) (l : List Node) :
    ∀ c : Node, 0 < f c → (∀ a ∈ l, 0 < f a) → 0 < f (l.foldl (keepMin f) c) := by
  induction l with
  | nil => intro c hc _; exact hc
  | cons a rest ih =>
    intro c hc h
    simp only [List.foldl_cons]
    apply ih
    · unfold keepMin
      split
      · exact h a (by simp)
      · exact hc
    · exact fun x hx => h x (by simp [hx])

/-- `EPvm.Pick` on a list whose first candidate of score 0 is `x`, all scores
being non-negative. -/
theorem ePvm_pick_first_zero (scores : GoMap String R) (pre post : List Node) (x : Node)
    (hpre : ∀ a ∈ pre, 0 < scores.getD a.Name 0) (hx : scores.getD x.Name 0 = 0)
    (hpost : ∀ b ∈ post, 0 ≤ scores.getD b.Name 0) :
    EPvm.Pick scores (pre ++ x :: post) = some x := by
  have hstay : post.foldl (keepMin (fun n => scores.getD n.Name 0)) x = x :=
    keepMin_foldl_stay _ post x (fun b hb => by simp only [hx]; exact hpost b hb)
  unfold EPvm.Pick
  rw [ePvm_pickLoop_eq]
  cases pre with
  | nil =>
    simp only [List.nil_append]
    rw [RoundRobin.pickLoop]
    simp only [if_true]
    rw [roundRobin_pickLoop_succ, hstay]
  | cons c pre' =>
    simp only [List.cons_append]
    rw [RoundRobin.pickLoop]
    simp only [if_true]
    rw [roundRobin_pickLoop_succ, List.foldl_append, List.foldl_cons]
    have hc : 0 < scores.getD
        (pre'.foldl (keepMin (fun n => scores.getD n.Name 0)) c).Name 0 :=
      keepMin_foldl_pos (fun n => scores.getD n.Name 0) pre' c (hpre c (by simp))
        (fun a ha => hpre a (by simp [ha]))
    have hk : keepMin (fun n => scores.getD n.Name 0)
        (pre'.foldl (keepMin (fun n => scores.getD n.Name 0)) c) x = x := by
      have hlt : (fun n : Node => scores.getD n.Name 0) x <
          (fun n : Node => scores.getD n.Name 0)
            (pre'.foldl (keepMin (fun n => scores.getD n.Name 0)) c) := by
        simpa only [hx] using hc
      exact if_pos hlt
    rw [hk, hstay]

end failed

/-! ### The E-PVM cost grows with the task count -/

section monotone
open scheduler node task

theorem lieb_gt_one : (1 : ℝ) < (LIEB : ℝ) := by
  unfold LIEB
  norm_num

theorem lieb_quarter_gt_one : (1 : ℝ) < Real.rpow LIEB (1 / 4) := by
  have h : (LIEB : ℝ) ^ (0 : ℝ) < (LIEB : ℝ) ^ ((1 : ℝ) / 4) :=
    (Real.rpow_lt_rpow_left_iff lieb_gt_one).2 (by norm_num)
  rw [Real.rpow_zero] at h
  exact h

/-- The part of the cost that depends on the task count, as a product. -/
theorem taskCount_term (x : ℝ) :
    Real.rpow LIEB ((x + 1) / 4) - Real.rpow LIEB (x / 4) =
      Real.rpow LIEB (x / 4) * (Real.rpow LIEB (1 / 4) - 1) := by
  have h : (x + 1) / 4 = x / 4 + 1 / 4 := by ring
  rw [h]
  simp only [Real.rpow_eq_pow]
  rw [Real.rpow_add (lt_trans zero_lt_one lieb_gt_one)]
  ring

theorem taskCount_term_pos (x : ℝ) :
    0 < Real.rpow LIEB ((x + 1) / 4) - Real.rpow LIEB (x / 4) := by
  rw [taskCount_term]
  have h1 : 0 < Real.rpow LIEB (x / 4) :=
    Real.rpow_pos_of_pos (lt_trans zero_lt_one lieb_gt_one) _
  have h2 : 0 < Real.rpow LIEB (1 / 4) - 1 := sub_pos.2 lieb_quarter_gt_one
  exact mul_pos h1 h2

theorem taskCount_term_lt (x y : ℝ) (h : x < y) :
    Real.rpow LIEB ((x + 1) / 4) - Real.rpow LIEB (x / 4) <
      Real.rpow LIEB ((y + 1) / 4) - Real.rpow LIEB (y / 4) := by
  rw [taskCount_term, taskCount_term]
  have h2 : 0 < Real.rpow LIEB (1 / 4) - 1 := sub_pos.2 lieb_quarter_gt_one
  have h1 : Real.rpow LIEB (x / 4) < Real.rpow LIEB (y / 4) := by
    simp only [Real.rpow_eq_pow]
    exact (Real.rpow_lt_rpow_left_iff lieb_gt_one).2 (by linarith)
  exact mul_lt_mul_of_pos_right h1 h2

/-- The memory part of the cost is not negative for a task that asks for no
negative amount of memory on a node with memory. -/
theorem memory_term_nonneg (x q mem : ℝ) (hq : 0 ≤ q) (hmem : 0 < mem) :
    0 ≤ Real.rpow LIEB ((x + q) / mem) - Real.rpow LIEB (x / mem) := by
  have h : x / mem ≤ (x + q) / mem := by
    rw [div_le_div_iff_of_pos_right hmem]
    linarith
  have h' : Real.rpow LIEB (x / mem) ≤ Real.rpow LIEB ((x + q) / mem) := by
    simp only [Real.rpow_eq_pow]
    exact (Real.rpow_le_rpow_left_iff lieb_gt_one).2 h
  exact sub_nonneg.2 h'

/-- The cost of lines 102-112 over the reals, for a task count whose successor
does not overflow. -/
theorem ePvm_cost_real (t : Task) (n : Node) (u : ℝ) (h0 : 0 ≤ n.TaskCount)
    (h1 : n.TaskCount < 2 ^ 63 - 1) :
    EPvm.cost Real.rpow t n u =
      2 * (Real.rpow LIEB (((n.TaskCount : ℝ) + 1) / 4) - Real.rpow LIEB ((n.TaskCount : ℝ) / 4)) +
        (Real.rpow LIEB (((n.Stats.MemUsedKb : ℝ) + (n.MemoryAllocated : ℝ) +
          ((Int.tdiv t.Memory 1000 : Int) : ℝ)) / (n.Memory : ℝ)) -
        Real.rpow LIEB (((n.Stats.MemUsedKb : ℝ) + (n.MemoryAllocated : ℝ)) / (n.Memory : ℝ))) := by
  have hs : add64 n.TaskCount 1 = n.TaskCount + 1 := by
    unfold add64
    exact wrap64_of_inRange _ (by omega) (by omega)
  rw [ePvm_cost_eq, hs]
  push_cast
  ring

theorem ePvm_pick_pair {R : Type} [LinearOrderedField R] (scores : GoMap String R)
    (x y : Node) :
    EPvm.Pick scores [x, y] =
      if scores.getD y.Name 0 < scores.getD x.Name 0 then some y else some x := by
  unfold EPvm.Pick
  rw [EPvm.pickLoop]
  simp only [if_true]
  rw [EPvm.pickLoop]
  by_cases h : scores.getD y.Name 0 < scores.getD x.Name 0
  · simp [h, EPvm.pickLoop]
  · simp [h, EPvm.pickLoop]

end monotone

/-- C1: for every pair of integers (src, dst), `ValidateTransitions src dst` is
true exactly when the pair is in the table: Pending→Scheduled;
Scheduled→Scheduled, Running, Failed; Running→Running, Completed, Failed; and
nothing out of Completed, Failed or any integer that names no state. -/
theorem validateTransitions_iff_table (src dst : task.State) :
    task.ValidateTransitions src dst = true ↔
      (src = task.Pending ∧ dst = task.Scheduled) ∨
      (src = task.Scheduled ∧
        (dst = task.Scheduled ∨ dst = task.Running ∨ dst = task.Failed)) ∨
      (src = task.Running ∧
        (dst = task.Running ∨ dst = task.Completed ∨ dst = task.Failed)) := by
  unfold task.ValidateTransitions task.stateTransitions GoMap.getD
  simp only [GoMap.get?, task.Pending, task.Scheduled, task.Running, task.Completed,
    task.Failed]
  by_cases h0 : src = 0
  · subst h0
    simp [task.Contains]
    exact eq_comm
  · by_cases h1 : src = 1
    · subst h1
      simp [task.Contains]
      simp only [eq_comm (a := dst)]
    · by_cases h2 : src = 2
      · subst h2
        simp [task.Contains]
        simp only [eq_comm (a := dst)]
      · by_cases h3 : src = 3
        · subst h3
          simp [task.Contains]
        · by_cases h4 : src = 4
          · subst h4
            simp [task.Contains]
          · have e0 : ¬ (0 : Int) = src := fun h => h0 h.symm
            have e1 : ¬ (1 : Int) = src := fun h => h1 h.symm
            have e2 : ¬ (2 : Int) = src := fun h => h2 h.symm
            have e3 : ¬ (3 : Int) = src := fun h => h3 h.symm
            have e4 : ¬ (4 : Int) = src := fun h => h4 h.symm
            simp [h0, h1, h2, e0, e1, e2, e3, e4, task.Contains]

/-- C2, counterexample: a `float64` score may be NaN, and every comparison with
a NaN is false. With the scores w1 ↦ NaN and w2 ↦ 1 (an entry for each
candidate) both `Pick` methods return w1, the candidate at index 0, kept
because `1 < NaN` is false; the score of w1 is not less than or equal to the
score of every candidate (it is not even `<=` the score of w2), so the node
returned is not a candidate of least score. -/
theorem pick_keeps_nan_candidate :
    scheduler.RoundRobin.Pick
        ([("w1", Float64.nan), ("w2", Float64.num 1)] : GoMap String (Float64 ℚ))
        [sample.diskNode 0 "w1" 0 0, sample.diskNode 1 "w2" 0 0] =
      some (sample.diskNode 0 "w1" 0 0) ∧
    scheduler.EPvm.Pick
        ([("w1", Float64.nan), ("w2", Float64.num 1)] : GoMap String (Float64 ℚ))
        [sample.diskNode 0 "w1" 0 0, sample.diskNode 1 "w2" 0 0] =
      some (sample.diskNode 0 "w1" 0 0) ∧
    (¬ ∀ m ∈ [sample.diskNode 0 "w1" 0 0, sample.diskNode 1 "w2" 0 0],
      GoMap.getD ([("w1", Float64.nan), ("w2", Float64.num 1)] : GoMap String (Float64 ℚ))
          (sample.diskNode 0 "w1" 0 0).Name 0 ≤
        GoMap.getD ([("w1", Float64.nan), ("w2", Float64.num 1)] : GoMap String (Float64 ℚ))
          m.Name 0) ∧
    ¬ GoMap.getD ([("w1", Float64.nan), ("w2", Float64.num 1)] : GoMap String (Float64 ℚ))
          (sample.diskNode 0 "w1" 0 0).Name 0 ≤
        GoMap.getD ([("w1", Float64.nan), ("w2", Float64.num 1)] : GoMap String (Float64 ℚ))
          (sample.diskNode 1 "w2" 0 0).Name 0 := by
  have hlt : ¬ (Float64.num 1 : Float64 ℚ) < Float64.nan := fun h => h
  have hle : ¬ (Float64.nan : Float64 ℚ) ≤ Float64.num 1 := fun h => h
  refine ⟨?_, ?_, ?_, ?_⟩
  · simp [scheduler.RoundRobin.Pick, scheduler.RoundRobin.pickLoop, GoMap.getD, GoMap.get?,
      sample.diskNode, node.NewNode, hlt]
  · simp [scheduler.EPvm.Pick, scheduler.EPvm.pickLoop, GoMap.getD, GoMap.get?,
      sample.diskNode, node.NewNode, hlt]
  · intro h
    have h2 := h (sample.diskNode 1 "w2" 0 0) (by simp)
    simp [GoMap.getD, GoMap.get?, sample.diskNode, node.NewNode] at h2
    exact hle h2
  · intro h2
    simp [GoMap.getD, GoMap.get?, sample.diskNode, node.NewNode] at h2
    exact hle h2

/-- C2, amended: for every non-empty candidate list and every map of `float64`
scores in which no candidate's score is NaN, `RoundRobin.Pick` and `EPvm.Pick`
both return the first candidate, in list order, whose score is less than or
equal to the score of every candidate: the returned node `best` sits at a
position of the list, no candidate scores less than it, and no candidate
before it is a minimum. A candidate's score is its entry of the map (a
candidate without entry reads as 0, as in Go, so the result also holds for
maps that miss entries). The numbers are those of any linearly ordered type
with a zero, so that scores of plus or minus infinity are covered. -/
theorem pick_returns_first_minimum {R : Type} [LinearOrder R] [Zero R]
    (scores : GoMap String (Float64 R)) (candidates : List node.Node)
    (hne : candidates ≠ [])
    (hnum : ∀ n ∈ candidates, scores.getD n.Name 0 ≠ Float64.nan) :
    ∃ (before after : List node.Node) (best : node.Node),
      candidates = before ++ best :: after ∧
      scheduler.RoundRobin.Pick scores candidates = some best ∧
      scheduler.EPvm.Pick scores candidates = some best ∧
      (∀ m ∈ candidates, scores.getD best.Name 0 ≤ scores.getD m.Name 0) ∧
      (∀ a ∈ before, ¬ ∀ m ∈ candidates, scores.getD a.Name 0 ≤ scores.getD m.Name 0) := by
  obtain ⟨before, after, best, e, h1, h2, p1, p2⟩ :=
    pick_spec (scores.map (fun p => (p.1, p.2.val))) candidates hne
  have hzero : (0 : Float64 R) ≠ Float64.nan := fun h => Float64.noConfusion h
  have hb : best ∈ candidates := by rw [e]; simp
  refine ⟨before, after, best, e, ?_, ?_, ?_, ?_⟩
  · rw [← h1]
    exact roundRobin_pickLoop_float64 scores candidates 0 none 0 hnum hzero
  · rw [← h2]
    exact ePvm_pickLoop_float64 scores candidates 0 none 0 hnum hzero
  · intro m hm
    rw [float64_le_iff _ _ (hnum best hb) (hnum m hm), ← float64_getD_val, ← float64_getD_val]
    rw [e] at hm
    rcases List.mem_append.1 hm with hm | hm
    · exact le_of_lt (p1 m hm)
    · rcases List.mem_cons.1 hm with hm | hm
      · rw [hm]
      · exact p2 m hm
  · intro a ha hall
    have ha' : a ∈ candidates := by rw [e]; simp [ha]
    have h := (float64_le_iff _ _ (hnum a ha') (hnum best hb)).1 (hall best hb)
    rw [← float64_getD_val, ← float64_getD_val] at h
    exact absurd h (not_le.2 (p1 a ha))


/-- C3: for every task and node list, `EPvm.SelectCandidateNodes` returns exactly
the nodes with `task.Disk <= node.Disk - node.DiskAllocated` (the `int64`
difference the code computes), in their original order. Where the difference
stays in the `int64` range a node is kept exactly when the task's disk is at
most the node's free disk as an integer; the result is empty (the nil slice)
when the task's disk exceeds the free disk of every node; and with free disk
10GB and 100GB and a task disk of 50GB only the second node is kept. -/
theorem ePvm_selectCandidateNodes_eq_filter (t : task.Task) (nodes : List node.Node) :
    scheduler.EPvm.SelectCandidateNodes t nodes =
        nodes.filter (fun n => decide (t.Disk ≤ sub64 n.Disk n.DiskAllocated)) ∧
      (∀ n ∈ nodes, -2 ^ 63 ≤ n.Disk - n.DiskAllocated → n.Disk - n.DiskAllocated < 2 ^ 63 →
        (n ∈ scheduler.EPvm.SelectCandidateNodes t nodes ↔
          t.Disk ≤ n.Disk - n.DiskAllocated)) ∧
      ((∀ n ∈ nodes, sub64 n.Disk n.DiskAllocated < t.Disk) →
        scheduler.EPvm.SelectCandidateNodes t nodes = []) ∧
      scheduler.EPvm.SelectCandidateNodes (sample.diskTask "T2" (50 * sample.GB))
          [sample.diskNode 0 "w1" (10 * sample.GB) 0,
           sample.diskNode 1 "w2" (100 * sample.GB) 0] =
        [sample.diskNode 1 "w2" (100 * sample.GB) 0] := by
  have hfilter : scheduler.EPvm.SelectCandidateNodes t nodes =
      nodes.filter (fun n => decide (t.Disk ≤ sub64 n.Disk n.DiskAllocated)) := by
    unfold scheduler.EPvm.SelectCandidateNodes
    rw [ePvm_selectLoop_eq]; simp
  refine ⟨hfilter, ?_, ?_, ?_⟩
  · intro n hn h1 h2
    rw [hfilter, List.mem_filter]
    simp only [sub64, wrap64_of_inRange _ h1 h2, decide_eq_true_eq]
    exact ⟨fun h => h.2, fun h => ⟨hn, h⟩⟩
  · intro hall
    rw [hfilter, List.filter_eq_nil_iff]
    intro n hn
    simp only [decide_eq_true_eq, not_le]
    exact hall n hn
  · decide

/-- Witness for C3: a task that asks for 500GB finds no candidate among nodes
with 10GB and 100GB of free disk. -/
theorem ePvm_selectCandidateNodes_eq_filter_witness :
    (∀ n ∈ [sample.diskNode 0 "w1" (10 * sample.GB) 0,
            sample.diskNode 1 "w2" (100 * sample.GB) 0],
        sub64 n.Disk n.DiskAllocated < (sample.diskTask "T3" (500 * sample.GB)).Disk) ∧
      scheduler.EPvm.SelectCandidateNodes (sample.diskTask "T3" (500 * sample.GB))
          [sample.diskNode 0 "w1" (10 * sample.GB) 0,
           sample.diskNode 1 "w2" (100 * sample.GB) 0] = [] :=
  ⟨by decide,
   (ePvm_selectCandidateNodes_eq_filter (sample.diskTask "T3" (500 * sample.GB))
      [sample.diskNode 0 "w1" (10 * sample.GB) 0,
       sample.diskNode 1 "w2" (100 * sample.GB) 0]).2.2.1 (by decide)⟩

/-- Witness for C2: with the scores w1 ↦ 1, w2 ↦ 1/10, w3 ↦ 1/10, none of
them NaN, the pick among w1, w2, w3 is a first minimum. -/
theorem pick_returns_first_minimum_witness :
    [sample.diskNode 0 "w1" 0 0, sample.diskNode 1 "w2" 0 0, sample.diskNode 2 "w3" 0 0] ≠ [] ∧
    (∀ n ∈ [sample.diskNode 0 "w1" 0 0, sample.diskNode 1 "w2" 0 0,
            sample.diskNode 2 "w3" 0 0],
      GoMap.getD ([("w1", Float64.num 1), ("w2", Float64.num (1 / 10)),
          ("w3", Float64.num (1 / 10))] : GoMap String (Float64 ℚ)) n.Name 0 ≠ Float64.nan) ∧
    ∃ (before after : List node.Node) (best : node.Node),
      [sample.diskNode 0 "w1" 0 0, sample.diskNode 1 "w2" 0 0, sample.diskNode 2 "w3" 0 0] =
        before ++ best :: after ∧
      scheduler.RoundRobin.Pick ([("w1", Float64.num 1), ("w2", Float64.num (1 / 10)),
          ("w3", Float64.num (1 / 10))] : GoMap String (Float64 ℚ))
        [sample.diskNode 0 "w1" 0 0, sample.diskNode 1 "w2" 0 0, sample.diskNode 2 "w3" 0 0] =
          some best ∧
      scheduler.EPvm.Pick ([("w1", Float64.num 1), ("w2", Float64.num (1 / 10)),
          ("w3", Float64.num (1 / 10))] : GoMap String (Float64 ℚ))
        [sample.diskNode 0 "w1" 0 0, sample.diskNode 1 "w2" 0 0, sample.diskNode 2 "w3" 0 0] =
          some best ∧
      (∀ m ∈ [sample.diskNode 0 "w1" 0 0, sample.diskNode 1 "w2" 0 0,
              sample.diskNode 2 "w3" 0 0],
        GoMap.getD ([("w1", Float64.num 1), ("w2", Float64.num (1 / 10)),
            ("w3", Float64.num (1 / 10))] : GoMap String (Float64 ℚ)) best.Name 0 ≤
          GoMap.getD ([("w1", Float64.num 1), ("w2", Float64.num (1 / 10)),
            ("w3", Float64.num (1 / 10))] : GoMap String (Float64 ℚ)) m.Name 0) ∧
      (∀ a ∈ before, ¬ ∀ m ∈ [sample.diskNode 0 "w1" 0 0, sample.diskNode 1 "w2" 0 0,
              sample.diskNode 2 "w3" 0 0],
        GoMap.getD ([("w1", Float64.num 1), ("w2", Float64.num (1 / 10)),
            ("w3", Float64.num (1 / 10))] : GoMap String (Float64 ℚ)) a.Name 0 ≤
          GoMap.getD ([("w1", Float64.num 1), ("w2", Float64.num (1 / 10)),
            ("w3", Float64.num (1 / 10))] : GoMap String (Float64 ℚ)) m.Name 0) :=
  ⟨by simp,
   by simp [GoMap.getD, GoMap.get?, sample.diskNode, node.NewNode],
   pick_returns_first_minimum ([("w1", Float64.num 1), ("w2", Float64.num (1 / 10)),
       ("w3", Float64.num (1 / 10))] : GoMap String (Float64 ℚ))
     [sample.diskNode 0 "w1" 0 0, sample.diskNode 1 "w2" 0 0, sample.diskNode 2 "w3" 0 0]
     (by simp) (by simp [GoMap.getD, GoMap.get?, sample.diskNode, node.NewNode])⟩

/-- C4: over exact real arithmetic (`float64` as ℝ, `math.Pow` as `Real.rpow`),
for every task and every candidate `n` whose two stats fetches succeed (the
second with sample `s2`) and whose refreshed `Memory` is positive, the entry
`EPvm.Score` writes under the node's name is
`2*(L^((tc+1)/4) - L^(tc/4)) + L^newMemPct - L^memPct`, where `tc` is
`n.TaskCount`, `tc+1` is the Go successor `n.TaskCount+1`, `memPct` is
`(MemUsedKb + MemoryAllocated)/Memory` and `newMemPct` is
`(MemUsedKb + MemoryAllocated + task.Memory/1000)/Memory` with the `int64`
quotient `task.Memory/1000`; the body of the loop yields this value for every
cpu usage `u`, so the cost does not depend on the sampled cpu usage. The entry
under a name is the one of the last candidate of that name, hence `hname`.
The Go successor is `tc + 1` unless `tc` is the largest `int`. -/
theorem ePvm_score_cpu_terms_cancel (t : task.Task) (pre post : List node.Node)
    (n : node.Node) (replies : Nat → Option worker.Stats × Option worker.Stats)
    (s1 s2 : worker.Stats)
    (hfetch : replies pre.length = (some s1, some s2))
    (hmem : 0 < (n.GetStats (some s2)).1.Memory)
    (hname : ∀ m ∈ post, m.Name ≠ n.Name) :
    (scheduler.EPvm.Score Real.rpow t (pre ++ n :: post) replies).1.get? n.Name =
        some (2 * (Real.rpow scheduler.LIEB (((add64 n.TaskCount 1 : Int) : ℝ) / 4) -
                Real.rpow scheduler.LIEB ((n.TaskCount : ℝ) / 4)) +
          Real.rpow scheduler.LIEB (((s2.MemUsedKb : ℝ) + (n.MemoryAllocated : ℝ) +
            ((Int.tdiv t.Memory 1000 : Int) : ℝ)) / ((toInt64 s2.MemTotalKb : Int) : ℝ)) -
          Real.rpow scheduler.LIEB (((s2.MemUsedKb : ℝ) + (n.MemoryAllocated : ℝ)) /
            ((toInt64 s2.MemTotalKb : Int) : ℝ))) ∧
      (∀ u : ℝ, scheduler.EPvm.cost Real.rpow t (n.GetStats (some s2)).1 u =
        2 * (Real.rpow scheduler.LIEB (((add64 n.TaskCount 1 : Int) : ℝ) / 4) -
                Real.rpow scheduler.LIEB ((n.TaskCount : ℝ) / 4)) +
          Real.rpow scheduler.LIEB (((s2.MemUsedKb : ℝ) + (n.MemoryAllocated : ℝ) +
            ((Int.tdiv t.Memory 1000 : Int) : ℝ)) / ((toInt64 s2.MemTotalKb : Int) : ℝ)) -
          Real.rpow scheduler.LIEB (((s2.MemUsedKb : ℝ) + (n.MemoryAllocated : ℝ)) /
            ((toInt64 s2.MemTotalKb : Int) : ℝ))) ∧
      (-2 ^ 63 ≤ n.TaskCount → n.TaskCount < 2 ^ 63 - 1 →
        add64 n.TaskCount 1 = n.TaskCount + 1) := by
  have hpos := hmem
  have hcost : ∀ u : ℝ, scheduler.EPvm.cost Real.rpow t (n.GetStats (some s2)).1 u =
        2 * (Real.rpow scheduler.LIEB (((add64 n.TaskCount 1 : Int) : ℝ) / 4) -
                Real.rpow scheduler.LIEB ((n.TaskCount : ℝ) / 4)) +
          Real.rpow scheduler.LIEB (((s2.MemUsedKb : ℝ) + (n.MemoryAllocated : ℝ) +
            ((Int.tdiv t.Memory 1000 : Int) : ℝ)) / ((toInt64 s2.MemTotalKb : Int) : ℝ)) -
          Real.rpow scheduler.LIEB (((s2.MemUsedKb : ℝ) + (n.MemoryAllocated : ℝ)) /
            ((toInt64 s2.MemTotalKb : Int) : ℝ)) := by
    intro u
    rw [ePvm_cost_eq]
    simp [node.Node.GetStats]
  refine ⟨?_, hcost, ?_⟩
  · unfold scheduler.EPvm.Score
    rw [ePvm_scoreLoop_entry Real.rpow t replies n s1 s2 post hname pre 0 []
      (by simpa using hfetch)]
    rw [hcost]
  · intro h1 h2
    unfold add64
    exact wrap64_of_inRange _ (by omega) (by omega)

/-- Witness for C4: one candidate with 8 GiB of memory, half of it used. -/
theorem ePvm_score_cpu_terms_cancel_witness :
    0 < ((sample.diskNode 0 "w1" 0 0).GetStats
          (some (sample.memStats 8388608 4194304 (sample.cpuCounters 200 300)))).1.Memory ∧
      ∃ c : ℝ, (scheduler.EPvm.Score Real.rpow (sample.diskTask "T1" 0)
          ([] ++ sample.diskNode 0 "w1" 0 0 :: [])
          (fun _ => (some (sample.memStats 8388608 4194300 (sample.cpuCounters 100 100)),
                     some (sample.memStats 8388608 4194304 (sample.cpuCounters 200 300))))).1.get?
            (sample.diskNode 0 "w1" 0 0).Name = some c :=
  ⟨by decide,
   _, (ePvm_score_cpu_terms_cancel (sample.diskTask "T1" 0) [] [] (sample.diskNode 0 "w1" 0 0)
      (fun _ => (some (sample.memStats 8388608 4194300 (sample.cpuCounters 100 100)),
                 some (sample.memStats 8388608 4194304 (sample.cpuCounters 200 300))))
      (sample.memStats 8388608 4194300 (sample.cpuCounters 100 100))
      (sample.memStats 8388608 4194304 (sample.cpuCounters 200 300))
      rfl (by decide) (by simp)).1⟩

/-- C5, the code at the failing input: the first sample has user = 100 and
idle = 100, the second user = 200 and idle = 300, so the usage over the interval
is (300 - 200)/300 = 1/3; `calculateCpuUsage` returns 0, as it does for every
pair of samples, because it reads both samples through the one pointer
`&n.Stats`. -/
theorem calculateCpuUsage_reads_one_sample :
    (scheduler.calculateCpuUsage (R := ℚ) (sample.diskNode 0 "w1" 0 0)
        (some (sample.memStats 8388608 4194300 (sample.cpuCounters 100 100)))
        (some (sample.memStats 8388608 4194304 (sample.cpuCounters 200 300)))).2 = some 0 ∧
      scheduler.cpuPercentUsage (R := ℚ)
        (sample.memStats 8388608 4194300 (sample.cpuCounters 100 100))
        (sample.memStats 8388608 4194304 (sample.cpuCounters 200 300)) = 1 / 3 ∧
      (∀ (n : node.Node) (s1 s2 : worker.Stats),
        (scheduler.calculateCpuUsage (R := ℚ) n (some s1) (some s2)).2 = some 0) := by
  refine ⟨?_, ?_, ?_⟩
  · rw [calculateCpuUsage_success]
  · simp [scheduler.cpuPercentUsage, sample.memStats, sample.cpuCounters, worker.Stats.zero,
      worker.CpuStats.zero, subU64, wrapU64]
    norm_num
  · intro n s1 s2
    rw [calculateCpuUsage_success]

/-- C6, the code at the failing input: a fresh round-robin scheduler over the two
nodes w1, w2 places six consecutive tasks on w2, w1, w1, w2, w1, w1, so w2 is
selected twice, less than ⌊6/2⌋ = 3 times. -/
theorem roundRobin_six_tasks_on_two_nodes :
    (scheduler.RoundRobin.placeAll { Name := "round_robin", LastWorker := 0 }
        [sample.diskNode 0 "w1" 0 0, sample.diskNode 1 "w2" 0 0]
        (List.replicate 6 task.Task.zero)).map (fun w => w.map (fun n => n.Name)) =
      [some "w2", some "w1", some "w1", some "w2", some "w1", some "w1"] ∧
    List.count (some "w2")
      ((scheduler.RoundRobin.placeAll { Name := "round_robin", LastWorker := 0 }
        [sample.diskNode 0 "w1" 0 0, sample.diskNode 1 "w2" 0 0]
        (List.replicate 6 task.Task.zero)).map (fun w => w.map (fun n => n.Name))) = 2 ∧
    2 < 6 / 2 := by
  have h : (scheduler.RoundRobin.placeAll { Name := "round_robin", LastWorker := 0 }
        [sample.diskNode 0 "w1" 0 0, sample.diskNode 1 "w2" 0 0]
        (List.replicate 6 task.Task.zero)).map (fun w => w.map (fun n => n.Name)) =
      [some "w2", some "w1", some "w1", some "w2", some "w1", some "w1"] := by
    simp [List.replicate, scheduler.RoundRobin.placeAll, scheduler.RoundRobin.place,
      scheduler.RoundRobin.SelectCandidateNodes, scheduler.RoundRobin.Score,
      scheduler.RoundRobin.scoreLoop, scheduler.RoundRobin.Pick, scheduler.RoundRobin.pickLoop,
      GoMap.set, GoMap.get?, GoMap.getD, sample.diskNode, node.NewNode]
    norm_num
  refine ⟨h, ?_, by decide⟩
  rw [h]
  decide

/-- C7, the code at the failing input: a manager with in-memory stores and the
round-robin scheduler over the worker w1 holds one event for the new task t1,
submitted in state Pending; the worker answers 201 and echoes the task of the
event. After `SendWork` the two maps name w1 for t1, but the task store records
t1 in state Pending, not Scheduled: the record is the variable `t`, which
`SendWork` overwrites with the decoded answer. -/
theorem sendWork_store_record_overwritten :
    ((sample.managerWith "round_robin"
        [sample.event "e1" task.Running (sample.diskTask "t1" 0)]).SendWork sample.noPow
        sample.noStats (.response 201 (sample.diskTask "t1" 0) true)).m.TaskWorkerMap.get? "t1" =
      some "w1" ∧
    ((sample.managerWith "round_robin"
        [sample.event "e1" task.Running (sample.diskTask "t1" 0)]).SendWork sample.noPow
        sample.noStats (.response 201 (sample.diskTask "t1" 0) true)).m.WorkerTaskMap.get? "w1" =
      some ["t1"] ∧
    (((sample.managerWith "round_robin"
        [sample.event "e1" task.Running (sample.diskTask "t1" 0)]).SendWork sample.noPow
        sample.noStats (.response 201 (sample.diskTask "t1" 0) true)).m.TaskDb.Get "t1").map
          (fun t => t.State) = some task.Pending ∧
    task.Pending ≠ task.Scheduled := by
  refine ⟨?_, ?_, ?_, by decide⟩ <;>
  · simp [sample.managerWith, sample.event, sample.diskTask, sample.noStats, manager.New,
      manager.newLoop, manager.Manager.AddTask, manager.Manager.SendWork,
      manager.Manager.dispatch, manager.Manager.dequeued, manager.Manager.SelectWorker, manager.Manager.sendToWorker, manager.writeBack,
      scheduler.Scheduler.SelectCandidateNodes, scheduler.Scheduler.Score,
      scheduler.Scheduler.Pick, scheduler.RoundRobin.SelectCandidateNodes,
      scheduler.RoundRobin.Score, scheduler.RoundRobin.scoreLoop, scheduler.RoundRobin.Pick,
      scheduler.RoundRobin.pickLoop, store.Store.Put, store.Store.Get,
      store.Store.writeThrough, GoMap.set, GoMap.get?, GoMap.getD, node.NewNode,
      task.Task.zero, task.Pending, task.Running, task.Scheduled]

/-- C8, the code at the failing input: a manager with the E-PVM scheduler over
the fresh worker w1 (disk 0) holds one event for the new task t1 that asks for
50GB of disk. The scheduler returns no candidate, `SelectWorker` returns the nil
node with an error, and `SendWork` goes on to read `w.Name`: the call ends in a
panic instead of dropping the event. -/
theorem sendWork_panics_on_no_candidate :
    scheduler.Scheduler.SelectCandidateNodes
        (sample.managerWith "e_pvm"
          [sample.event "e1" task.Running (sample.diskTask "t1" (50 * sample.GB))]).scheduler
        (sample.diskTask "t1" (50 * sample.GB))
        (sample.managerWith "e_pvm"
          [sample.event "e1" task.Running (sample.diskTask "t1" (50 * sample.GB))]).workerNodes =
      [] ∧
    ((sample.managerWith "e_pvm"
        [sample.event "e1" task.Running (sample.diskTask "t1" (50 * sample.GB))]).SelectWorker
        sample.noPow (sample.diskTask "t1" (50 * sample.GB)) sample.noStats).err = true ∧
    ((sample.managerWith "e_pvm"
        [sample.event "e1" task.Running (sample.diskTask "t1" (50 * sample.GB))]).SelectWorker
        sample.noPow (sample.diskTask "t1" (50 * sample.GB)) sample.noStats).node = none ∧
    ((sample.managerWith "e_pvm"
        [sample.event "e1" task.Running (sample.diskTask "t1" (50 * sample.GB))]).SendWork
        sample.noPow sample.noStats
        (.response 201 (sample.diskTask "t1" (50 * sample.GB)) true)).panic = true := by
  have hc : scheduler.Scheduler.SelectCandidateNodes
        (sample.managerWith "e_pvm"
          [sample.event "e1" task.Running (sample.diskTask "t1" (50 * sample.GB))]).scheduler
        (sample.diskTask "t1" (50 * sample.GB))
        (sample.managerWith "e_pvm"
          [sample.event "e1" task.Running (sample.diskTask "t1" (50 * sample.GB))]).workerNodes =
      [] := by
    simp [sample.managerWith, sample.event, sample.diskTask, sample.GB, manager.New,
      manager.newLoop, manager.Manager.AddTask, scheduler.Scheduler.SelectCandidateNodes,
      scheduler.EPvm.SelectCandidateNodes, scheduler.EPvm.selectLoop, scheduler.checkDisk,
      node.NewNode, task.Task.zero, sub64, wrap64]
  have hs := selectWorker_no_candidates sample.noPow _ _ sample.noStats hc
  refine ⟨hc, hs.1, hs.2.1, ?_⟩
  exact (sendWork_panics_without_node sample.noPow _
    (sample.event "e1" task.Running (sample.diskTask "t1" (50 * sample.GB))) []
    sample.noStats _ (by simp [sample.managerWith, manager.Manager.AddTask, manager.New])
    (by simp [sample.managerWith, manager.Manager.AddTask, manager.New, GoMap.get?])
    hc).1

/-- C9, the code at the failing input: a manager with the round-robin scheduler
over the worker w1 holds one event for the new task t1. The first `SendWork`
selects w1 and posts the event; the POST fails with a connection error and the
event is put back on the queue. The second `SendWork` dequeues the event, finds
the worker recorded for t1 by the first call, and drops the event: it selects no
worker and posts nothing, and the queue is left empty. -/
theorem sendWork_retry_is_dropped :
    ((sample.managerWith "round_robin"
        [sample.event "e1" task.Running (sample.diskTask "t1" 0)]).SendWork sample.noPow
        sample.noStats .connError).actions =
      [.select "t1", .post "w1" (sample.event "e1" task.Running (sample.diskTask "t1" 0))] ∧
    ((sample.managerWith "round_robin"
        [sample.event "e1" task.Running (sample.diskTask "t1" 0)]).SendWork sample.noPow
        sample.noStats .connError).m.Pending =
      [sample.event "e1" task.Running (sample.diskTask "t1" 0)] ∧
    (((sample.managerWith "round_robin"
        [sample.event "e1" task.Running (sample.diskTask "t1" 0)]).SendWork sample.noPow
        sample.noStats .connError).m.SendWork sample.noPow sample.noStats
        (.response 201 (sample.diskTask "t1" 0) true)).actions = [] ∧
    (((sample.managerWith "round_robin"
        [sample.event "e1" task.Running (sample.diskTask "t1" 0)]).SendWork sample.noPow
        sample.noStats .connError).m.SendWork sample.noPow sample.noStats
        (.response 201 (sample.diskTask "t1" 0) true)).m.Pending = [] := by
  refine ⟨?_, ?_, ?_, ?_⟩ <;>
  · simp [sample.managerWith, sample.event, sample.diskTask, sample.noStats, manager.New,
      manager.newLoop, manager.Manager.AddTask, manager.Manager.SendWork,
      manager.Manager.dispatch, manager.Manager.dequeued, manager.Manager.SelectWorker, manager.Manager.sendToWorker, manager.writeBack,
      manager.Manager.stopTask,
      scheduler.Scheduler.SelectCandidateNodes, scheduler.Scheduler.Score,
      scheduler.Scheduler.Pick, scheduler.RoundRobin.SelectCandidateNodes,
      scheduler.RoundRobin.Score, scheduler.RoundRobin.scoreLoop, scheduler.RoundRobin.Pick,
      scheduler.RoundRobin.pickLoop, store.Store.Put, store.Store.Get,
      store.Store.writeThrough, GoMap.set, GoMap.get?, GoMap.getD, node.NewNode,
      task.Task.zero, task.Pending, task.Running, task.Scheduled, task.Completed,
      task.ValidateTransitions, task.stateTransitions, task.Contains]

/-- C10, counterexample: with two events pending and a worker that answers 201,
one call of `SendWork` leaves the second event on the queue and out of the event
store. -/
theorem sendWork_leaves_second_event :
    (sample.managerWith "round_robin"
        [sample.event "e1" task.Running (sample.diskTask "t1" 0),
         sample.event "e2" task.Running (sample.diskTask "t2" 0)]).Pending.length = 2 ∧
    ((sample.managerWith "round_robin"
        [sample.event "e1" task.Running (sample.diskTask "t1" 0),
         sample.event "e2" task.Running (sample.diskTask "t2" 0)]).SendWork sample.noPow
        sample.noStats (.response 201 (sample.diskTask "t1" 0) true)).m.Pending =
      [sample.event "e2" task.Running (sample.diskTask "t2" 0)] ∧
    ((sample.managerWith "round_robin"
        [sample.event "e1" task.Running (sample.diskTask "t1" 0),
         sample.event "e2" task.Running (sample.diskTask "t2" 0)]).SendWork sample.noPow
        sample.noStats (.response 201 (sample.diskTask "t1" 0) true)).m.EventDb.Get "e2" =
      none ∧
    ¬ (((sample.managerWith "round_robin"
        [sample.event "e1" task.Running (sample.diskTask "t1" 0),
         sample.event "e2" task.Running (sample.diskTask "t2" 0)]).SendWork sample.noPow
        sample.noStats (.response 201 (sample.diskTask "t1" 0) true)).m.Pending = []) := by
  have hp : (sample.managerWith "round_robin"
        [sample.event "e1" task.Running (sample.diskTask "t1" 0),
         sample.event "e2" task.Running (sample.diskTask "t2" 0)]).Pending =
      sample.event "e1" task.Running (sample.diskTask "t1" 0) ::
        [sample.event "e2" task.Running (sample.diskTask "t2" 0)] := by
    simp [sample.managerWith, manager.Manager.AddTask, manager.New]
  have h2 : ((sample.managerWith "round_robin"
        [sample.event "e1" task.Running (sample.diskTask "t1" 0),
         sample.event "e2" task.Running (sample.diskTask "t2" 0)]).SendWork sample.noPow
        sample.noStats (.response 201 (sample.diskTask "t1" 0) true)).m.Pending =
      [sample.event "e2" task.Running (sample.diskTask "t2" 0)] := by
    rcases (sendWork_dequeues_one sample.noPow _ _ _ sample.noStats
      (.response 201 (sample.diskTask "t1" 0) true) hp).2 with h | h
    · exact h
    · exact absurd h.1 (by simp)
  refine ⟨by rw [hp]; rfl, h2, ?_, by rw [h2]; simp⟩
  simp [sample.managerWith, sample.event, sample.diskTask, sample.noStats, manager.New,
      manager.newLoop, manager.Manager.AddTask, manager.Manager.SendWork,
      manager.Manager.dispatch, manager.Manager.dequeued, manager.Manager.SelectWorker, manager.Manager.sendToWorker, manager.writeBack,
      scheduler.Scheduler.SelectCandidateNodes, scheduler.Scheduler.Score,
      scheduler.Scheduler.Pick, scheduler.RoundRobin.SelectCandidateNodes,
      scheduler.RoundRobin.Score, scheduler.RoundRobin.scoreLoop, scheduler.RoundRobin.Pick,
      scheduler.RoundRobin.pickLoop, store.Store.Put, store.Store.Get,
      store.Store.writeThrough, GoMap.set, GoMap.get?, GoMap.getD, node.NewNode,
      task.Task.zero, task.Pending, task.Running, task.Scheduled]

/-- C10, amended: for every pending queue holding at least one event, if the
POST to the worker does not fail with a connection error, then after one
`SendWork` call the oldest event has been dequeued and persisted to the event
store under its id, and the other events are still pending, in their order. -/
theorem sendWork_dequeues_oldest_event {R : Type} [LinearOrderedField R] (pow : R → R → R)
    (m : manager.Manager) (te : task.Event) (rest : List task.Event)
    (replies : Nat → Option worker.Stats × Option worker.Stats) (reply : manager.PostReply)
    (hpending : m.Pending = te :: rest) (hpost : reply ≠ manager.PostReply.connError) :
    (m.SendWork pow replies reply).m.Pending = rest ∧
      (m.SendWork pow replies reply).m.EventDb.Get te.ID = some te := by
  have h := sendWork_dequeues_one pow m te rest replies reply hpending
  refine ⟨?_, h.1⟩
  rcases h.2 with h2 | h2
  · exact h2
  · exact absurd h2.1 hpost

/-- Witness for C10: the queue e1, e2 and a worker that answers 201. -/
theorem sendWork_dequeues_oldest_event_witness :
    ((sample.managerWith "round_robin"
        [sample.event "e1" task.Running (sample.diskTask "t1" 0),
         sample.event "e2" task.Running (sample.diskTask "t2" 0)]).SendWork sample.noPow
        sample.noStats (.response 201 (sample.diskTask "t1" 0) true)).m.Pending =
      [sample.event "e2" task.Running (sample.diskTask "t2" 0)] ∧
    ((sample.managerWith "round_robin"
        [sample.event "e1" task.Running (sample.diskTask "t1" 0),
         sample.event "e2" task.Running (sample.diskTask "t2" 0)]).SendWork sample.noPow
        sample.noStats (.response 201 (sample.diskTask "t1" 0) true)).m.EventDb.Get
          (sample.event "e1" task.Running (sample.diskTask "t1" 0)).ID =
      some (sample.event "e1" task.Running (sample.diskTask "t1" 0)) :=
  sendWork_dequeues_oldest_event sample.noPow _
    (sample.event "e1" task.Running (sample.diskTask "t1" 0))
    [sample.event "e2" task.Running (sample.diskTask "t2" 0)] sample.noStats
    (.response 201 (sample.diskTask "t1" 0) true)
    (by simp [sample.managerWith, manager.Manager.AddTask, manager.New])
    (by simp)

/-- C11, counterexample: a manager started over the files of an earlier run has
the task t1 stored as `Completed` and no worker recorded for it; `SendWork` on
the event that asks to schedule t1 places the task again and stores it as
`Scheduled`. -/
theorem sendWork_reschedules_completed_task :
    (sample.restartedManager.TaskDb.Get "t1").map (fun t => t.State) = some task.Completed ∧
    sample.restartedManager.TaskWorkerMap.get? "t1" = none ∧
    ((sample.restartedManager.SendWork sample.noPow sample.noStats
        (.response 201 (sample.stateTask "t1" task.Completed) true)).m.TaskDb.Get "t1").map
          (fun t => t.State) = some task.Scheduled ∧
    task.Scheduled ≠ task.Completed := by
  refine ⟨?_, ?_, ?_, by decide⟩ <;>
  · simp [sample.restartedManager, sample.event, sample.stateTask, sample.noStats, manager.New,
      manager.newLoop, manager.Manager.AddTask, manager.Manager.SendWork,
      manager.Manager.dispatch, manager.Manager.dequeued, manager.Manager.SelectWorker,
      manager.Manager.sendToWorker, manager.writeBack,
      scheduler.Scheduler.SelectCandidateNodes, scheduler.Scheduler.Score,
      scheduler.Scheduler.Pick, scheduler.RoundRobin.SelectCandidateNodes,
      scheduler.RoundRobin.Score, scheduler.RoundRobin.scoreLoop, scheduler.RoundRobin.Pick,
      scheduler.RoundRobin.pickLoop, store.Store.Put, store.Store.Get,
      store.Store.writeThrough, GoMap.set, GoMap.get?, GoMap.getD, node.NewNode,
      task.Task.zero, task.Pending, task.Running, task.Scheduled, task.Completed]

/-- C11, amended: for every manager state whose `TaskWorkerMap` has an entry for
the task T and whose task store records T with State = Completed, `SendWork` on
a dequeued event with target state Scheduled that carries T drops the event:
afterwards the task store is unchanged and still records T as Completed, the
maps are unchanged, and nothing is selected or sent. -/
theorem sendWork_drops_event_for_completed_task {R : Type} [LinearOrderedField R]
    (pow : R → R → R) (m : manager.Manager) (te : task.Event) (rest : List task.Event)
    (replies : Nat → Option worker.Stats × Option worker.Stats) (reply : manager.PostReply)
    (w : String) (stored : task.Task)
    (hpending : m.Pending = te :: rest)
    (hknown : m.TaskWorkerMap.get? te.Task.ID = some w)
    (hstored : m.TaskDb.Get te.Task.ID = some stored)
    (hcompleted : stored.State = task.Completed)
    (htarget : te.State = task.Scheduled) :
    (m.SendWork pow replies reply).m.TaskDb = m.TaskDb ∧
      (m.SendWork pow replies reply).m.TaskDb.Get te.Task.ID = some stored ∧
      (m.SendWork pow replies reply).m.TaskWorkerMap = m.TaskWorkerMap ∧
      (m.SendWork pow replies reply).m.WorkerTaskMap = m.WorkerTaskMap ∧
      (m.SendWork pow replies reply).m.Pending = rest ∧
      (m.SendWork pow replies reply).actions = [] ∧
      (m.SendWork pow replies reply).panic = false := by
  have h := sendWork_known_task_not_placed pow m te rest replies reply w hpending hknown
  have hc := hcompleted
  refine ⟨?_, ?_, ?_, ?_, ?_, ?_, h.2.1⟩
  · rw [h.1]; rfl
  · rw [h.1]; exact hstored
  · rw [h.1]; rfl
  · rw [h.1]; rfl
  · rw [h.1]; rfl
  · rcases h.2.2 with h0 | h1
    · exact h0
    · rw [htarget] at h1
      exact absurd h1.2 (by decide)

/-- Witness for C11: t1 was placed on w1 and is stored as Completed; the event e2
asks to schedule it again. -/
theorem sendWork_drops_event_for_completed_task_witness :
    (({ sample.restartedManager with TaskWorkerMap := [("t1", "w1")] } :
        manager.Manager).SendWork sample.noPow sample.noStats
        manager.PostReply.connError).m.TaskDb.Get
          (sample.event "e1" task.Scheduled (sample.stateTask "t1" task.Completed)).Task.ID =
      some (sample.stateTask "t1" task.Completed) ∧
    (({ sample.restartedManager with TaskWorkerMap := [("t1", "w1")] } :
        manager.Manager).SendWork sample.noPow sample.noStats
        manager.PostReply.connError).actions = [] :=
  have h := sendWork_drops_event_for_completed_task sample.noPow
    ({ sample.restartedManager with TaskWorkerMap := [("t1", "w1")] } : manager.Manager)
    (sample.event "e1" task.Scheduled (sample.stateTask "t1" task.Completed)) []
    sample.noStats manager.PostReply.connError "w1" (sample.stateTask "t1" task.Completed)
    (by simp [sample.restartedManager, manager.Manager.AddTask, manager.New])
    (by simp [sample.event, sample.stateTask, GoMap.get?])
    (by simp [sample.restartedManager, sample.event, sample.stateTask, manager.Manager.AddTask,
          manager.New, store.Store.Get, GoMap.get?])
    (by simp [sample.stateTask])
    (by simp [sample.event])
  ⟨h.2.1, h.2.2.2.2.2.1⟩

/-- C12, counterexample: a worker whose store has no record of t1 dequeues t1
with state Completed. The transition Completed → Completed is illegal and
`runTask` returns the error without calling the runtime, but the store now
holds t1. -/
theorem runTask_stores_unknown_task :
    (sample.workerWith [sample.stateTask "t1" task.Completed] []).Db.Get "t1" = none ∧
    task.ValidateTransitions task.Completed task.Completed = false ∧
    ((sample.workerWith [sample.stateTask "t1" task.Completed] []).runTask
        sample.deadRuntime).result = worker.errorResult worker.illegalTransition ∧
    ((sample.workerWith [sample.stateTask "t1" task.Completed] []).runTask
        sample.deadRuntime).calls = [] ∧
    ((sample.workerWith [sample.stateTask "t1" task.Completed] []).runTask
        sample.deadRuntime).w.Db.Get "t1" = some (sample.stateTask "t1" task.Completed) := by
  have hv : task.ValidateTransitions task.Completed task.Completed = false := by decide
  refine ⟨rfl, hv, ?_, ?_, ?_⟩ <;>
  · simp [sample.workerWith, sample.stateTask, worker.Worker.runTask, store.Store.Get,
      store.Store.Put, GoMap.get?, GoMap.set, applyTask_illegal, hv]

/-- C12, amended: for every worker store and every dequeued task, if the
transition to the dequeued task's state is illegal (from the stored task's
state, or from the dequeued task's own state when the store has no record of
it), `runTask` returns the illegal-transition error and invokes neither
`StartTask` nor `StopTask`; when the store has a record of the task the store is
left exactly as it was, and when it has none the only change is that the
dequeued task is now stored under its id. -/
theorem runTask_illegal_transition (w : worker.Worker) (rt : worker.Runtime)
    (taskQueued : task.Task) (rest : List task.Task)
    (hqueue : w.Queue = taskQueued :: rest)
    (hillegal : task.ValidateTransitions ((w.Db.Get taskQueued.ID).getD taskQueued).State
      taskQueued.State = false) :
    (w.runTask rt).result = worker.errorResult worker.illegalTransition ∧
      (w.runTask rt).calls = [] ∧
      (w.runTask rt).w.Queue = rest ∧
      (∀ stored, w.Db.Get taskQueued.ID = some stored → (w.runTask rt).w.Db = w.Db) ∧
      (w.Db.Get taskQueued.ID = none →
        (w.runTask rt).w.Db = { w.Db with Db := w.Db.Db.set taskQueued.ID taskQueued }) :=
  runTask_rejects_illegal w rt taskQueued rest hqueue hillegal

/-- Witness for C12: the worker knows t1 as Completed and dequeues a request to
schedule it. -/
theorem runTask_illegal_transition_witness :
    ((sample.workerWith [sample.stateTask "t1" task.Scheduled]
        [("t1", sample.stateTask "t1" task.Completed)]).runTask sample.deadRuntime).result =
      worker.errorResult worker.illegalTransition ∧
    ((sample.workerWith [sample.stateTask "t1" task.Scheduled]
        [("t1", sample.stateTask "t1" task.Completed)]).runTask sample.deadRuntime).calls = [] :=
  have h := runTask_illegal_transition
    (sample.workerWith [sample.stateTask "t1" task.Scheduled]
        [("t1", sample.stateTask "t1" task.Completed)]) sample.deadRuntime
    (sample.stateTask "t1" task.Scheduled) [] rfl (by decide)
  ⟨h.1, h.2.1⟩

/-- C14, the code at the failing inputs: when the GET to the worker w1 fails to
connect, `updateTasks` goes on to read `resp.StatusCode` of the nil response and
ends in a panic; when w1 answers 500 with a body that holds no task list,
`updateTasks` still resets `WorkerTaskMap[w1]`, which held t1, to the empty
list. -/
theorem updateTasks_faults_on_failed_get :
    (sample.busyManager.updateTasks (fun _ => manager.GetReply.connError)).panic = true ∧
    sample.busyManager.WorkerTaskMap.get? "w1" = some ["t1"] ∧
    (sample.busyManager.updateTasks (fun _ => manager.GetReply.response 500 [])).m.WorkerTaskMap.get?
        "w1" = some [] := by
  refine ⟨?_, ?_, ?_⟩ <;>
  · simp [sample.busyManager, manager.New, manager.newLoop, manager.Manager.updateTasks,
      manager.Manager.updateTasksFrom, manager.Manager.updateWorker,
      manager.Manager.updateTasksLoop, GoMap.set, GoMap.get?]

/-- C15, the code at the failing input: the worker's store holds the Running task
t1 and the inspection of its container fails, returning no container.
`updateTasks` stores t1 as Failed and then reads `resp.Container.State` through
the nil pointer: the call ends in a panic. -/
theorem worker_updateTasks_faults_without_container :
    (sample.deadRuntime.inspect (sample.stateTask "t1" task.Running)).Container = none ∧
    ((sample.workerWith [] [("t1", sample.stateTask "t1" task.Running)]).updateTasks
        sample.deadRuntime ["t1"]).panic = true ∧
    (((sample.workerWith [] [("t1", sample.stateTask "t1" task.Running)]).updateTasks
        sample.deadRuntime ["t1"]).w.Db.Get "t1").map (fun t => t.State) = some task.Failed := by
  refine ⟨rfl, ?_, ?_⟩ <;>
  · simp [sample.workerWith, sample.stateTask, sample.deadRuntime, worker.Worker.updateTasks,
      worker.Worker.GetTasks, worker.Worker.updateTasksLoop, store.Store.List, store.Store.Get,
      store.Store.putBack, store.Store.writeThrough, store.Store.Put, GoMap.get?, GoMap.set,
      task.Running, task.Failed]

/-- C20: the event `restartTask` posts carries the task in state Scheduled (with
the raised restart count); `StartTaskHandler` puts that task on the worker's
queue; and for every worker with an empty queue whose store records the task as
Running, Failed or Completed, the `runTask` that dequeues it returns the
illegal-transition error, calls the runtime not at all and leaves the store
unchanged: the restart does not restart the task. -/
theorem restart_event_is_rejected_by_worker (m : manager.Manager) (net : manager.HealthNet)
    (key : String) (t : task.Task) (wk : worker.Worker) (rt : worker.Runtime)
    (stored : task.Task)
    (hqueue : wk.Queue = [])
    (hstored : wk.Db.Get t.ID = some stored)
    (hstate : stored.State = task.Running ∨ stored.State = task.Failed ∨
      stored.State = task.Completed) :
    (m.restartTask net key t).actions =
        [manager.Action.post (m.TaskWorkerMap.getD t.ID "") (manager.restartEvent net t)] ∧
      (manager.restartEvent net t).Task.State = task.Scheduled ∧
      (manager.restartEvent net t).Task.ID = t.ID ∧
      (wk.StartTaskHandler (some (manager.restartEvent net t))).1.Queue =
        [(manager.restartEvent net t).Task] ∧
      (wk.StartTaskHandler (some (manager.restartEvent net t))).2 = 201 ∧
      ((wk.StartTaskHandler (some (manager.restartEvent net t))).1.runTask rt).result =
        worker.errorResult worker.illegalTransition ∧
      ((wk.StartTaskHandler (some (manager.restartEvent net t))).1.runTask rt).calls = [] ∧
      ((wk.StartTaskHandler (some (manager.restartEvent net t))).1.runTask rt).w.Db = wk.Db := by
  have hq : (wk.StartTaskHandler (some (manager.restartEvent net t))).1.Queue =
      (manager.restartEvent net t).Task :: [] := by
    simp [worker.Worker.StartTaskHandler, worker.Worker.AddTask, hqueue]
  have hdb : (wk.StartTaskHandler (some (manager.restartEvent net t))).1.Db = wk.Db := rfl
  have hid : (manager.restartEvent net t).Task.ID = t.ID := rfl
  have hill : task.ValidateTransitions stored.State task.Scheduled = false := by
    rcases hstate with h | h | h <;> rw [h] <;> decide
  have h := runTask_rejects_illegal _ rt _ [] hq
    (by rw [hdb, hid, hstored]; exact hill)
  refine ⟨?_, rfl, rfl, hq, rfl, h.1, h.2.1, ?_⟩
  · unfold manager.Manager.restartTask
    cases net.post t <;> rfl
  · rw [h.2.2.2.1 stored (by rw [hdb, hid]; exact hstored), hdb]

/-- Witness for C20: the manager restarts the Failed task t1, which the worker
also knows as Failed. -/
theorem restart_event_is_rejected_by_worker_witness :
    (manager.restartEvent sample.sickNet (sample.stateTask "t1" task.Failed)).Task.State =
      task.Scheduled ∧
    (((sample.workerWith [] [("t1", sample.stateTask "t1" task.Failed)]).StartTaskHandler
        (some (manager.restartEvent sample.sickNet
          (sample.stateTask "t1" task.Failed)))).1.runTask sample.deadRuntime).calls = [] :=
  have h := restart_event_is_rejected_by_worker sample.busyManager sample.sickNet "t1"
    (sample.stateTask "t1" task.Failed)
    (sample.workerWith [] [("t1", sample.stateTask "t1" task.Failed)]) sample.deadRuntime
    (sample.stateTask "t1" task.Failed) rfl
    (by simp [sample.workerWith, sample.stateTask, store.Store.Get, GoMap.get?])
    (Or.inr (Or.inl rfl))
  ⟨h.2.1, h.2.2.2.2.2.2.1⟩

/-- C13, counterexample: the manager the trace of C18 leaves, in which the
record stored under t1 carries the zero id and the same Running record is
stored under the zero id. The worker w1 now reports t1 (and nothing else) as
Failed. `updateTasks` finds the record under t1, writes the report into it and
puts it back under the record's own id: the task stored under the zero id,
which the worker did not report, changes from Running to Failed. -/
theorem updateTasks_overwrites_unreported_task :
    (sample.zeroedManager.TaskDb.Get "t1").map (fun t => (t.ID, t.State)) =
      some ("00000000-0000-0000-0000-000000000000", task.Running) ∧
    (sample.zeroedManager.TaskDb.Get "00000000-0000-0000-0000-000000000000").map
        (fun t => (t.ID, t.State)) =
      some ("00000000-0000-0000-0000-000000000000", task.Running) ∧
    (∀ t ∈ [sample.stateTask "t1" task.Failed],
      t.ID ≠ "00000000-0000-0000-0000-000000000000") ∧
    (sample.zeroedManager.updateTasks
        (fun _ => .response 200 [sample.stateTask "t1" task.Failed])).panic = false ∧
    ((sample.zeroedManager.updateTasks
        (fun _ => .response 200 [sample.stateTask "t1" task.Failed])).m.TaskDb.Get
          "00000000-0000-0000-0000-000000000000").map (fun t => (t.ID, t.State)) =
      some ("00000000-0000-0000-0000-000000000000", task.Failed) := by
  refine ⟨?_, ?_, ?_, ?_, ?_⟩ <;>
  · simp [sample.zeroedManager, sample.managerWith, sample.event, sample.stateTask,
      sample.noStats, manager.New,
      manager.newLoop, manager.Manager.AddTask, manager.Manager.SendWork,
      manager.Manager.dispatch, manager.Manager.dequeued, manager.Manager.SelectWorker,
      manager.Manager.sendToWorker, manager.writeBack,
      manager.Manager.updateTasks, manager.Manager.updateTasksFrom,
      manager.Manager.updateWorker, manager.Manager.updateTasksLoop, manager.mergeReport,
      scheduler.Scheduler.SelectCandidateNodes, scheduler.Scheduler.Score,
      scheduler.Scheduler.Pick, scheduler.RoundRobin.SelectCandidateNodes,
      scheduler.RoundRobin.Score, scheduler.RoundRobin.scoreLoop, scheduler.RoundRobin.Pick,
      scheduler.RoundRobin.pickLoop, store.Store.Put, store.Store.Get, store.Store.putBack,
      store.Store.writeThrough, GoMap.set, GoMap.get?, GoMap.getD, node.NewNode,
      task.Task.zero, task.Pending, task.Running, task.Scheduled, task.Failed]

/-- C13, amended: `updateTasks` is the loop `updateTasksFrom` over the workers,
and when the loop, in a state `m` whose task store has every record stored
under its own id, processes the reply `tasks` of the worker `w` at position
`i`, it goes on with the state `(updateTasksFrom replies i [w] m).m`, in which:
the store holds, under every id, the record it held before with State,
StartTime, FinishTime, ContainerID and HostPorts taken from the last task the
reply lists under that id and every other field unchanged, if the id was in
the store and in the reply; a reported id that is not in the store is not
inserted, and a stored record whose id is not reported is unchanged;
`WorkerTaskMap[w]` is exactly the ids of the reported tasks found in the
store, and every such id maps to `w` in `TaskWorkerMap` (the other entries of
both maps are unchanged); and every record is again stored under its own id,
so that the same holds for the next worker. For a manager with the single
worker `w` this is the state `updateTasks` returns. -/
theorem updateTasks_merges_worker_report (m : manager.Manager)
    (replies : Nat → manager.GetReply) (i : Nat) (w : String) (rest : List String)
    (code : Nat) (tasks : List task.Task)
    (hreply : replies i = .response code tasks) (hkeyed : store.Keyed m.TaskDb) :
    (m.Workers = w :: rest → i = 0 →
      m.updateTasks replies = manager.Manager.updateTasksFrom replies i (w :: rest) m) ∧
    manager.Manager.updateTasksFrom replies i (w :: rest) m =
      { m := (manager.Manager.updateTasksFrom replies (i + 1) rest
          (manager.Manager.updateTasksFrom replies i [w] m).m).m,
        panic := (manager.Manager.updateTasksFrom replies (i + 1) rest
          (manager.Manager.updateTasksFrom replies i [w] m).m).panic,
        actions := manager.Action.get w :: (manager.Manager.updateTasksFrom replies (i + 1) rest
          (manager.Manager.updateTasksFrom replies i [w] m).m).actions } ∧
    (m.Workers = [w] → i = 0 →
      (m.updateTasks replies).panic = false ∧
      ∀ k, (m.updateTasks replies).m.TaskDb.Get k =
        manager.reconciled (m.TaskDb.Get k) (manager.lastReport tasks k)) ∧
    (manager.Manager.updateTasksFrom replies i [w] m).panic = false ∧
    store.Keyed (manager.Manager.updateTasksFrom replies i [w] m).m.TaskDb ∧
    (∀ k, (manager.Manager.updateTasksFrom replies i [w] m).m.TaskDb.Get k =
      manager.reconciled (m.TaskDb.Get k) (manager.lastReport tasks k)) ∧
    (∀ k, manager.lastReport tasks k = none ↔ ∀ t ∈ tasks, t.ID ≠ k) ∧
    (∀ k r, manager.lastReport tasks k = some r → r ∈ tasks ∧ r.ID = k) ∧
    (∀ p t : task.Task,
      (manager.mergeReport p t).State = t.State ∧
      (manager.mergeReport p t).StartTime = t.StartTime ∧
      (manager.mergeReport p t).FinishTime = t.FinishTime ∧
      (manager.mergeReport p t).ContainerID = t.ContainerID ∧
      (manager.mergeReport p t).HostPorts = t.HostPorts ∧
      (manager.mergeReport p t).ID = p.ID ∧
      (manager.mergeReport p t).Name = p.Name ∧
      (manager.mergeReport p t).Image = p.Image ∧
      (manager.mergeReport p t).Cpu = p.Cpu ∧
      (manager.mergeReport p t).Memory = p.Memory ∧
      (manager.mergeReport p t).Disk = p.Disk ∧
      (manager.mergeReport p t).ExposedPorts = p.ExposedPorts ∧
      (manager.mergeReport p t).PortBindings = p.PortBindings ∧
      (manager.mergeReport p t).RestartPolicy = p.RestartPolicy ∧
      (manager.mergeReport p t).Healthcheck = p.Healthcheck ∧
      (manager.mergeReport p t).RestartCount = p.RestartCount) ∧
    (manager.Manager.updateTasksFrom replies i [w] m).m.WorkerTaskMap.get? w =
      some ((tasks.filter (fun t => (m.TaskDb.Get t.ID).isSome)).map (fun t => t.ID)) ∧
    (∀ w', w ≠ w' →
      (manager.Manager.updateTasksFrom replies i [w] m).m.WorkerTaskMap.get? w' =
        m.WorkerTaskMap.get? w') ∧
    (∀ k, (manager.Manager.updateTasksFrom replies i [w] m).m.TaskWorkerMap.get? k =
      if (manager.lastReport tasks k).isSome = true ∧ (m.TaskDb.Get k).isSome = true then some w
      else m.TaskWorkerMap.get? k) := by
  have hk' : store.Keyed
      ({ m with WorkerTaskMap := m.WorkerTaskMap.set w [] } : manager.Manager).TaskDb := hkeyed
  have hsingle := updateTasksFrom_single replies i w m code tasks hreply
  have hdb : ∀ k, (manager.Manager.updateTasksFrom replies i [w] m).m.TaskDb.Get k =
      manager.reconciled (m.TaskDb.Get k) (manager.lastReport tasks k) := by
    intro k
    rw [hsingle]
    exact updateTasksLoop_taskDb w tasks _ hk' k
  refine ⟨?_, updateTasksFrom_cons replies i w rest m code tasks hreply, ?_, ?_, ?_, hdb,
    lastReport_eq_none tasks, lastReport_eq_some tasks, ?_, ?_, ?_, ?_⟩
  · intro hw hi
    unfold manager.Manager.updateTasks
    rw [hw, hi]
  · intro hw hi
    have h : m.updateTasks replies = manager.Manager.updateTasksFrom replies i [w] m := by
      unfold manager.Manager.updateTasks
      rw [hw, hi]
    rw [h]
    exact ⟨by rw [hsingle], hdb⟩
  · rw [hsingle]
  · rw [hsingle]
    exact keyed_updateTasksLoop w tasks _ hk'
  · intro p t
    exact ⟨rfl, rfl, rfl, rfl, rfl, rfl, rfl, rfl, rfl, rfl, rfl, rfl, rfl, rfl, rfl, rfl⟩
  · rw [hsingle]
    have h := updateTasksLoop_workerTaskMap w tasks
      ({ m with WorkerTaskMap := m.WorkerTaskMap.set w [] } : manager.Manager) [] hk'
      (goMap_get?_set_self _ _ _)
    simpa using h
  · intro w' hw
    rw [hsingle]
    have h := updateTasksLoop_workerTaskMap_other w w' hw tasks
      ({ m with WorkerTaskMap := m.WorkerTaskMap.set w [] } : manager.Manager)
    show (manager.Manager.updateTasksLoop w tasks _).WorkerTaskMap.get? w' = _
    rw [h]
    simp [goMap_get?_set, hw]
  · intro k
    rw [hsingle]
    exact updateTasksLoop_taskWorkerMap w tasks _ hk' k

/-- Witness for C13: w1, the only worker, reports t1 as Running and the unknown
t9. -/
theorem updateTasks_merges_worker_report_witness :
    store.Keyed sample.busyManager.TaskDb ∧
    ((sample.busyManager.updateTasks
        (fun _ => .response 200 [sample.stateTask "t1" task.Running,
                                 sample.stateTask "t9" task.Running])).panic = false ∧
      ∀ k, (sample.busyManager.updateTasks
          (fun _ => .response 200 [sample.stateTask "t1" task.Running,
                                   sample.stateTask "t9" task.Running])).m.TaskDb.Get k =
        manager.reconciled (sample.busyManager.TaskDb.Get k)
          (manager.lastReport [sample.stateTask "t1" task.Running,
                               sample.stateTask "t9" task.Running] k)) :=
  have hk : store.Keyed sample.busyManager.TaskDb := by
    intro key record h
    simp only [sample.busyManager, store.Store.Get, GoMap.get?] at h
    by_cases hkey : "t1" = key
    · rw [if_pos hkey] at h
      cases h
      exact hkey
    · rw [if_neg hkey] at h
      cases h
  ⟨hk, (updateTasks_merges_worker_report sample.busyManager
      (fun _ => .response 200 [sample.stateTask "t1" task.Running,
                               sample.stateTask "t9" task.Running]) 0 "w1" [] 200
      [sample.stateTask "t1" task.Running, sample.stateTask "t9" task.Running] rfl hk).2.2.1
      rfl rfl⟩

/-- C17, counterexample: a store in which a record is not stored under its own
id. Under t1 it holds a Failed task with three restarts, under t2 a Failed task
with no restart that carries the id t1; every restart count is at most 3.
`doHealthChecks` leaves the first record alone, restarts the second and puts it
back under its id, t1: the task stored under t1 with `RestartCount = 3` is
replaced by a Scheduled task with `RestartCount = 1`. -/
theorem doHealthChecks_replaces_exhausted_task :
    (sample.strayManager.TaskDb.Get "t1").map (fun t => (t.ID, t.State, t.RestartCount)) =
      some ("t1", task.Failed, 3) ∧
    (sample.strayManager.TaskDb.Get "t2").map (fun t => (t.ID, t.State, t.RestartCount)) =
      some ("t1", task.Failed, 0) ∧
    ((sample.strayManager.doHealthChecks sample.sickNet ["t1", "t2"]).m.TaskDb.Get "t1").map
        (fun t => (t.ID, t.State, t.RestartCount)) = some ("t1", task.Scheduled, 1) ∧
    ((sample.strayManager.doHealthChecks sample.sickNet ["t2", "t1"]).m.TaskDb.Get "t1").map
        (fun t => (t.ID, t.State, t.RestartCount)) = some ("t1", task.Scheduled, 1) := by
  refine ⟨?_, ?_, ?_, ?_⟩ <;>
  · simp [sample.strayManager, sample.stateTask, sample.sickNet, manager.New, manager.newLoop,
      manager.Manager.doHealthChecks, manager.Manager.GetTasks, manager.Manager.healthLoop,
      manager.Manager.restartTask, manager.restarted, store.Store.List, store.Store.Get,
      store.Store.putBack, store.Store.writeThrough, store.Store.Put, GoMap.get?, GoMap.set,
      task.Task.zero, task.Running, task.Failed, task.Scheduled, add64, wrap64]

/-- C17, amended: for every task store whose restart counts are at most 3 (and
Go `int`s), for every outcome of the health checks and every order of the
listing, `doHealthChecks` leaves every restart count at most 3, and every POST
it makes is the restart event of a stored task whose restart count is below 3
and that is Failed or Running with a failed health check; the event carries
the count raised by exactly one. On a store whose records are stored under
their own ids, moreover: a task whose restart event is posted is stored
restarted, with its count raised by exactly one; a task whose restart event is
not posted is not modified; a task with a count of 3 is neither restarted nor
modified; and no task is added. -/
theorem doHealthChecks_keeps_restart_bound (m : manager.Manager) (net : manager.HealthNet)
    (order : List String)
    (hbound : ∀ k r, m.TaskDb.Get k = some r →
      -2 ^ 63 ≤ r.RestartCount ∧ r.RestartCount ≤ 3) :
    (∀ k r, (m.doHealthChecks net order).m.TaskDb.Get k = some r → r.RestartCount ≤ 3) ∧
    (∀ a ∈ (m.doHealthChecks net order).actions,
      (∃ id, a = manager.Action.health id) ∨
      ∃ k r, m.TaskDb.Get k = some r ∧ manager.restartDue net r ∧
        a = manager.Action.post (m.TaskWorkerMap.getD r.ID "") (manager.restartEvent net r) ∧
        (manager.restartEvent net r).Task.RestartCount = r.RestartCount + 1) ∧
    (store.Keyed m.TaskDb →
      (∀ k r, m.TaskDb.Get k = some r →
        manager.Action.post (m.TaskWorkerMap.getD r.ID "") (manager.restartEvent net r) ∈
          (m.doHealthChecks net order).actions →
        manager.restartDue net r ∧
        (m.doHealthChecks net order).m.TaskDb.Get k = some (manager.restarted r) ∧
        (manager.restarted r).RestartCount = r.RestartCount + 1) ∧
      (∀ k r, m.TaskDb.Get k = some r →
        manager.Action.post (m.TaskWorkerMap.getD r.ID "") (manager.restartEvent net r) ∉
          (m.doHealthChecks net order).actions →
        (m.doHealthChecks net order).m.TaskDb.Get k = some r) ∧
      (∀ k r, m.TaskDb.Get k = some r → r.RestartCount = 3 →
        manager.Action.post (m.TaskWorkerMap.getD r.ID "") (manager.restartEvent net r) ∉
          (m.doHealthChecks net order).actions ∧
        (m.doHealthChecks net order).m.TaskDb.Get k = some r) ∧
      (∀ k, m.TaskDb.Get k = none → (m.doHealthChecks net order).m.TaskDb.Get k = none)) := by
  obtain ⟨done, hd, hdb, _, hact, hposted⟩ := healthLoop_trace net (m.GetTasks order) m
  have hstored : ∀ e ∈ done, m.TaskDb.Get e.1 = some e.2 := fun e he =>
    mem_store_list m.TaskDb order e.1 e.2 (hd e he).1
  have hcount : ∀ e ∈ done, (manager.restarted e.2).RestartCount = e.2.RestartCount + 1 :=
    fun e he => restarted_count e.2 (hbound e.1 e.2 (hstored e he)).1 (hd e he).2.1
  refine ⟨?_, ?_, ?_⟩
  · intro k r hr
    unfold manager.Manager.doHealthChecks at hr
    rw [hdb] at hr
    rcases restarts_get done m.TaskDb k with h | ⟨e, he, h⟩
    · rw [h] at hr
      exact (hbound k r hr).2
    · rw [h] at hr
      rw [← Option.some.inj hr, hcount e he]
      have := (hd e he).2.1
      omega
  · intro a ha
    rcases hact a ha with h | ⟨e, he, hae⟩
    · exact Or.inl h
    · exact Or.inr ⟨e.1, e.2, hstored e he, (hd e he).2, hae, hcount e he⟩
  · intro hkeyed
    have hid : ∀ e ∈ done, e.2.ID = e.1 := fun e he => hkeyed e.1 e.2 (hstored e he)
    have hfun : ∀ k r, m.TaskDb.Get k = some r → ∀ e ∈ done, e.1 = k → e.2 = r := by
      intro k r hr e he hek
      have h := hstored e he
      rw [hek, hr] at h
      exact (Option.some.inj h).symm
    have hmem : ∀ k r, m.TaskDb.Get k = some r →
        manager.Action.post (m.TaskWorkerMap.getD r.ID "") (manager.restartEvent net r) ∈
          (m.doHealthChecks net order).actions → (k, r) ∈ done := by
      intro k r hr hp
      rcases hact _ hp with ⟨id, h⟩ | ⟨e, he, hae⟩
      · cases h
      · have hev : manager.restartEvent net r = manager.restartEvent net e.2 := by
          injection hae
        have hres := restartEvent_injective net r e.2 hev
        have hids : (manager.restarted r).ID = (manager.restarted e.2).ID :=
          congrArg task.Task.ID hres
        have hk : e.1 = k := by
          rw [← hid e he]
          exact hids.symm.trans (hkeyed k r hr)
        have hr2 : e.2 = r := hfun k r hr e he hk
        have : e = (k, r) := Prod.ext hk hr2
        rw [← this]
        exact he
    have hrestarted : ∀ k r, m.TaskDb.Get k = some r →
        manager.Action.post (m.TaskWorkerMap.getD r.ID "") (manager.restartEvent net r) ∈
          (m.doHealthChecks net order).actions →
        manager.restartDue net r ∧
        (m.doHealthChecks net order).m.TaskDb.Get k = some (manager.restarted r) ∧
        (manager.restarted r).RestartCount = r.RestartCount + 1 := by
      intro k r hr hp
      have hin := hmem k r hr hp
      refine ⟨(hd _ hin).2, ?_, hcount _ hin⟩
      unfold manager.Manager.doHealthChecks
      rw [hdb]
      exact restarts_get_done done m.TaskDb k r hid (hfun k r hr) hin
    have hkept : ∀ k r, m.TaskDb.Get k = some r →
        manager.Action.post (m.TaskWorkerMap.getD r.ID "") (manager.restartEvent net r) ∉
          (m.doHealthChecks net order).actions →
        (m.doHealthChecks net order).m.TaskDb.Get k = some r := by
      intro k r hr hp
      have hnot : ∀ e ∈ done, e.1 ≠ k := by
        intro e he hek
        have hr2 : e.2 = r := hfun k r hr e he hek
        have h := hposted e he
        rw [hr2] at h
        exact hp h
      unfold manager.Manager.doHealthChecks
      rw [hdb, restarts_get_other done m.TaskDb k hid hnot]
      exact hr
    refine ⟨hrestarted, hkept, ?_, ?_⟩
    · intro k r hr h3
      have hp : manager.Action.post (m.TaskWorkerMap.getD r.ID "")
          (manager.restartEvent net r) ∉ (m.doHealthChecks net order).actions := by
        intro hp
        have := (hrestarted k r hr hp).1.1
        omega
      exact ⟨hp, hkept k r hr hp⟩
    · intro k hk
      have hnot : ∀ e ∈ done, e.1 ≠ k := by
        intro e he hek
        have h := hstored e he
        rw [hek, hk] at h
        cases h
      unfold manager.Manager.doHealthChecks
      rw [hdb, restarts_get_other done m.TaskDb k hid hnot]
      exact hk

/-- Witness for C17: the Failed task t1 with two restarts is restarted once more. -/
theorem doHealthChecks_keeps_restart_bound_witness :
    (∀ k r, (sample.managerOf task.Failed 2).TaskDb.Get k = some r →
      -2 ^ 63 ≤ r.RestartCount ∧ r.RestartCount ≤ 3) ∧
    store.Keyed (sample.managerOf task.Failed 2).TaskDb ∧
    (∀ k r, ((sample.managerOf task.Failed 2).doHealthChecks sample.sickNet ["t1"]).m.TaskDb.Get k =
      some r → r.RestartCount ≤ 3) ∧
    (∀ k, (sample.managerOf task.Failed 2).TaskDb.Get k = none →
      ((sample.managerOf task.Failed 2).doHealthChecks sample.sickNet ["t1"]).m.TaskDb.Get k =
        none) :=
  have hk : store.Keyed (sample.managerOf task.Failed 2).TaskDb :=
    keyed_single store.Kind.memory { sample.stateTask "t1" task.Failed with RestartCount := 2 }
  have hb : ∀ k r, (sample.managerOf task.Failed 2).TaskDb.Get k = some r →
      -2 ^ 63 ≤ r.RestartCount ∧ r.RestartCount ≤ 3 := by
    intro k r h
    simp only [sample.managerOf, store.Store.Get, GoMap.get?] at h
    by_cases hkey : "t1" = k
    · rw [if_pos hkey] at h
      cases h
      decide
    · rw [if_neg hkey] at h
      cases h
  ⟨hb, hk,
    (doHealthChecks_keeps_restart_bound (sample.managerOf task.Failed 2) sample.sickNet ["t1"]
      hb).1,
    ((doHealthChecks_keeps_restart_bound (sample.managerOf task.Failed 2) sample.sickNet ["t1"]
      hb).2.2 hk).2.2.2⟩

/-- C16, counterexample: the manager's store holds the Failed task t1 with no
restart so far; `doHealthChecks` calls `restartTask`, which stores t1 as
Scheduled, and Failed → Scheduled is not a legal transition. -/
theorem doHealthChecks_moves_failed_to_scheduled :
    ((sample.managerOf task.Failed 0).TaskDb.Get "t1").map (fun t => t.State) =
      some task.Failed ∧
    (((sample.managerOf task.Failed 0).doHealthChecks sample.sickNet ["t1"]).m.TaskDb.Get
        "t1").map (fun t => t.State) = some task.Scheduled ∧
    task.Failed ≠ task.Scheduled ∧
    task.ValidateTransitions task.Failed task.Scheduled = false := by
  refine ⟨?_, ?_, by decide, by decide⟩ <;>
  · simp [sample.managerOf, sample.stateTask, sample.sickNet, manager.New, manager.newLoop,
      manager.Manager.doHealthChecks, manager.Manager.GetTasks, manager.Manager.healthLoop,
      manager.Manager.restartTask, manager.restarted, store.Store.List, store.Store.Get,
      store.Store.putBack, store.Store.writeThrough, store.Store.Put, GoMap.get?, GoMap.set,
      task.Task.zero, task.Running, task.Failed, task.Scheduled]

/-- C16, amended: the manager's changes of a stored task's state are not
confined to the transitions `ValidateTransitions` allows. `SendWork` leaves the
task store unchanged for an event whose task has an entry in `TaskWorkerMap`.
Every record of the store after `updateTasks` is the record found under its key
before, or a stored record with State (and StartTime, FinishTime, ContainerID,
HostPorts) replaced by those of a task that a worker reported, whatever the two
states are; when the only worker reports a single task that is found in the
store, the record is put back, under its own id, with the reported state.
Every POST of `doHealthChecks` is the restart event, with state Scheduled, of a
task stored as Running or Failed; every record of the store after
`doHealthChecks` is the record found under its key before, or such a task with
state Scheduled; and when the listing holds a single task with fewer than
three restarts that is Failed, or Running with a failing health check, that
task is put back, under its own id, as Scheduled. The table allows the
transition to Scheduled from neither Running nor Failed. -/
theorem manager_stores_states_unchecked {R : Type} [LinearOrderedField R] (pow : R → R → R)
    (m : manager.Manager) (te : task.Event) (rest : List task.Event)
    (replies : Nat → Option worker.Stats × Option worker.Stats) (reply : manager.PostReply)
    (reports : Nat → manager.GetReply) (net : manager.HealthNet) (order : List String) :
    (m.Pending = te :: rest → (m.TaskWorkerMap.get? te.Task.ID).isSome = true →
      (m.SendWork pow replies reply).m.TaskDb = m.TaskDb) ∧
    (∀ k, (m.updateTasks reports).m.TaskDb.Get k = m.TaskDb.Get k ∨
      ∃ k0 p j code tasks t, m.TaskDb.Get k0 = some p ∧
        reports j = manager.GetReply.response code tasks ∧ t ∈ tasks ∧
        (m.updateTasks reports).m.TaskDb.Get k = some (manager.mergeReport p t) ∧
        (manager.mergeReport p t).State = t.State) ∧
    (∀ w code t p, m.Workers = [w] → reports 0 = manager.GetReply.response code [t] →
      m.TaskDb.Get t.ID = some p →
      (m.updateTasks reports).m.TaskDb.Get p.ID = some (manager.mergeReport p t) ∧
      (manager.mergeReport p t).State = t.State) ∧
    (∀ a ∈ (m.doHealthChecks net order).actions,
      (∃ id, a = manager.Action.health id) ∨
      ∃ k r, m.TaskDb.Get k = some r ∧ (r.State = task.Running ∨ r.State = task.Failed) ∧
        a = manager.Action.post (m.TaskWorkerMap.getD r.ID "") (manager.restartEvent net r) ∧
        (manager.restartEvent net r).Task.State = task.Scheduled) ∧
    (∀ k, (m.doHealthChecks net order).m.TaskDb.Get k = m.TaskDb.Get k ∨
      ∃ k0 r, m.TaskDb.Get k0 = some r ∧ (r.State = task.Running ∨ r.State = task.Failed) ∧
        (m.doHealthChecks net order).m.TaskDb.Get k = some (manager.restarted r) ∧
        (manager.restarted r).State = task.Scheduled) ∧
    (∀ k r, m.TaskDb.Get k = some r → r.RestartCount < 3 →
      (r.State = task.Failed ∨
        (r.State = task.Running ∧ m.checkTaskHealth net r = manager.Health.failed)) →
      (m.doHealthChecks net [k]).m.TaskDb.Get r.ID = some (manager.restarted r) ∧
      (manager.restarted r).State = task.Scheduled) ∧
    task.ValidateTransitions task.Running task.Scheduled = false ∧
    task.ValidateTransitions task.Failed task.Scheduled = false := by
  have hstate : ∀ r, manager.restartDue net r →
      r.State = task.Running ∨ r.State = task.Failed := by
    intro r hd
    rcases hd.2 with h | h
    · exact Or.inr h
    · exact Or.inl h.1
  obtain ⟨done, hd, hdb, _, hact, _⟩ := healthLoop_trace net (m.GetTasks order) m
  have hstored : ∀ e ∈ done, m.TaskDb.Get e.1 = some e.2 := fun e he =>
    mem_store_list m.TaskDb order e.1 e.2 (hd e he).1
  refine ⟨?_, ?_, ?_, ?_, ?_, ?_, by decide, by decide⟩
  · intro hp hknown
    cases hk : m.TaskWorkerMap.get? te.Task.ID with
    | none => rw [hk] at hknown; cases hknown
    | some w' =>
      rw [(sendWork_known_task_not_placed pow m te rest replies reply w' hp hk).1]
      rfl
  · intro k
    rcases updateTasksFrom_merged m.TaskDb reports m.Workers 0 m (fun k => Or.inl rfl) k with
      h | ⟨k0, p, t, hp, ⟨j, code, tasks, hj, ht⟩, h⟩
    · exact Or.inl h
    · exact Or.inr ⟨k0, p, j, code, tasks, t, hp, hj, ht, h, rfl⟩
  · intro w code t p hw hr hg
    exact ⟨updateTasks_single_report m reports w code t p hw hr hg, rfl⟩
  · intro a ha
    rcases hact a ha with h | ⟨e, he, hae⟩
    · exact Or.inl h
    · exact Or.inr ⟨e.1, e.2, hstored e he, hstate e.2 (hd e he).2, hae, rfl⟩
  · intro k
    unfold manager.Manager.doHealthChecks
    rw [hdb]
    rcases restarts_get done m.TaskDb k with h | ⟨e, he, h⟩
    · exact Or.inl h
    · exact Or.inr ⟨e.1, e.2, hstored e he, hstate e.2 (hd e he).2, h, rfl⟩
  · intro k r hg h3 hdue
    exact ⟨doHealthChecks_single m net k r hg h3 hdue, rfl⟩

/-- Witness for C16: `doHealthChecks` puts the Failed task t1 back as Scheduled. -/
theorem manager_stores_states_unchecked_witness :
    (sample.managerOf task.Failed 0).TaskDb.Get "t1" =
      some { sample.stateTask "t1" task.Failed with RestartCount := 0 } ∧
    ((sample.managerOf task.Failed 0).doHealthChecks sample.sickNet ["t1"]).m.TaskDb.Get "t1" =
      some (manager.restarted { sample.stateTask "t1" task.Failed with RestartCount := 0 }) ∧
    (manager.restarted { sample.stateTask "t1" task.Failed with RestartCount := 0 }).State =
      task.Scheduled :=
  ⟨rfl,
   (manager_stores_states_unchecked sample.noPow (sample.managerOf task.Failed 0)
      (sample.event "e1" task.Scheduled (sample.stateTask "t1" task.Failed)) []
      sample.noStats manager.PostReply.connError (fun _ => manager.GetReply.connError)
      sample.sickNet ["t1"]).2.2.2.2.2.1 "t1"
      { sample.stateTask "t1" task.Failed with RestartCount := 0 } rfl (by decide)
      (Or.inl rfl)⟩

/-- C18, the code at the failing trace: a fresh manager with in-memory stores
takes the event e1 for the new task t1. `SendWork` places t1 on w1; the worker
answers 201 with a body that does not decode, and the store's record of t1 (the
variable `t`, reset before the decoding) is left as the zero task. `updateTasks`
then finds that record under t1, writes the reported state Running into it and
puts it back under the record's own id, the zero id: the store now holds a
Running task whose id has no entry in `TaskWorkerMap`. -/
theorem reachable_running_task_without_worker :
    ((sample.managerWith "round_robin"
        [sample.event "e1" task.Running (sample.stateTask "t1" task.Scheduled)]).SendWork
        sample.noPow sample.noStats (.response 201 task.Task.zero false)).panic = false ∧
    (((sample.managerWith "round_robin"
        [sample.event "e1" task.Running (sample.stateTask "t1" task.Scheduled)]).SendWork
        sample.noPow sample.noStats (.response 201 task.Task.zero false)).m.updateTasks
        (fun _ => .response 200 [sample.stateTask "t1" task.Running])).panic = false ∧
    ((((sample.managerWith "round_robin"
        [sample.event "e1" task.Running (sample.stateTask "t1" task.Scheduled)]).SendWork
        sample.noPow sample.noStats (.response 201 task.Task.zero false)).m.updateTasks
        (fun _ => .response 200 [sample.stateTask "t1" task.Running])).m.TaskDb.Get
          "00000000-0000-0000-0000-000000000000").map (fun t => (t.ID, t.State)) =
      some ("00000000-0000-0000-0000-000000000000", task.Running) ∧
    (((sample.managerWith "round_robin"
        [sample.event "e1" task.Running (sample.stateTask "t1" task.Scheduled)]).SendWork
        sample.noPow sample.noStats (.response 201 task.Task.zero false)).m.updateTasks
        (fun _ => .response 200 [sample.stateTask "t1" task.Running])).m.TaskWorkerMap.get?
          "00000000-0000-0000-0000-000000000000" = none := by
  refine ⟨?_, ?_, ?_, ?_⟩ <;>
  · simp [sample.managerWith, sample.event, sample.stateTask, sample.noStats, manager.New,
      manager.newLoop, manager.Manager.AddTask, manager.Manager.SendWork,
      manager.Manager.dispatch, manager.Manager.dequeued, manager.Manager.SelectWorker,
      manager.Manager.sendToWorker, manager.writeBack,
      manager.Manager.updateTasks, manager.Manager.updateTasksFrom,
      manager.Manager.updateWorker, manager.Manager.updateTasksLoop, manager.mergeReport,
      scheduler.Scheduler.SelectCandidateNodes, scheduler.Scheduler.Score,
      scheduler.Scheduler.Pick, scheduler.RoundRobin.SelectCandidateNodes,
      scheduler.RoundRobin.Score, scheduler.RoundRobin.scoreLoop, scheduler.RoundRobin.Pick,
      scheduler.RoundRobin.pickLoop, store.Store.Put, store.Store.Get, store.Store.putBack,
      store.Store.writeThrough, GoMap.set, GoMap.get?, GoMap.getD, node.NewNode,
      task.Task.zero, task.Pending, task.Running, task.Scheduled]

/-- C19: `EPvm.Score` writes no entry for a candidate whose stats fetch fails, and
`EPvm.Pick` reads the missing entry as cost 0. For every candidate list
`pre ++ n :: post` in which `n` is the first candidate whose fetch fails, whose
name no other candidate carries, and for which every cost that `Score` computes
is strictly positive, the pipeline `Score`, `Pick` returns `n` (as the failed
fetch leaves it), not a candidate with a computed cost. -/
theorem ePvm_picks_first_failed_candidate {R : Type} [LinearOrderedField R]
    (pow : R → R → R) (t : task.Task) (pre post : List node.Node) (n : node.Node)
    (replies : Nat → Option worker.Stats × Option worker.Stats)
    (hfail : scheduler.fetchFails (replies pre.length))
    (hfirst : ∀ j, j < pre.length → ¬ scheduler.fetchFails (replies j))
    (hname : ∀ x ∈ pre ++ post, x.Name ≠ n.Name)
    (hpos : ∀ k c, (scheduler.EPvm.Score pow t (pre ++ n :: post) replies).1.get? k = some c →
      0 < c) :
    (scheduler.EPvm.Score pow t (pre ++ n :: post) replies).1.get? n.Name = none ∧
    (scheduler.EPvm.Score pow t (pre ++ n :: post) replies).1.getD n.Name 0 = 0 ∧
    (scheduler.calculateCpuUsage (R := R) n (replies pre.length).1
        (replies pre.length).2).1.Name = n.Name ∧
    (scheduler.EPvm.Score pow t (pre ++ n :: post) replies).2[pre.length]? =
      some (scheduler.calculateCpuUsage (R := R) n (replies pre.length).1
        (replies pre.length).2).1 ∧
    scheduler.EPvm.Pick (scheduler.EPvm.Score pow t (pre ++ n :: post) replies).1
        (scheduler.EPvm.Score pow t (pre ++ n :: post) replies).2 =
      some (scheduler.calculateCpuUsage (R := R) n (replies pre.length).1
        (replies pre.length).2).1 := by
  have hpre : ∀ x ∈ pre, x.Name ≠ n.Name := fun x hx => hname x (by simp [hx])
  have hpost : ∀ x ∈ post, x.Name ≠ n.Name := fun x hx => hname x (by simp [hx])
  have happ := ePvm_scoreLoop_append pow t replies pre (n :: post) 0 []
  have hnone := calculateCpuUsage_of_fails (R := R) n (replies pre.length) hfail
  have hcons := ePvm_scoreLoop_cons pow t replies (0 + pre.length) n post
    (scheduler.EPvm.scoreLoop pow t replies 0 pre []).1
  have hcons' := ePvm_scoreLoop_cons pow t replies (0 + pre.length) n post ([] : GoMap String R)
  simp only [Nat.zero_add] at happ hcons hcons'
  simp only [hnone] at hcons hcons'
  have hS1 : (scheduler.EPvm.Score pow t (pre ++ n :: post) replies).1 =
      (scheduler.EPvm.scoreLoop pow t replies (pre.length + 1) post
        (scheduler.EPvm.scoreLoop pow t replies 0 pre []).1).1 := by
    unfold scheduler.EPvm.Score
    rw [happ.1, hcons]
  have hS2 : (scheduler.EPvm.Score pow t (pre ++ n :: post) replies).2 =
      (scheduler.EPvm.scoreLoop pow t replies 0 pre []).2 ++
        (scheduler.calculateCpuUsage (R := R) n (replies pre.length).1
          (replies pre.length).2).1 ::
        (scheduler.EPvm.scoreLoop pow t replies (pre.length + 1) post []).2 := by
    unfold scheduler.EPvm.Score
    rw [happ.2, hcons']
  have hentry : (scheduler.EPvm.Score pow t (pre ++ n :: post) replies).1.get? n.Name = none := by
    rw [hS1, ePvm_scoreLoop_frame pow t replies n.Name post _ _ hpost,
      ePvm_scoreLoop_frame pow t replies n.Name pre _ _ hpre]
    rfl
  have hzero : (scheduler.EPvm.Score pow t (pre ++ n :: post) replies).1.getD n.Name 0 = 0 := by
    simp [GoMap.getD, hentry]
  have hlen : (scheduler.EPvm.scoreLoop pow t replies 0 pre ([] : GoMap String R)).2.length =
      pre.length := by
    have h := congrArg List.length (ePvm_scoreLoop_names pow t replies pre 0 ([] : GoMap String R))
    simpa using h
  have hnonneg : ∀ k, 0 ≤ (scheduler.EPvm.Score pow t (pre ++ n :: post) replies).1.getD k 0 := by
    intro k
    cases hk : (scheduler.EPvm.Score pow t (pre ++ n :: post) replies).1.get? k with
    | none => simp [GoMap.getD, hk]
    | some c => simpa [GoMap.getD, hk] using le_of_lt (hpos k c hk)
  refine ⟨hentry, hzero, calculateCpuUsage_name _ _ _, ?_, ?_⟩
  · rw [hS2, List.getElem?_append_right (by rw [hlen]), hlen]
    simp
  · rw [hS2]
    apply ePvm_pick_first_zero
    · intro a ha
      have hsome := ePvm_scoreLoop_scored pow t replies pre 0 []
        (fun j hj => by simpa using hfirst j hj) a ha
      have hsome' : ((scheduler.EPvm.Score pow t (pre ++ n :: post) replies).1.get?
          a.Name).isSome = true := by
        rw [hS1]
        exact ePvm_scoreLoop_mono pow t replies a.Name post _ _ hsome
      cases hk : (scheduler.EPvm.Score pow t (pre ++ n :: post) replies).1.get? a.Name with
      | none => rw [hk] at hsome'; cases hsome'
      | some c => simpa [GoMap.getD, hk] using hpos a.Name c hk
    · rw [calculateCpuUsage_name]
      exact hzero
    · intro b _
      exact hnonneg b.Name

/-- Witness for C19: of the candidates w1, w2, w3 the second is not reachable;
the costs of w1 and w3, computed with the power function `fun x y => x + y`,
are positive. -/
theorem ePvm_picks_first_failed_candidate_witness :
    scheduler.fetchFails (sample.secondFails [sample.diskNode 0 "w1" 0 0].length) ∧
    scheduler.EPvm.Pick
        (scheduler.EPvm.Score (fun x y : ℚ => x + y) (sample.diskTask "T1" 0)
          ([sample.diskNode 0 "w1" 0 0] ++ sample.diskNode 1 "w2" 0 0 ::
            [sample.diskNode 2 "w3" 0 0]) sample.secondFails).1
        (scheduler.EPvm.Score (fun x y : ℚ => x + y) (sample.diskTask "T1" 0)
          ([sample.diskNode 0 "w1" 0 0] ++ sample.diskNode 1 "w2" 0 0 ::
            [sample.diskNode 2 "w3" 0 0]) sample.secondFails).2 =
      some (scheduler.calculateCpuUsage (R := ℚ) (sample.diskNode 1 "w2" 0 0)
        (sample.secondFails [sample.diskNode 0 "w1" 0 0].length).1
        (sample.secondFails [sample.diskNode 0 "w1" 0 0].length).2).1 :=
  have hfail : scheduler.fetchFails (sample.secondFails [sample.diskNode 0 "w1" 0 0].length) :=
    Or.inl rfl
  ⟨hfail,
   (ePvm_picks_first_failed_candidate (fun x y : ℚ => x + y) (sample.diskTask "T1" 0)
      [sample.diskNode 0 "w1" 0 0] [sample.diskNode 2 "w3" 0 0] (sample.diskNode 1 "w2" 0 0)
      sample.secondFails hfail
      (by
        intro j hj
        have hj0 : j = 0 := by simpa using hj
        subst hj0
        simp [scheduler.fetchFails, sample.secondFails])
      (by
        intro x hx
        simp only [List.singleton_append, List.mem_cons, List.mem_singleton,
          List.not_mem_nil, or_false] at hx
        rcases hx with hx | hx <;> rw [hx] <;> decide)
      (by
        intro k c hc
        have hw1 : (sample.secondFails 0) =
            (some (sample.memStats 8388608 4194304 (sample.cpuCounters 100 100)),
             some (sample.memStats 8388608 4194304 (sample.cpuCounters 200 300))) := rfl
        have hw3 : (sample.secondFails 2) =
            (some (sample.memStats 8388608 4194304 (sample.cpuCounters 100 100)),
             some (sample.memStats 8388608 4194304 (sample.cpuCounters 200 300))) := rfl
        have hw2 : (sample.secondFails 1) = (none, none) := rfl
        simp only [scheduler.EPvm.Score, List.singleton_append, scheduler.EPvm.scoreLoop, hw1,
          hw2, hw3, calculateCpuUsage_success, Nat.zero_add, Nat.reduceAdd] at hc
        simp only [scheduler.calculateCpuUsage, node.Node.GetStats, GoMap.set, GoMap.get?,
          sample.diskNode, node.NewNode] at hc
        by_cases h1 : "w1" = k
        · simp [h1, scheduler.EPvm.cost, scheduler.calculateLoad, scheduler.LIEB,
            sample.memStats, sample.diskTask, task.Task.zero, add64, wrap64, toInt64] at hc
          rw [← hc]; norm_num
        · by_cases h3 : "w3" = k
          · simp [h1, h3, scheduler.EPvm.cost, scheduler.calculateLoad, scheduler.LIEB,
              sample.memStats, sample.diskTask, task.Task.zero, add64, wrap64, toInt64] at hc
            rw [← hc]; norm_num
          · simp [h1, h3] at hc)).2.2.2.2⟩

/-- C21: over exact real arithmetic (`float64` as ℝ, `math.Pow` as `Real.rpow`),
for every task with Memory >= 0 and every two nodes `a`, `b` with equal
Memory > 0, equal MemUsedKb and equal MemoryAllocated and task counts
0 <= a.TaskCount < b.TaskCount (below the largest `int`, so that the successor
does not wrap), the cost of lines 102-112 is strictly positive for both nodes
and strictly smaller for `a`, whatever the sampled cpu usages; and `EPvm.Pick`,
given scores that hold these costs under the names of the nodes, returns `a` in
either order of the candidates. -/
theorem ePvm_cost_positive_and_increasing (t : task.Task) (a b : node.Node) (ua ub : ℝ)
    (scores : GoMap String ℝ)
    (htask : 0 ≤ t.Memory)
    (hmem : a.Memory = b.Memory) (hpos : 0 < a.Memory)
    (hused : a.Stats.MemUsedKb = b.Stats.MemUsedKb)
    (halloc : a.MemoryAllocated = b.MemoryAllocated)
    (hcount : 0 ≤ a.TaskCount) (hless : a.TaskCount < b.TaskCount)
    (hint : b.TaskCount < 2 ^ 63 - 1)
    (hsa : scores.get? a.Name = some (scheduler.EPvm.cost Real.rpow t a ua))
    (hsb : scores.get? b.Name = some (scheduler.EPvm.cost Real.rpow t b ub)) :
    0 < scheduler.EPvm.cost Real.rpow t a ua ∧
      0 < scheduler.EPvm.cost Real.rpow t b ub ∧
      scheduler.EPvm.cost Real.rpow t a ua < scheduler.EPvm.cost Real.rpow t b ub ∧
      scheduler.EPvm.Pick scores [a, b] = some a ∧
      scheduler.EPvm.Pick scores [b, a] = some a := by
  have hq : (0 : ℝ) ≤ ((Int.tdiv t.Memory 1000 : Int) : ℝ) :=
    Int.cast_nonneg.2 (Int.tdiv_nonneg htask (by decide))
  have hma : (0 : ℝ) < (a.Memory : ℝ) := Int.cast_pos.2 hpos
  have hmb : (0 : ℝ) < (b.Memory : ℝ) := by rw [← hmem]; exact hma
  have hca := ePvm_cost_real t a ua hcount (by omega)
  have hcb := ePvm_cost_real t b ub (by omega) hint
  have hmema := memory_term_nonneg ((a.Stats.MemUsedKb : ℝ) + (a.MemoryAllocated : ℝ))
    ((Int.tdiv t.Memory 1000 : Int) : ℝ) (a.Memory : ℝ) hq hma
  have hmemb := memory_term_nonneg ((b.Stats.MemUsedKb : ℝ) + (b.MemoryAllocated : ℝ))
    ((Int.tdiv t.Memory 1000 : Int) : ℝ) (b.Memory : ℝ) hq hmb
  have hta := taskCount_term_pos (a.TaskCount : ℝ)
  have htb := taskCount_term_pos (b.TaskCount : ℝ)
  have hlt := taskCount_term_lt (a.TaskCount : ℝ) (b.TaskCount : ℝ) (Int.cast_lt.2 hless)
  have hcost : scheduler.EPvm.cost Real.rpow t a ua < scheduler.EPvm.cost Real.rpow t b ub := by
    rw [hca, hcb, hmem, hused, halloc]
    linarith
  have hga : scores.getD a.Name 0 = scheduler.EPvm.cost Real.rpow t a ua := by
    simp [GoMap.getD, hsa]
  have hgb : scores.getD b.Name 0 = scheduler.EPvm.cost Real.rpow t b ub := by
    simp [GoMap.getD, hsb]
  refine ⟨?_, ?_, hcost, ?_, ?_⟩
  · rw [hca]; linarith
  · rw [hcb]; linarith
  · rw [ePvm_pick_pair, hga, hgb, if_neg (not_lt.2 (le_of_lt hcost))]
  · rw [ePvm_pick_pair, hga, hgb, if_pos hcost]

/-- Witness for C21: two nodes with 8 GiB of memory, w1 idle and w2 running one
task. -/
theorem ePvm_cost_positive_and_increasing_witness :
    (sample.loadedNode 0 "w1" 8388608 0).TaskCount <
        (sample.loadedNode 1 "w2" 8388608 1).TaskCount ∧
      scheduler.EPvm.cost Real.rpow (sample.diskTask "T1" 0)
          (sample.loadedNode 0 "w1" 8388608 0) 0 <
        scheduler.EPvm.cost Real.rpow (sample.diskTask "T1" 0)
          (sample.loadedNode 1 "w2" 8388608 1) 0 ∧
      scheduler.EPvm.Pick
          ([("w1", scheduler.EPvm.cost Real.rpow (sample.diskTask "T1" 0)
                    (sample.loadedNode 0 "w1" 8388608 0) 0),
            ("w2", scheduler.EPvm.cost Real.rpow (sample.diskTask "T1" 0)
                    (sample.loadedNode 1 "w2" 8388608 1) 0)] : GoMap String ℝ)
          [sample.loadedNode 1 "w2" 8388608 1, sample.loadedNode 0 "w1" 8388608 0] =
        some (sample.loadedNode 0 "w1" 8388608 0) :=
  have h := ePvm_cost_positive_and_increasing (sample.diskTask "T1" 0)
    (sample.loadedNode 0 "w1" 8388608 0) (sample.loadedNode 1 "w2" 8388608 1) 0 0
    ([("w1", scheduler.EPvm.cost Real.rpow (sample.diskTask "T1" 0)
              (sample.loadedNode 0 "w1" 8388608 0) 0),
      ("w2", scheduler.EPvm.cost Real.rpow (sample.diskTask "T1" 0)
              (sample.loadedNode 1 "w2" 8388608 1) 0)] : GoMap String ℝ)
    (by decide) rfl (by decide) rfl rfl (by decide) (by decide) (by decide)
    (by simp [GoMap.get?, sample.loadedNode, node.NewNode])
    (by simp [GoMap.get?, sample.loadedNode, node.NewNode])
  ⟨by decide, h.2.2.1, h.2.2.2.2⟩

end Cube
